import Mathlib

/-!
# Boomerang decompiler: C emitter and decompilation driver

A shallow embedding of parts of `CCodeGenerator.cpp`, `ProcDecompiler.cpp`, `Module.cpp`
and `DefaultFrontEnd.h`, together with theorems about them.

Conventions of the embedding:
* a `QString` is a Lean `String`, an `OStream` is the string written so far
  (`str << x` appends `x`);
* `m_lines` is a `List String`, `m_usedLabels` a list of address values;
* an `assert` that fails makes the embedded function return `none`.
-/

set_option autoImplicit false

namespace Boomerang

/-! ## Qt string helpers used by the emitter -/

/-- `QString::startsWith(prefix)`. -/
def startsWith (s pre : String) : Bool := pre.data.isPrefixOf s.data

/-- `QString::contains(QChar)`. -/
def contains (s : String) (c : Char) : Bool := s.data.contains c

/-- `QString::indexOf(QChar)`; only called on strings that contain `c`. -/
def indexOf (s : String) (c : Char) : Nat := s.data.indexOf c

/-- `QString::midRef(pos, n)`: the `n` characters starting at `pos`. -/
def midRef (s : String) (pos n : Nat) : String := ⟨(s.data.drop pos).take n⟩

/-- `QString::number(n, base)` for an unsigned `n`: lower-case digits, no leading zeros. -/
def number (n base : Nat) : String := ⟨Nat.toDigits base n⟩

/-! ## Operator precedence and parentheses -/

/-- The precedence enumeration `OpPrec`, represented by the numeric value of the
enumerator (the comparison `inner > outer` of the source is on these values). -/
abbrev OpPrec := Nat

/-- `CCodeGenerator::openParen`. -/
def openParen (str : String) (outer inner : OpPrec) : String :=
  if inner > outer then str ++ "(" else str

/-- `CCodeGenerator::closeParen`. -/
def closeParen (str : String) (outer inner : OpPrec) : String :=
  if inner > outer then str ++ ")" else str

/-! ## Emitter state, labels and gotos -/

/-- The part of the `CCodeGenerator` object that the label functions use. -/
structure CCodeGenerator where
  m_lines : List String := []
  m_usedLabels : List Nat := []
  m_indent : Int := 0
  deriving Repr, DecidableEq

/-- `CCodeGenerator::appendLine`. -/
def appendLine (g : CCodeGenerator) (s : String) : CCodeGenerator :=
  { g with m_lines := g.m_lines ++ [s] }

/-- `CCodeGenerator::indent`: four blanks per level, nothing for a level `≤ 0`. -/
def indent (str : String) (indLevel : Int) : String :=
  (List.range indLevel.toNat).foldl (fun acc _ => acc ++ "    ") str

/-- `CCodeGenerator::addGoto`, for a block whose low address is `lowAddr`. -/
def addGoto (g : CCodeGenerator) (lowAddr : Nat) : CCodeGenerator :=
  let tgt := indent "" g.m_indent ++ "goto bb0x" ++ number lowAddr 16 ++ ";"
  let g1 := appendLine g tgt
  { g1 with m_usedLabels := if lowAddr ∈ g1.m_usedLabels then g1.m_usedLabels
                            else lowAddr :: g1.m_usedLabels }

/-- `CCodeGenerator::addLabel`, for a block whose low address is `lowAddr`. -/
def addLabel (g : CCodeGenerator) (lowAddr : Nat) : CCodeGenerator :=
  appendLine g ("bb0x" ++ number lowAddr 16 ++ ":")

/-- The test `it->startsWith("bb0x") && it->contains(':')` of `removeUnusedLabels`. -/
def isLabelLine (l : String) : Bool := startsWith l "bb0x" && contains l ':'

/-- The text `it->midRef(4, it->indexOf(':') - 4)` of `removeUnusedLabels`. -/
def labelAddrText (l : String) : String := midRef l 4 (indexOf l ':' - 4)

/-- The loop of `CCodeGenerator::removeUnusedLabels` over `m_lines`.
`toLongLong s` stands for `Address(s.toLongLong(&ok, 16)).value()`, and is `none`
when Qt reports `ok = false` (then `assert(ok)` fails). -/
def removeUnusedLabelsLoop (toLongLong : String → Option Nat) (used : List Nat) :
    List String → Option (List String)
  | [] => some []
  | l :: rest =>
    if isLabelLine l then
      match toLongLong (labelAddrText l) with
      | none => none
      | some bbAddr =>
        if bbAddr ∉ used then removeUnusedLabelsLoop toLongLong used rest
        else (removeUnusedLabelsLoop toLongLong used rest).map (l :: ·)
    else (removeUnusedLabelsLoop toLongLong used rest).map (l :: ·)

/-- `CCodeGenerator::removeUnusedLabels`. -/
def removeUnusedLabels (toLongLong : String → Option Nat) (g : CCodeGenerator) :
    Option CCodeGenerator :=
  (removeUnusedLabelsLoop toLongLong g.m_usedLabels g.m_lines).map
    (fun ls => { g with m_lines := ls })

/-- The lines that `removeUnusedLabels` deletes: label lines whose address is not used. -/
def isUnusedLabel (toLongLong : String → Option Nat) (used : List Nat) (l : String) : Bool :=
  isLabelLine l &&
    (match toLongLong (labelAddrText l) with
     | some bbAddr => decide (bbAddr ∉ used)
     | none => false)

/-- A reader for the digits that `number _ 16` writes (both cases of letters). -/
def hexDigitValue (c : Char) : Option Nat :=
  if '0' ≤ c ∧ c ≤ '9' then some (c.toNat - 48)
  else if 'a' ≤ c ∧ c ≤ 'f' then some (c.toNat - 87)
  else if 'A' ≤ c ∧ c ≤ 'F' then some (c.toNat - 55)
  else none

/-- Reads a digit string in the given base, most significant digit first. -/
def readDigits (base : Nat) : List Char → Nat → Option Nat
  | [], acc => some acc
  | c :: cs, acc =>
    match hexDigitValue c with
    | some d => if d < base then readDigits base cs (acc * base + d) else none
    | none => none

/-- A plain hexadecimal reader: a non-empty string of hexadecimal digits. -/
def hexToNat (s : String) : Option Nat :=
  if s.data = [] then none else readDigits 16 s.data 0

/-! ## Integer constants (`appendExp`, case `opIntConst`) -/

/-- `static_cast<unsigned int>(K)` / `uint32_t(K)` for a 32-bit `int` `K`. -/
def toUnsigned32 (K : Int) : Nat := (K % 4294967296).toNat

/-- `str << K` for an `int`: decimal digits with a leading minus for negative values. -/
def intToString (K : Int) : String :=
  if K < 0 then "-" ++ number (-K).toNat 10 else number K.toNat 10

/-- The text written by the `switch (K)` for constants of type char. -/
def charConstText (K : Int) : String :=
  if K = 7 then "'\\a'"
  else if K = 8 then "'\\b'"
  else if K = 12 then "'\\f'"
  else if K = 10 then "'\\n'"
  else if K = 13 then "'\\r'"
  else if K = 9 then "'\\t'"
  else if K = 11 then "'\\v'"
  else if K = 92 then "'\\\\'"
  else if K = 63 then "'\\?'"
  else if K = 39 then "'\\''"
  else if K = 34 then "'\\\"'"
  else "'" ++ String.singleton (Char.ofNat (K % 256).toNat) ++ "'"

/-- The text that `appendExp` writes for `opIntConst` with value `K`; `isChar` says
whether the constant has a type and that type is char, `uns` is the unsigned flag. -/
def intConstText (K : Int) (isChar uns : Bool) : String :=
  if uns && decide (K < 0) then
    let rem := toUnsigned32 K % 100
    if rem = 0 ∨ rem = 99 ∨ K > -128 then
      number (toUnsigned32 K) 10 ++ "U"
    else
      "0x" ++ number (toUnsigned32 K) 16
  else if isChar then charConstText K
  else if -2048 < K ∧ K < 2048 then intToString K
  else "0x" ++ number (toUnsigned32 K) 16

/-- `appendExp(str, Const(K), curPrec, uns)`: the case `opIntConst`. -/
def appendIntConst (str : String) (K : Int) (isChar uns : Bool) : String :=
  str ++ intConstText K isChar uns

/-- Drops one trailing `U` suffix, when there is one. -/
def stripSuffixU (cs : List Char) : List Char :=
  if cs.getLast? = some 'U' then cs.dropLast else cs

/-- Reads a C integer literal without suffix: decimal digits with an optional leading
minus, or `0x` and hexadecimal digits. The result is the mathematical value. -/
def readLiteralBody : List Char → Option Int
  | '-' :: ds => if ds = [] then none else (readDigits 10 ds 0).map (fun n => -(n : Int))
  | '0' :: 'x' :: hs => if hs = [] then none else (readDigits 16 hs 0).map (fun n => (n : Int))
  | ds => if ds = [] then none else (readDigits 10 ds 0).map (fun n => (n : Int))

/-- Reads a C integer literal as the round-trip property describes it: decimal digits
with an optional leading minus, or `0x` and hexadecimal digits, with an optional `U`
suffix. -/
def readCLiteral (s : String) : Option Int := readLiteralBody (stripSuffixU s.data)

/-! ## Types -/

/-- Modelled from the spec: the type classes (`VoidType`, `CharType`, `PointerType`,
`ArrayType`, ...) are declared in headers that are not among the sources. The variants
are those of the data model (`Void`, `Integer` with size and signedness, `Float`,
`Pointer` with the type pointed to, `Array` with base type and a length or unbounded,
`Size`, `Function` without its signature), and `char` for the type that `isChar`
recognises. Named types are left out, so
`resolvesToPointer` and `resolvesToArray` are `isPointer` and `isArray`. -/
inductive SharedType where
  | void
  | char
  | integer (size : Nat) (signed : Bool)
  | float (size : Nat)
  | pointer (pointsTo : SharedType)
  | array (baseType : SharedType) (length : Option Nat)
  | size (bits : Nat)
  | func
  deriving DecidableEq, Repr

/-- `Type::isVoid`. -/
def SharedType.isVoid : SharedType → Bool
  | .void => true
  | _ => false

/-- `Type::isChar`. -/
def SharedType.isChar : SharedType → Bool
  | .char => true
  | _ => false

/-- `Type::isPointer`. -/
def SharedType.isPointer : SharedType → Bool
  | .pointer _ => true
  | _ => false

/-- `Type::isFunc`. -/
def SharedType.isFunc : SharedType → Bool
  | .func => true
  | _ => false

/-- `Type::isArray`. -/
def SharedType.isArray : SharedType → Bool
  | .array _ _ => true
  | _ => false

/-! ## Expressions -/

/-- The operator tags `OPER`, as listed by `operToString`. -/
inductive OPER where
  | opWild | opPlus | opMinus | opMult | opDiv | opFPlus | opFMinus | opFMult | opFDiv | opFNeg
  | opFPlusd | opFMinusd | opFMultd | opFDivd | opFPlusq | opFMinusq | opFMultq | opFDivq
  | opFMultsd | opFMultdq | opSQRTs | opSQRTd | opSQRTq | opMults | opDivs | opMod | opMods
  | opNeg | opAnd | opOr | opEquals | opNotEqual | opLess | opGtr | opLessEq | opGtrEq
  | opLessUns | opGtrUns | opLessEqUns | opGtrEqUns | opUpper | opLower | opNot | opLNot
  | opSignExt | opBitAnd | opBitOr | opBitXor | opShiftL | opShiftR | opShiftRA | opRotateL
  | opRotateR | opRotateLC | opRotateRC | opTargetInst | opTypedExp | opNamedExp | opGuard
  | opComma | opFlagCall | opFlagDef | opList | opNameTable | opExpTable | opOpTable
  | opSuccessor | opTern | opAt | opRegOf | opMemOf | opAddrOf | opWildMemOf | opWildRegOf
  | opWildAddrOf | opDefineAll | opPhi | opSubscript | opParam | opArg | opLocal | opGlobal
  | opExpand | opMemberAccess | opArrayIndex | opTemp | opSize | opCastIntStar | opPostVar
  | opMachFtr | opTruncu | opTruncs | opZfill | opSgnEx | opFsize | opItof | opFtoi | opFround
  | opFtrunc | opFabs | opForceInt | opForceFlt | opFpush | opFpop | opSin | opCos | opTan
  | opArcTan | opLog2 | opLog10 | opLoge | opPow | opSqrt | opExecute | opIntConst
  | opLongConst | opFltConst | opStrConst | opFuncConst | opWildIntConst | opWildStrConst
  | opPC | opAFP | opAGP | opNil | opFlags | opFflags | opAnull | opHLCTI | opDEFINE | opTrue
  | opFalse | opTypeOf | opKindOf | opInitValueOf | opZF | opCF | opNF | opOF | opDF | opFZF
  | opFLF | opFGF | opCTI | opNEXT
  deriving DecidableEq, Repr

/-- Expression trees: `Const` (by kind of constant), `Terminal`, `Unary`, `Binary`,
`Ternary` and `TypedExp` nodes. For an integer constant `isChar` says whether its type is
char. -/
inductive Exp where
  | intConst (K : Int) (isChar : Bool)
  | longConst (v : Nat)
  | strConst (s : String)
  | funcConst (name : String)
  | terminal (op : OPER)
  | unary (op : OPER) (e1 : Exp)
  | binary (op : OPER) (e1 e2 : Exp)
  | ternary (op : OPER) (e1 e2 e3 : Exp)
  | typed (type : SharedType) (e1 : Exp)
  deriving DecidableEq, Repr

/-- `Const::get(int)`: an integer constant without a char type. -/
def Exp.constInt (K : Int) : Exp := .intConst K false

/-- Wraps an integer to the range of a 32-bit `int`. -/
def wrapInt32 (z : Int) : Int := (z + 2147483648) % 4294967296 - 2147483648

/-- `a << k` on 32-bit `int`s; a shift count outside `0 .. 31` is undefined behaviour
in C++ and gives `none`. -/
def shl32 (a k : Int) : Option Int :=
  if 0 ≤ k ∧ k < 32 then some (wrapInt32 (a * 2 ^ k.toNat)) else none

/-- The variable `mask` of `addAssignmentStatement` for a left side `exp1@[n:m]`:
`~(((1 << (m - n + 1)) - 1) << m)`. -/
def bitfieldAssignMask (n m : Int) : Option Int :=
  (shl32 1 (m - n + 1)).bind fun a =>
    (shl32 (wrapInt32 (a - 1)) m).map fun b => -b - 1

/-- The right-hand side that `addAssignmentStatement` builds for `exp1@[n:m] := rhs`
(before `simplify`, which keeps the value of an expression):
`Binary(opBitAnd, exp1, Binary(opBitOr, Const(mask), Binary(opShiftL, rhs, Const(m))))`. -/
def bitfieldAssignRhs (exp1 rhs : Exp) (n m : Int) : Option Exp :=
  (bitfieldAssignMask n m).map fun mask =>
    .binary .opBitAnd exp1
      (.binary .opBitOr (Exp.constInt mask) (.binary .opShiftL rhs (Exp.constInt m)))

/-- The value of an expression as a 32-bit pattern, with C semantics for the bitwise and
shift operators; `ρ` gives the value of every other subexpression. -/
def evalBits (ρ : Exp → Nat) : Exp → Option Nat
  | .intConst K _ => some (toUnsigned32 K)
  | .binary .opBitAnd a b =>
    (evalBits ρ a).bind fun x => (evalBits ρ b).map fun y => x &&& y
  | .binary .opBitOr a b =>
    (evalBits ρ a).bind fun x => (evalBits ρ b).map fun y => x ||| y
  | .binary .opShiftL a b =>
    (evalBits ρ a).bind fun x => (evalBits ρ b).bind fun k =>
      if k < 32 then some ((x <<< k) % 4294967296) else none
  | .binary .opShiftR a b =>
    (evalBits ρ a).bind fun x => (evalBits ρ b).bind fun k =>
      if k < 32 then some (x >>> k) else none
  | e => some (ρ e % 4294967296)

/-- The variable `mask` of `appendExp`, case `opAt`, for `s1@[first:last]`:
`(1 << (first - last + 1)) - 1` as an `unsigned int`. -/
def bitfieldReadMask (first last : Int) : Option Nat :=
  (shl32 1 (first - last + 1)).map fun a => toUnsigned32 (a - 1)

/-- The value of the text `s1 >> last & mask` that `appendExp` writes for the bitfield
read `s1@[first:last]`, when `s1` has the value `x`. -/
def bitfieldReadValue (x : Nat) (first last : Int) : Option Nat :=
  (bitfieldReadMask first last).bind fun mask =>
    if 0 ≤ last ∧ last < 32 then some ((x >>> last.toNat) &&& mask) else none

/-! ## Decompilation driver (`ProcDecompiler.cpp`) -/

/-- Modelled from the spec: the enumeration `ProcStatus` is declared in a header that is
not among the sources; its values are ordered as the data model orders them
(`Undecoded < Decoded < Visited < InCycle < EarlyDone < Preserveds < Final`), followed by
the value `PROC_CODE_GENERATED` that the emitter sets. -/
inductive ProcStatus where
  | PROC_UNDECODED | PROC_DECODED | PROC_VISITED | PROC_INCYCLE | PROC_EARLYDONE
  | PROC_PRESERVEDS | PROC_FINAL | PROC_CODE_GENERATED
  deriving DecidableEq, Repr

/-- The numeric value of a status. -/
def ProcStatus.toNat : ProcStatus → Nat
  | .PROC_UNDECODED => 0 | .PROC_DECODED => 1 | .PROC_VISITED => 2 | .PROC_INCYCLE => 3
  | .PROC_EARLYDONE => 4 | .PROC_PRESERVEDS => 5 | .PROC_FINAL => 6
  | .PROC_CODE_GENERATED => 7

instance : LE ProcStatus := ⟨fun a b => a.toNat ≤ b.toNat⟩
instance : LT ProcStatus := ⟨fun a b => a.toNat < b.toNat⟩
instance (a b : ProcStatus) : Decidable (a ≤ b) := inferInstanceAs (Decidable (a.toNat ≤ b.toNat))
instance (a b : ProcStatus) : Decidable (a < b) := inferInstanceAs (Decidable (a.toNat < b.toNat))

/-- The pass identifiers that the driver hands to `PassManager::executePass`. -/
inductive PassID where
  | StatementInit | BBSimplify | Dominators | PhiPlacement | BlockVarRename
  | StatementPropagation | CallDefineUpdate | CallArgumentUpdate | CallAndPhiFix
  | GlobalConstReplace | SPPreservation | PreservationAnalysis | AssignRemoval
  | StrengthReductionReversal | LocalTypeAnalysis | UnusedStatementRemoval
  | UnusedLocalRemoval | FinalParameterSearch | DuplicateArgsRemoval | ParameterSymbolMap
  | LocalAndParamMap | BranchAnalysis
  deriving DecidableEq, Repr

/-- A `UserProc *`: procedures are identified by a number, ordered the way `ProcSet`
(a `std::set<UserProc *>`) orders the pointers. -/
abbrev UserProc := Nat

/-- A `Function *`: a library function or the user procedure `id`. -/
structure Function where
  isLib : Bool
  id : UserProc
  deriving DecidableEq, Repr

/-- The values of `BBType`. -/
inductive BBType where
  | Invalid | Fall | Oneway | Twoway | Nway | Call | Ret | CompJump | CompCall
  deriving DecidableEq, Repr

/-- What the driver reads of a basic block: its type, whether the high-level statement
of its last RTL is a call (`call->isCall()`), and the call's destination procedure. -/
structure BasicBlock where
  type : BBType
  hlStmtIsCall : Bool := true
  destProc : Option Function := none
  deriving DecidableEq, Repr

/-- A `ProcSet`: the elements of a `std::set<UserProc *>` in increasing order. -/
abbrev ProcSet := List UserProc

/-- `ProcSet::insert`. -/
def procSetInsert : ProcSet → UserProc → ProcSet
  | [], p => [p]
  | q :: rest, p =>
    if p < q then p :: q :: rest
    else if p = q then q :: rest
    else q :: procSetInsert rest p

/-- The places of the driver that write a procedure's status. -/
inductive Site where
  | enterVisited | cycleCall | afterCallee | final | groupFinal | createGroup | addToGroup
  | restart | earlyDone | groupEnter | preserveds
  deriving DecidableEq, Repr

/-- The functions of the driver whose entry is recorded in the trace. -/
inductive DriverFn where
  | tryDecompileRecursive | earlyDecompile | middleDecompile | lateDecompile
  | decompileProcInRecursionGroup | recursionGroupAnalysis
  deriving DecidableEq, Repr

/-- What a run of the driver records, in order: the passes executed, every status write
(procedure, old value, new value, place), every new value of `m_callStack`, function
entries, and the answers of the front end and of the indirect-jump analyzer. -/
inductive Event where
  | pass (id : PassID) (proc : UserProc)
  | status (proc : UserProc) (old new : ProcStatus) (site : Site)
  | stack (callStack : List UserProc)
  | call (fn : DriverFn) (proc : UserProc)
  | reDecode (proc : UserProc) (ok : Bool)
  | indirect (proc : UserProc) (changed : Bool)
  deriving DecidableEq, Repr

/-- What the driver takes from its collaborators, which are not part of the sources.
Every answer may depend on the moment it is asked for, given as the length of the trace:
the control-flow graph and the callee list of a procedure, whether `Prog::reDecode`
succeeds, what `PassManager::executePass` returns, whether
`IndirectJumpAnalyzer::decodeIndirectJmp` reports a change for some block, and the
settings. -/
structure Environment where
  cfg : UserProc → Nat → List BasicBlock
  getCallees : UserProc → Nat → List Function
  reDecode : UserProc → Nat → Bool
  executePass : PassID → UserProc → Nat → Bool
  decodeIndirectJmp : UserProc → Nat → Bool
  decodeChildren : Bool := true
  changeSignatures : Bool := false
  nameParameters : Bool := false

/-- The state the driver works on: the status and the `recursionGroup` field of every
procedure, the registry `m_recursionGroups`, the `ProcSet` objects that the shared
pointers refer to (a handle is an index into `procSets`), `m_callStack` (top last) and
the trace. -/
structure DecompState where
  status : UserProc → ProcStatus
  recursionGroup : UserProc → Option Nat
  m_recursionGroups : UserProc → Option Nat
  procSets : List ProcSet
  m_callStack : List UserProc
  trace : List Event

/-- Failures of the embedded driver. -/
inductive DriverError where
  | outOfFuel | assertFailed
  deriving DecidableEq, Repr

namespace DecompState

/-- The state before the first run: nothing decoded, no groups, empty call stack. -/
def init : DecompState :=
  { status := fun _ => .PROC_UNDECODED, recursionGroup := fun _ => none,
    m_recursionGroups := fun _ => none, procSets := [], m_callStack := [], trace := [] }

/-- The set a handle points to. -/
def getSet (s : DecompState) (h : Nat) : ProcSet := s.procSets.getD h []

/-- `new ProcSet`: a fresh empty set and its handle. -/
def newProcSet (s : DecompState) : DecompState × Nat :=
  ({ s with procSets := s.procSets ++ [[]] }, s.procSets.length)

/-- `h->insert(p)`. -/
def insertInto (s : DecompState) (h : Nat) (p : UserProc) : DecompState :=
  { s with procSets := s.procSets.set h (procSetInsert (s.getSet h) p) }

/-- `h->insert(first, last)` for a range of procedures. -/
def insertAll (s : DecompState) (h : Nat) (ps : List UserProc) : DecompState :=
  ps.foldl (fun st p => st.insertInto h p) s

/-- Appends an event to the trace. -/
def log (s : DecompState) (e : Event) : DecompState := { s with trace := s.trace ++ [e] }

/-- `proc->setStatus(st)`. -/
def setStatus (s : DecompState) (proc : UserProc) (st : ProcStatus) (site : Site) :
    DecompState :=
  { s with status := Function.update s.status proc st,
           trace := s.trace ++ [.status proc (s.status proc) st site] }

/-- `proc->setRecursionGroup(h)`. -/
def setRecursionGroup (s : DecompState) (proc : UserProc) (h : Option Nat) : DecompState :=
  { s with recursionGroup := Function.update s.recursionGroup proc h }

/-- `m_callStack.push_back(proc)`. -/
def push (s : DecompState) (proc : UserProc) : DecompState :=
  { s with m_callStack := s.m_callStack ++ [proc],
           trace := s.trace ++ [.stack (s.m_callStack ++ [proc])] }

/-- `assert(m_callStack.back() == proc); m_callStack.pop_back()`. -/
def pop (s : DecompState) (proc : UserProc) : Except DriverError DecompState :=
  if s.m_callStack.getLast? = some proc then
    .ok { s with m_callStack := s.m_callStack.dropLast,
                 trace := s.trace ++ [.stack s.m_callStack.dropLast] }
  else .error .assertFailed

/-- `PassManager::get()->executePass(id, proc)`: the pass is recorded and its answer is
the collaborator's. -/
def executePass (env : Environment) (s : DecompState) (id : PassID) (proc : UserProc) :
    DecompState × Bool :=
  (s.log (.pass id proc), env.executePass id proc s.trace.length)

/-- Executes passes whose results are not used. -/
def executePasses (env : Environment) (s : DecompState) (ids : List PassID)
    (proc : UserProc) : DecompState :=
  ids.foldl (fun st id => (st.executePass env id proc).1) s

end DecompState

/-- The body of the last loop of `createRecursionGoup` and of `addToRecursionGroup`:
`proc` gets the union group in the registry and in its field, and status `InCycle`. -/
def assignStep (unionGroup : Nat) (site : Site) (st : DecompState) (proc : UserProc) :
    DecompState :=
  (({ st with m_recursionGroups := Function.update st.m_recursionGroups proc (some unionGroup) }
    : DecompState).setRecursionGroup proc (some unionGroup)).setStatus proc .PROC_INCYCLE site

/-- The last loop of `createRecursionGoup` and of `addToRecursionGroup`, over the members
of the union group. -/
def assignGroup (s : DecompState) (unionGroup : Nat) (site : Site) : DecompState :=
  (s.getSet unionGroup).foldl (assignStep unionGroup site) s

/-- The body of the loop `for (UserProc *existingProc : *group)` that fills the union
group: the procedure itself and, when it has one, all of its recursion group. -/
def unionStep (unionGroup : Nat) (st : DecompState) (existingProc : UserProc) : DecompState :=
  match (st.insertInto unionGroup existingProc).recursionGroup existingProc with
  | some r =>
    (st.insertInto unionGroup existingProc).insertAll unionGroup
      ((st.insertInto unionGroup existingProc).getSet r)
  | none => st.insertInto unionGroup existingProc

/-- The loop `for (UserProc *existingProc : *group)` that fills the union group. -/
def unionInto (s : DecompState) (unionGroup : Nat) (members : ProcSet) : DecompState :=
  members.foldl (unionStep unionGroup) s

/-- The body of the first loop of `createRecursionGoup`; the state of the loop is the
driver state and the handle `unionGroup`. -/
def createStep (newGroup : Nat) (members : ProcSet) (acc : DecompState × Nat)
    (proc : UserProc) : DecompState × Nat :=
  if (acc.1.m_recursionGroups proc).isSome then
    (unionInto (if acc.2 = newGroup then acc.1.newProcSet else acc).1
        (if acc.2 = newGroup then acc.1.newProcSet else acc).2 members,
      (if acc.2 = newGroup then acc.1.newProcSet else acc).2)
  else acc

/-- `ProcDecompiler::createRecursionGoup(newGroup)`. -/
def createRecursionGoup (s : DecompState) (newGroup : Nat) : DecompState :=
  assignGroup ((s.getSet newGroup).foldl (createStep newGroup (s.getSet newGroup)) (s, newGroup)).1
    ((s.getSet newGroup).foldl (createStep newGroup (s.getSet newGroup)) (s, newGroup)).2
    .createGroup

/-- `ProcDecompiler::addToRecursionGroup(proc, recursionGroup)`. -/
def addToRecursionGroup (s : DecompState) (proc : UserProc) (recursionGroup : Nat) :
    DecompState :=
  let r : DecompState × Nat :=
    if (s.m_recursionGroups proc).isSome then
      let acc1 := s.newProcSet
      (unionInto acc1.1 acc1.2 (s.getSet recursionGroup), acc1.2)
    else (s, recursionGroup)
  assignGroup (r.1.insertInto r.2 proc) r.2 .addToGroup

/-- The caller's `newRecursionGroup->insert(calleeIt, m_callStack.end())` on a fresh set,
followed by `createRecursionGoup`: `members` is the part of the call stack from the
callee on. -/
def createGroupOf (s : DecompState) (members : List UserProc) : DecompState :=
  let r := s.newProcSet
  createRecursionGoup (r.1.insertAll r.2 members) r.2

/-- `ProcDecompiler::earlyDecompile`. -/
def earlyDecompile (env : Environment) (s : DecompState) (proc : UserProc) : DecompState :=
  let s0 := s.log (.call .earlyDecompile proc)
  let s1 := s0.executePasses env [.StatementInit, .BBSimplify, .Dominators] proc
  if .PROC_EARLYDONE ≤ s1.status proc then s1
  else s1.executePasses env
    [.CallDefineUpdate, .GlobalConstReplace, .PhiPlacement, .BlockVarRename,
     .StatementPropagation] proc

/-- `ProcDecompiler::lateDecompile`. -/
def lateDecompile (env : Environment) (s : DecompState) (proc : UserProc) : DecompState :=
  let s0 := s.log (.call .lateDecompile proc)
  let s1 := if s0.status proc < .PROC_FINAL then
      s0.executePasses env
        [.LocalTypeAnalysis, .PhiPlacement, .BlockVarRename, .StatementPropagation] proc
    else s0
  let s2 := s1.executePasses env [.UnusedStatementRemoval, .FinalParameterSearch] proc
  let s3 := if env.nameParameters then s2.executePasses env [.ParameterSymbolMap] proc else s2
  s3.executePasses env [.CallDefineUpdate, .CallArgumentUpdate, .BranchAnalysis] proc

/-- The loop `for (int i = 0; i < 3; i++)` of `middleDecompile` ("update returns"). -/
def updateReturnsLoop (env : Environment) (proc : UserProc) : Nat → DecompState → DecompState
  | 0, s => s
  | k + 1, s =>
    let s1 := if s.status proc ≠ .PROC_INCYCLE then
        s.executePasses env [.BlockVarRename] proc else s
    updateReturnsLoop env proc k
      (s1.executePasses env
        [.PreservationAnalysis, .CallDefineUpdate, .CallAndPhiFix, .PreservationAnalysis] proc)

/-- One execution of the body of the `do … while (change && ++pass < 12)` loop of
`middleDecompile`; the result carries the value of `change`. -/
def middleLoopBody (env : Environment) (proc : UserProc) (s : DecompState) :
    DecompState × Bool :=
  let r1 := s.executePass env .PhiPlacement proc
  let r2 := r1.1.executePass env .BlockVarRename proc
  let s3 := if env.changeSignatures then updateReturnsLoop env proc 3 r2.1 else r2.1
  let r4 := s3.executePass env .StatementPropagation proc
  let r5 := r4.1.executePass env .BlockVarRename proc
  ((r5.1.executePass env .AssignRemoval proc).1, r1.2 || r2.2 || r4.2 || r5.2)

/-- The `do … while (change && ++pass < 12)` loop of `middleDecompile`, entered with the
current value of `pass`; the first argument bounds the number of iterations and is never
exhausted when it is at least `12 - pass`. -/
def middleLoop (env : Environment) (proc : UserProc) : Nat → Nat → DecompState → DecompState
  | 0, _, s => s
  | k + 1, pass, s =>
    let r := middleLoopBody env proc s
    if r.2 && decide (pass + 1 < 12) then middleLoop env proc k (pass + 1) r.1 else r.1

/-- The passes of `middleDecompile` up to the check for indirect jumps and calls. -/
def middlePasses (env : Environment) (s : DecompState) (proc : UserProc) : DecompState :=
  let s0 := s.log (.call .middleDecompile proc)
  let s1 := s0.executePasses env [.CallAndPhiFix] proc
  let s2 := if s1.status proc ≠ .PROC_INCYCLE then
      s1.executePasses env [.StatementPropagation] proc else s1
  let s3 := s2.executePasses env
    [.SPPreservation, .PreservationAnalysis, .CallAndPhiFix, .PhiPlacement, .BlockVarRename,
     .StatementPropagation, .CallArgumentUpdate, .StrengthReductionReversal] proc
  let s4 := middleLoop env proc 12 3 s3
  s4.executePasses env
    [.PhiPlacement, .BlockVarRename, .StatementPropagation, .CallAndPhiFix] proc

/-- `ProcDecompiler::middleDecompile`; `tryRec` is `tryDecompileRecursive`. -/
def middleDecompile (env : Environment)
    (tryRec : UserProc → DecompState → Except DriverError DecompState)
    (s : DecompState) (proc : UserProc) : Except DriverError DecompState :=
  if s.m_callStack.getLast? ≠ some proc then .error .assertFailed
  else if env.decodeIndirectJmp proc (middlePasses env s proc).trace.length then
    if env.reDecode proc
        ((middlePasses env s proc).log (.indirect proc true)).trace.length then
      (((((middlePasses env s proc).log (.indirect proc true)).log
          (.reDecode proc true)).setStatus proc .PROC_VISITED .restart).pop proc).bind
        (tryRec proc) |>.map (fun s8 => s8.push proc)
    else
      .ok (((middlePasses env s proc).log (.indirect proc true)).log (.reDecode proc false))
  else
    .ok ((((middlePasses env s proc).log (.indirect proc false)).executePasses env
      [.PreservationAnalysis, .DuplicateArgsRemoval] proc).setStatus proc .PROC_EARLYDONE
        .earlyDone)

/-- The body of the loop over `proc->getCallees()` in `decompileProcInRecursionGroup`;
`dfs` is the recursive call. The state of the loop is `changed`, `visited` and the
driver state. -/
def visitCallee
    (dfs : UserProc → ProcSet → DecompState → Except DriverError (Bool × ProcSet × DecompState))
    (proc : UserProc) (acc : Bool × ProcSet × DecompState) (c : Function) :
    Except DriverError (Bool × ProcSet × DecompState) :=
  if c.isLib then .ok acc
  else if c.id ∈ acc.2.1 then .ok acc
  else
    match acc.2.2.recursionGroup proc with
    | none => .error .assertFailed
    | some g =>
      if c.id ∉ acc.2.2.getSet g then .ok acc
      else (dfs c.id acc.2.1 acc.2.2).map (fun r => (acc.1 || r.1, r.2.1, r.2.2))

/-- `ProcDecompiler::decompileProcInRecursionGroup`, with a bound on the depth of its
recursion. -/
def decompileProcInRecursionGroup (env : Environment)
    (tryRec : UserProc → DecompState → Except DriverError DecompState) :
    Nat → UserProc → ProcSet → DecompState → Except DriverError (Bool × ProcSet × DecompState)
  | 0, _, _, _ => .error .outOfFuel
  | fuel + 1, proc, visited, s =>
    let s0 := (s.log (.call .decompileProcInRecursionGroup proc)).push proc
    ((env.getCallees proc s0.trace.length).foldlM
        (visitCallee (decompileProcInRecursionGroup env tryRec fuel) proc)
        (false, procSetInsert visited proc, s0)).bind fun r =>
      let s1 := earlyDecompile env (r.2.2.setStatus proc .PROC_INCYCLE .groupEnter) proc
      (middleDecompile env tryRec s1 proc).bind fun s2 =>
        let s3 := s2.setStatus proc .PROC_PRESERVEDS .preserveds
        let r1 := s3.executePass env .LocalAndParamMap proc
        let r2 := r1.1.executePass env .CallArgumentUpdate proc
        let r3 := r2.1.executePass env .Dominators proc
        let r4 := r3.1.executePass env .StatementPropagation proc
        (r4.1.pop proc).map fun s5 => (r.1 || r1.2 || r2.2 || r3.2 || r4.2, r.2.1, s5)

/-- The loop `do { … } while (changed && numRepeats++ < 2)` of `recursionGroupAnalysis`,
entered with the current value of `numRepeats`; the first argument bounds the number of
iterations and is never exhausted when it is at least `3 - numRepeats`. -/
def groupAnalysisLoop (env : Environment)
    (tryRec : UserProc → DecompState → Except DriverError DecompState) (fuel : Nat)
    (entry : UserProc) : Nat → Nat → DecompState → Except DriverError DecompState
  | 0, _, s => .ok s
  | k + 1, numRepeats, s =>
    (decompileProcInRecursionGroup env tryRec fuel entry [] s).bind fun r =>
      if r.1 && decide (numRepeats < 2) then
        groupAnalysisLoop env tryRec fuel entry k (numRepeats + 1) r.2.2
      else .ok r.2.2

/-- `ProcDecompiler::recursionGroupAnalysis(group)`. -/
def recursionGroupAnalysis (env : Environment)
    (tryRec : UserProc → DecompState → Except DriverError DecompState) (fuel : Nat)
    (s : DecompState) (group : Nat) : Except DriverError DecompState :=
  match s.getSet group with
  | [] => .ok s
  | entry :: _ =>
    (groupAnalysisLoop env tryRec fuel entry 3 0
        (s.log (.call .recursionGroupAnalysis entry))).map fun s1 =>
      (List.range 2).foldl (fun st _ =>
        (st.getSet group).foldl (fun st2 proc => lateDecompile env st2 proc) st) s1

/-- The part of `m_callStack` from the first occurrence of `callee` on
(`calleeIt .. m_callStack.end()`). -/
def stackFrom (callStack : List UserProc) (callee : UserProc) : List UserProc :=
  callStack.dropWhile (fun p => p != callee)

/-- The branch of `tryDecompileRecursive` for a callee that "has already been visited but
not done": a new recursion group when the callee is on the call stack, otherwise the
procedures above the first member of the callee's group are added to that group; then
`proc` gets status `InCycle`. -/
def cycleCall (s : DecompState) (proc callee : UserProc) : Except DriverError DecompState :=
  let grouped : Except DriverError DecompState :=
    if callee ∈ s.m_callStack then
      .ok (createGroupOf s (stackFrom s.m_callStack callee))
    else
      match s.recursionGroup callee with
      | some recursionGroup =>
        match s.m_callStack.dropWhile (fun func => decide (func ∉ s.getSet recursionGroup)) with
        | [] => .error .assertFailed
        | _ :: above => .ok (above.foldl (fun st p => addToRecursionGroup st p recursionGroup) s)
      | none => .ok s
  grouped.map (fun s1 => s1.setStatus proc .PROC_INCYCLE .cycleCall)

/-- The body of the loop over the blocks of `proc`'s CFG in `tryDecompileRecursive`. -/
def processCallBB (tryRec : UserProc → DecompState → Except DriverError DecompState)
    (proc : UserProc) (s : DecompState) (bb : BasicBlock) : Except DriverError DecompState :=
  if bb.type ≠ .Call then .ok s
  else if !bb.hlStmtIsCall then .ok s
  else
    match bb.destProc with
    | none => .ok s
    | some f =>
      if f.isLib then .ok s
      else if s.status f.id = .PROC_FINAL then .ok s
      else if .PROC_VISITED ≤ s.status f.id ∧ s.status f.id ≤ .PROC_EARLYDONE then
        cycleCall s proc f.id
      else
        (tryRec f.id s).map fun s1 =>
          if s1.status proc ≠ .PROC_INCYCLE ∧ (s1.m_recursionGroups proc).isSome then
            (s1.setStatus proc .PROC_INCYCLE .afterCallee).setRecursionGroup proc
              (s1.m_recursionGroups proc)
          else s1

/-- The end of `tryDecompileRecursive` for a procedure that is in a cycle and in the
registry: the group analysis runs when `proc` is the first element of the call stack
that is in its recursion group. -/
def groupCheck (env : Environment)
    (tryRec : UserProc → DecompState → Except DriverError DecompState) (fuel : Nat)
    (s : DecompState) (proc : UserProc) : Except DriverError DecompState :=
  match s.recursionGroup proc with
  | none => .error .assertFailed
  | some g =>
    match s.m_callStack.dropWhile (fun func => decide (func ∉ s.getSet g)) with
    | [] => .error .assertFailed
    | f :: _ =>
      if f = proc then
        (recursionGroupAnalysis env tryRec fuel s g).map
          (fun s1 => s1.setStatus proc .PROC_FINAL .groupFinal)
      else .ok s

/-- The part of `tryDecompileRecursive` after the loop over the callees, "if no child
involved in recursion": `earlyDecompile` and `middleDecompile`. -/
def earlyAndMiddle (env : Environment)
    (tryRec : UserProc → DecompState → Except DriverError DecompState)
    (s : DecompState) (proc : UserProc) : Except DriverError DecompState :=
  if s.status proc ≠ .PROC_INCYCLE then
    middleDecompile env tryRec (earlyDecompile env s proc) proc
  else .ok s

/-- The end of `tryDecompileRecursive`: `lateDecompile` and status `Final` for a
procedure that is not in a cycle, otherwise the group analysis when `proc` heads its
group; then `proc` is removed from the call stack. -/
def finishProc (env : Environment)
    (tryRec : UserProc → DecompState → Except DriverError DecompState) (fuel : Nat)
    (s : DecompState) (proc : UserProc) : Except DriverError DecompState :=
  (if s.status proc ≠ .PROC_INCYCLE then
      .ok ((lateDecompile env s proc).setStatus proc .PROC_FINAL .final)
    else if (s.m_recursionGroups proc).isSome then
      groupCheck env tryRec fuel s proc
    else .ok s).bind fun s6 => s6.pop proc

/-- `ProcDecompiler::tryDecompileRecursive`, with a bound on the depth of the recursion
(through callees, restarts and group analyses). -/
def tryDecompileRecursive (env : Environment) :
    Nat → UserProc → DecompState → Except DriverError DecompState
  | 0, _, _ => .error .outOfFuel
  | fuel + 1, proc, s =>
    if .PROC_FINAL ≤ s.status proc then .ok (s.log (.call .tryDecompileRecursive proc))
    else if s.status proc < .PROC_DECODED ∧
        env.reDecode proc (s.log (.call .tryDecompileRecursive proc)).trace.length = false then
      .ok ((s.log (.call .tryDecompileRecursive proc)).log (.reDecode proc false))
    else
      let s1 := if s.status proc < .PROC_DECODED then
          (s.log (.call .tryDecompileRecursive proc)).log (.reDecode proc true)
        else s.log (.call .tryDecompileRecursive proc)
      let s2 := if s1.status proc < .PROC_VISITED then
          s1.setStatus proc .PROC_VISITED .enterVisited else s1
      let s3 := s2.push proc
      (if env.decodeChildren then
          (env.cfg proc s3.trace.length).foldlM
            (processCallBB (tryDecompileRecursive env fuel) proc) s3
        else .ok s3).bind fun s4 =>
      (earlyAndMiddle env (tryDecompileRecursive env fuel) s4 proc).bind fun s5 =>
        finishProc env (tryDecompileRecursive env fuel) fuel s5 proc

/-- `ProcDecompiler::decompileRecursive`, started on the initial state. -/
def decompileRecursive (env : Environment) (fuel : Nat) (proc : UserProc) :
    Except DriverError DecompState :=
  tryDecompileRecursive env fuel proc DecompState.init

/-- Whether an event is the start of a recursion group analysis. -/
def Event.isGroupAnalysis : Event → Bool
  | .call .recursionGroupAnalysis _ => true
  | _ => false

/-- Whether the trace records the start of a recursion group analysis. -/
def hasGroupAnalysis (t : List Event) : Bool := t.any Event.isGroupAnalysis

/-- What the invariants of the driver say about a single event: a recorded call stack has
no procedure twice, and a status write does not decrease the status unless it is the
reset of the restart in `middleDecompile`. -/
def Event.ok : Event → Prop
  | .stack callStack => callStack.Nodup
  | .status _ old new site => old ≤ new ∨ site = .restart
  | _ => True

instance (e : Event) : Decidable e.ok := by
  cases e <;> unfold Event.ok <;> infer_instance

/-- Every event recorded before the first recursion group analysis starts is `ok`. -/
def GoodUntilGroupAnalysis (t : List Event) : Prop :=
  ∀ pre e post, t = pre ++ e :: post → hasGroupAnalysis pre = false → e.ok

/-- The status of `proc` after a run, when the run ended normally. -/
def statusAfter (r : Except DriverError DecompState) (proc : UserProc) : Option ProcStatus :=
  match r with
  | .ok s => some (s.status proc)
  | .error _ => none

/-- The trace of a run, when the run ended normally. -/
def traceAfter (r : Except DriverError DecompState) : List Event :=
  match r with
  | .ok s => s.trace
  | .error _ => []

/-- A call block whose destination is the user procedure `p`. -/
def callBB (p : UserProc) : BasicBlock := { type := .Call, destProc := some ⟨false, p⟩ }

/-- Two mutually recursive user procedures: `0` calls `1` and `1` calls `0`. Decoding
succeeds, there are no indirect jumps, and every pass answers `passAnswer`. -/
def mutualRecursion (passAnswer : Bool) : Environment :=
  { cfg := fun p _ => if p = 0 then [callBB 1] else if p = 1 then [callBB 0] else [],
    getCallees := fun p _ =>
      if p = 0 then [⟨false, 1⟩] else if p = 1 then [⟨false, 0⟩] else [],
    reDecode := fun _ _ => true,
    executePass := fun _ _ _ => passAnswer,
    decodeIndirectJmp := fun _ _ => false }

/-- Three procedures without a call cycle: `0` calls `1` and `2`, `1` calls `2`. -/
def callChain : Environment :=
  { cfg := fun p _ =>
      if p = 0 then [callBB 1, callBB 2] else if p = 1 then [callBB 2] else [],
    getCallees := fun p _ =>
      if p = 0 then [⟨false, 1⟩, ⟨false, 2⟩] else if p = 1 then [⟨false, 2⟩] else [],
    reDecode := fun _ _ => true,
    executePass := fun _ _ _ => false,
    decodeIndirectJmp := fun _ _ => false }

/-- Two call cycles that a later call joins: `0` calls `1` and `2`; `1` calls `0`;
`2` calls `3` and `4`; `3` calls `2`; `4` calls `1`. -/
def crossingCycles : Environment :=
  { cfg := fun p _ =>
      if p = 0 then [callBB 1, callBB 2] else if p = 1 then [callBB 0]
      else if p = 2 then [callBB 3, callBB 4] else if p = 3 then [callBB 2]
      else if p = 4 then [callBB 1] else [],
    getCallees := fun p _ =>
      if p = 0 then [⟨false, 1⟩, ⟨false, 2⟩] else if p = 1 then [⟨false, 0⟩]
      else if p = 2 then [⟨false, 3⟩, ⟨false, 4⟩] else if p = 3 then [⟨false, 2⟩]
      else if p = 4 then [⟨false, 1⟩] else [],
    reDecode := fun _ _ => true,
    executePass := fun _ _ _ => false,
    decodeIndirectJmp := fun _ _ => false }

/-- The registry entry, the field and the members of the field's group of `proc` after a
run that ended normally. -/
def groupAfter (r : Except DriverError DecompState) (proc : UserProc) :
    Option (Option Nat × Option Nat × ProcSet) :=
  match r with
  | .ok s => some (s.m_recursionGroups proc, s.recursionGroup proc,
      match s.recursionGroup proc with
      | some h => s.getSet h
      | none => [])
  | .error _ => none

/-- The state in which `1`, called by `0`, is about to process its call to `0`: both are
visited and on the call stack. -/
def midCycleState : DecompState :=
  (((DecompState.init.setStatus 0 .PROC_VISITED .enterVisited).push 0).setStatus 1
    .PROC_VISITED .enterVisited).push 1

/-- Two states that differ at most in the `ProcSet` objects, of which there are no fewer. -/
structure SameButHeap (s s2 : DecompState) : Prop where
  status : s2.status = s.status
  field : s2.recursionGroup = s.recursionGroup
  registry : s2.m_recursionGroups = s.m_recursionGroups
  stack : s2.m_callStack = s.m_callStack
  trace : s2.trace = s.trace
  length : s.procSets.length ≤ s2.procSets.length

/-- The events that neither write a status or the call stack nor start a recursion group
analysis: passes, answers of the collaborators and the entries of the other functions. -/
def Event.isQuiet : Event → Bool
  | .pass _ _ => true
  | .reDecode _ _ => true
  | .indirect _ _ => true
  | .call fn _ => fn != .recursionGroupAnalysis
  | _ => false

/-- The second state is the first one with quiet events added to the trace. -/
def Quiet (s s2 : DecompState) : Prop :=
  ∃ t, (∀ e ∈ t, Event.isQuiet e = true) ∧ s2 = { s with trace := s.trace ++ t }

/-- The invariant of the driver that holds between the steps of `tryDecompileRecursive`
as long as no recursion group analysis has started: no procedure is twice on the call
stack; the procedures on the call stack have status `Visited` or `InCycle`; no procedure
has a status `EarlyDone`, `Preserveds` or above `Final`; the procedures in the registry
have status `InCycle`; and every member of every `ProcSet` object is in the registry. -/
structure DriverInv (s : DecompState) : Prop where
  nodup : s.m_callStack.Nodup
  onStack : ∀ q ∈ s.m_callStack, s.status q = .PROC_VISITED ∨ s.status q = .PROC_INCYCLE
  range : ∀ p, s.status p ≤ .PROC_INCYCLE ∨ s.status p = .PROC_FINAL
  registered : ∀ p, s.m_recursionGroups p ≠ none → s.status p = .PROC_INCYCLE
  members : ∀ h q, q ∈ s.getSet h → s.m_recursionGroups q ≠ none

/-- The invariant while `proc`, the top of the call stack, is being finished: as
`DriverInv`, but the status of `proc` itself is only known not to exceed `Final`. -/
structure TopInv (proc : UserProc) (s : DecompState) : Prop where
  top : s.m_callStack.getLast? = some proc
  nodup : s.m_callStack.Nodup
  onStack : ∀ q ∈ s.m_callStack.dropLast,
    s.status q = .PROC_VISITED ∨ s.status q = .PROC_INCYCLE
  range : ∀ p, p ≠ proc → (s.status p ≤ .PROC_INCYCLE ∨ s.status p = .PROC_FINAL)
  rangeTop : s.status proc ≤ .PROC_FINAL
  registered : ∀ p, s.m_recursionGroups p ≠ none → s.status p = .PROC_INCYCLE
  members : ∀ h q, q ∈ s.getSet h → s.m_recursionGroups q ≠ none

/-- A step from `s` to `s2` adds events to the trace; when `pre` holds before, the added
events are good until the first recursion group analysis, and when none of them starts
one, `post` holds afterwards. -/
def StepSpec (pre : DecompState → Prop) (post : DecompState → DecompState → Prop)
    (s s2 : DecompState) : Prop :=
  ∃ t, s2.trace = s.trace ++ t ∧
    (pre s → GoodUntilGroupAnalysis t ∧ (hasGroupAnalysis t = false → post s s2))

/-- What the proof by induction on the depth of the recursion shows for
`tryDecompileRecursive`: started in a state that satisfies the invariant, on a procedure
that is not on the call stack, it adds good events, restores the call stack and keeps the
invariant (as long as no recursion group analysis starts). -/
def TrySpec (f : UserProc → DecompState → Except DriverError DecompState) : Prop :=
  ∀ proc s s2, f proc s = .ok s2 →
    StepSpec (fun s => DriverInv s ∧ proc ∉ s.m_callStack)
      (fun s s2 => DriverInv s2 ∧ s2.m_callStack = s.m_callStack) s s2

/-- The part of a trace that was recorded before the first recursion group analysis
started. -/
def untilGroupAnalysis (t : List Event) : List Event :=
  t.takeWhile fun e => !e.isGroupAnalysis


/-! ## Expression and type emission (`appendExp`, `appendType`, `appendTypeIdent`) -/

/-- The enumerators of `OpPrec` that the embedded cases of `appendExp` name. The
enumeration is declared in a header that is not among the sources, so the values are
parameters. -/
structure OpPrecValues where
  None : OpPrec
  Comma : OpPrec
  Assign : OpPrec
  BitAnd : OpPrec
  BitShift : OpPrec
  Unary : OpPrec

/-- What the emitter takes from code that is not among the sources: the values of
`OpPrec`, `Prog::getGlobalType` (`none` for a null pointer), `Type::getCtype(true)`,
`PointerType::getSize`, `Exp::simplify`, and the text written by the cases of the
`switch` of `appendExp` that are not embedded here (`none` when such a case fails). -/
structure EmitEnv where
  prec : OpPrecValues
  getGlobalType : String → Option SharedType
  getCtype : SharedType → String
  getSize : SharedType → Int
  simplify : Exp → Exp
  otherExp : Exp → OpPrec → Bool → Option String

/-- `Exp::getOper`. -/
def Exp.getOper : Exp → OPER
  | .intConst _ _ => .opIntConst
  | .longConst _ => .opLongConst
  | .strConst _ => .opStrConst
  | .funcConst _ => .opFuncConst
  | .terminal op => op
  | .unary op _ => op
  | .binary op _ _ => op
  | .ternary op _ _ _ => op
  | .typed _ _ => .opTypedExp

/-- The test of the case `opAddrOf`: the operand is a global whose type is known and is an
array or a pointer to char. -/
def addrOfIsSuppressed (env : EmitEnv) : Exp → Bool
  | .unary .opGlobal (.strConst name) =>
    match env.getGlobalType name with
    | some (.array _ _) => true
    | some (.pointer pointsTo) => pointsTo.isChar
    | _ => false
  | _ => false

/-- The text that the case `opLongConst` writes for the 64-bit value `v` (`0 ≤ v < 2^64`):
the test is `(long long)v < -1000LL || v > 1000ULL`, the second comparison on the
unsigned value. -/
def longConstText (v : Nat) : String :=
  if (if v < 9223372036854775808 then (v : Int) else (v : Int) - 18446744073709551616) < -1000
      ∨ v > 1000 then
    "0x" ++ number v 16 ++ "LL"
  else number v 10 ++ "LL"

/-- The text that the case `opBitAnd` writes for a right operand that is the integer
constant `c`: `vanilla` or `negated`, whichever is shorter. -/
def bitAndConstText (c : Int) : String :=
  if ("~0x" ++ number (4294967295 - toUnsigned32 c) 16).length <
      ("0x" ++ number (toUnsigned32 c) 16).length then
    "~0x" ++ number (4294967295 - toUnsigned32 c) 16
  else "0x" ++ number (toUnsigned32 c) 16

/-- The text that the `switch (float_bits)` of the case `opFsize` writes; the `switch` has
no `default`. -/
def fsizeCastText (float_bits : Int) : String :=
  if float_bits = 32 then "*((float *)&"
  else if float_bits = 64 then "*((double *)&"
  else if float_bits = 80 then "*((long double*)&"
  else ""

/-- The text of the mask that the case `opAt` writes: decimal below 10, otherwise `0x` and
hexadecimal digits. -/
def maskText (mask : Nat) : String :=
  if mask < 10 then number mask 10 else "0x" ++ number mask 16

/-- `CCodeGenerator::appendExp`, for the cases `opIntConst`, `opLongConst`, `opFuncConst`,
`opAddrOf`, `opParam`, `opGlobal`, `opLocal`, `opBitAnd`, `opAt`, `opMemOf`, `opNot`,
`opLNot` and `opFsize`;
the other cases of the `switch` are `env.otherExp`. The result is `none` when the source fails an assertion or runs into
undefined behaviour (a shift count outside `0 .. 31`). -/
def appendExp (env : EmitEnv) : String → Exp → OpPrec → Bool → Option String
  | str, .intConst K isChar, _, uns => some (appendIntConst str K isChar uns)
  | str, .longConst v, _, _ => some (str ++ longConstText v)
  | str, .funcConst name, _, _ => some (str ++ name)
  | str, .unary .opAddrOf (.unary .opMemOf e), _, _ =>
    appendExp env str e env.prec.Unary false
  | str, .unary .opAddrOf sub, curPrec, _ =>
    if addrOfIsSuppressed env sub then appendExp env str sub curPrec false
    else
      (appendExp env (openParen str curPrec env.prec.Unary ++ "&") sub env.prec.Unary
        false).map fun s => closeParen s curPrec env.prec.Unary
  | str, .unary .opParam (.strConst s), _, _ => some (str ++ s)
  | str, .unary .opGlobal (.strConst s), _, _ => some (str ++ s)
  | str, .unary .opLocal (.strConst s), _, _ => some (str ++ s)
  | _, .unary .opParam _, _, _ => none
  | _, .unary .opGlobal _, _, _ => none
  | _, .unary .opLocal _, _, _ => none
  | str, .unary .opMemOf e, curPrec, _ =>
    (appendExp env (openParen str curPrec env.prec.Unary ++ "*") e env.prec.Unary false).map
      fun s => closeParen s curPrec env.prec.Unary
  | str, .unary .opNot e, curPrec, _ =>
    (appendExp env (openParen str curPrec env.prec.Unary ++ " ~") e env.prec.Unary false).map
      fun s => closeParen s curPrec env.prec.Unary
  | str, .unary .opLNot e, curPrec, _ =>
    (appendExp env (openParen str curPrec env.prec.Unary ++ " !") e env.prec.Unary false).map
      fun s => closeParen s curPrec env.prec.Unary
  | str, .binary .opBitAnd e1 (.intConst c _), curPrec, _ =>
    (appendExp env (openParen str curPrec env.prec.BitAnd) e1 env.prec.BitAnd false).map
      fun s1 => closeParen (s1 ++ " & " ++ bitAndConstText c) curPrec env.prec.BitAnd
  | str, .binary .opBitAnd e1 e2, curPrec, _ =>
    (appendExp env (openParen str curPrec env.prec.BitAnd) e1 env.prec.BitAnd false).bind
      fun s1 =>
        (appendExp env (s1 ++ " & ") e2 env.prec.BitAnd false).map
          fun s2 => closeParen s2 curPrec env.prec.BitAnd
  | str, .ternary .opFsize s1 _ s3, curPrec, _ =>
    if s3.getOper = .opMemOf then
      match s1 with
      | .intConst float_bits _ =>
        (appendExp env (openParen (str ++ fsizeCastText float_bits) curPrec curPrec) s3
          curPrec false).map fun s => closeParen s curPrec curPrec ++ ")"
      | _ => none
    else appendExp env str s3 curPrec false
  | str, .ternary .opAt s1 (.intConst first _) (.intConst last lastIsChar), curPrec, _ =>
    (appendExp env (openParen str curPrec env.prec.BitAnd) s1 env.prec.BitShift false).bind
      fun s2 =>
        (bitfieldReadMask first last).map fun mask =>
          closeParen
            (appendIntConst (s2 ++ " >> ") last lastIsChar false ++ " & " ++ maskText mask)
            curPrec env.prec.BitAnd
  | str, e, curPrec, uns => (env.otherExp e curPrec uns).map fun t => str ++ t

/-- `CCodeGenerator::appendType`; `typ` is `none` for a null pointer. -/
def appendType (env : EmitEnv) (str : String) (typ : Option SharedType) : String :=
  match typ with
  | none => str ++ "int"
  | some (.pointer (.array baseType _)) => str ++ env.getCtype (.pointer baseType)
  | some t => str ++ env.getCtype t

/-- `CCodeGenerator::appendTypeIdent` for a type that is not null. -/
def appendTypeIdentOf (env : EmitEnv) : String → SharedType → String → String
  | str, .pointer (.array baseType _), ident =>
    appendType env str (some baseType) ++ " *" ++ ident
  | str, .pointer pointsTo, ident => appendType env str (some (.pointer pointsTo)) ++ ident
  | str, .array baseType length, ident =>
    appendTypeIdentOf env str baseType ident ++ "[" ++
      (match length with
       | some n => number n 10
       | none => "") ++ "]"
  | str, .void, ident => str ++ "int " ++ (if ident = "" then "unknownVoidType" else ident)
  | str, t, ident => appendType env str (some t) ++ " " ++ (if ident ≠ "" then ident else "<null>")

/-- `CCodeGenerator::appendTypeIdent`; `typ` is `none` for a null pointer. -/
def appendTypeIdent (env : EmitEnv) (str : String) (typ : Option SharedType)
    (ident : String) : String :=
  match typ with
  | none => str
  | some t => appendTypeIdentOf env str t ident

/-- An environment for examples: precedence values `None = 17`, `Comma = 16`,
`Assign = 15`, `BitAnd = 8`,
`BitShift = 5`, `Unary = 2`; the global `arr` is an array of four 32-bit integers, `msg` is
a pointer to char, `cnt` a 32-bit integer; `getCtype` knows `int`, `char` and pointers to
them; pointers have 32 bits; `simplify` changes nothing; the cases of `appendExp` that are
not embedded fail. -/
def sampleEmitEnv : EmitEnv :=
  { prec := ⟨17, 16, 15, 8, 5, 2⟩,
    getGlobalType := fun n =>
      if n = "arr" then some (.array (.integer 32 true) (some 4))
      else if n = "msg" then some (.pointer .char)
      else if n = "cnt" then some (.integer 32 true)
      else none,
    getCtype := fun t =>
      match t with
      | .char => "char"
      | .pointer .char => "char *"
      | .pointer _ => "int *"
      | _ => "int",
    getSize := fun _ => 32,
    simplify := fun e => e,
    otherExp := fun _ _ _ => none }

/-- The C backslash escapes as the description of character constants lists them (this
definition follows the description, not the source): alert, backspace, form feed,
newline, carriage return, tab, vertical tab, backslash, question mark, single quote and
double quote, by character code; `none` for every other value. -/
def cEscapeSequence (K : Int) : Option String :=
  match K with
  | 7 => some "\\a"
  | 8 => some "\\b"
  | 12 => some "\\f"
  | 10 => some "\\n"
  | 13 => some "\\r"
  | 9 => some "\\t"
  | 11 => some "\\v"
  | 92 => some "\\\\"
  | 63 => some "\\?"
  | 39 => some "\\'"
  | 34 => some "\\\""
  | _ => none

/-! ## Emission of a program (`generateCode(prog, cluster, proc)`) -/

/-- A module: its identity (modules are compared by pointer in the source) and its
functions in order. -/
structure Module where
  id : Nat
  functions : List Function

/-- What `generateCode(prog, cluster, proc)` reads of the program: the root module, the
list of modules, the names of the globals and which procedures are decoded. -/
structure Prog where
  rootModule : Nat
  moduleList : List Module
  globals : List String
  isDecoded : UserProc → Bool

/-- The lines that the parts of the emitter called by `generateCode(prog, ...)` produce:
the line of `addGlobal`, the line of `addFunctionSignature(proc, false)`, and the lines
that `generateCode(proc)` leaves in `m_lines`. -/
structure ProgText where
  globalLine : String → String
  prototypeLine : UserProc → String
  procLines : UserProc → List String

/-- The calls that `generateCode(prog, ...)` makes, in order. -/
inductive EmitCall where
  | addGlobal (name : String)
  | addPrototype (proc : UserProc)
  | generateCode (proc : UserProc)
  | print (module : Nat)
  deriving DecidableEq, Repr

/-- The emitter during `generateCode(prog, ...)`: the line buffer `m_lines`, what
`m_writer.writeCode` was given (module and lines, in order), and the calls made. -/
structure ProgEmitter where
  m_lines : List String := []
  written : List (Nat × List String) := []
  calls : List EmitCall := []
  deriving DecidableEq, Repr

/-- `CCodeGenerator::print`: hands the buffer to the writer and clears it. -/
def ProgEmitter.print (g : ProgEmitter) (module : Nat) : ProgEmitter :=
  { m_lines := [], written := g.written ++ [(module, g.m_lines)],
    calls := g.calls ++ [.print module] }

/-- `CCodeGenerator::addGlobal`, as far as the buffer is concerned: one line. -/
def ProgEmitter.addGlobal (txt : ProgText) (g : ProgEmitter) (name : String) : ProgEmitter :=
  { g with m_lines := g.m_lines ++ [txt.globalLine name], calls := g.calls ++ [.addGlobal name] }

/-- `CCodeGenerator::addPrototype`: one line, the signature followed by `;`. -/
def ProgEmitter.addPrototype (txt : ProgText) (g : ProgEmitter) (proc : UserProc) :
    ProgEmitter :=
  { g with m_lines := g.m_lines ++ [txt.prototypeLine proc],
           calls := g.calls ++ [.addPrototype proc] }

/-- `CCodeGenerator::generateCode(UserProc *)`, as far as the buffer is concerned: the
buffer is cleared (`m_lines.clear()`) and then holds the lines of the procedure. -/
def ProgEmitter.generateCode (txt : ProgText) (g : ProgEmitter) (proc : UserProc) :
    ProgEmitter :=
  { g with m_lines := txt.procLines proc, calls := g.calls ++ [.generateCode proc] }

/-- The body of the inner loop that declares prototypes. -/
def prototypeStep (txt : ProgText) (g : ProgEmitter) (func : Function) : ProgEmitter :=
  if func.isLib then g else g.addPrototype txt func.id

/-- The body of the inner loop that generates the definitions of one module. -/
def definitionStep (txt : ProgText) (prog : Prog) (proc : Option UserProc) (module : Nat)
    (g : ProgEmitter) (func : Function) : ProgEmitter :=
  if func.isLib then g
  else if !prog.isDecoded func.id then g
  else if proc.isSome ∧ proc ≠ some func.id then g
  else (g.generateCode txt func.id).print module

/-- `CCodeGenerator::generateCode(const Prog *, Module *, UserProc *, bool)`; `cluster` and
`proc` are `none` for a null pointer. -/
def generateCode (txt : ProgText) (prog : Prog) (cluster : Option Nat)
    (proc : Option UserProc) (g : ProgEmitter) : ProgEmitter :=
  let generate_all : Bool := cluster = none ∨ cluster = some prog.rootModule
  let g1 :=
    if generate_all ∧ proc = none then
      let g0 := prog.globals.foldl (ProgEmitter.addGlobal txt) g
      if prog.globals ≠ [] then g0.print prog.rootModule else g0
    else g
  let g2 := prog.moduleList.foldl (fun acc module => module.functions.foldl (prototypeStep txt) acc) g1
  let g3 :=
    if generate_all then
      ({ g2 with m_lines := g2.m_lines ++ [""] } : ProgEmitter).print prog.rootModule
    else g2
  prog.moduleList.foldl
    (fun acc module =>
      if !generate_all ∧ cluster ≠ some module.id then acc
      else module.functions.foldl (definitionStep txt prog proc module.id) acc)
    g3

/-- A program for examples: the root module `0` holds the user procedure `1`, the module
`5` holds the user procedure `2`; both are decoded, there are no globals. -/
def twoModules : Prog :=
  { rootModule := 0,
    moduleList := [⟨0, [⟨false, 1⟩]⟩, ⟨5, [⟨false, 2⟩]⟩],
    globals := [],
    isDecoded := fun _ => true }

/-- Lines for examples: the prototype of procedure `1` is `void proc1();`, that of every
other procedure `void proc2();`; a definition has the single line `body`. -/
def sampleProgText : ProgText :=
  { globalLine := fun n => "int " ++ n ++ ";",
    prototypeLine := fun p => if p = 1 then "void proc1();" else "void proc2();",
    procLines := fun _ => ["body"] }

/-! ## Assignments (`addAssignmentStatement`) -/

/-- What `addAssignmentStatement` reads of an `Assign`: `getType()` (`none` for a null
pointer), `getLeft()` and `getRight()`. -/
structure Assign where
  type : Option SharedType
  left : Exp
  right : Exp
  deriving DecidableEq, Repr

/-- `Exp::search(pattern, result)` for a pattern without wildcards: whether some
subexpression is structurally equal to the pattern. -/
def Exp.search (pattern : Exp) : Exp → Bool
  | .unary op e1 => decide (Exp.unary op e1 = pattern) || Exp.search pattern e1
  | .binary op e1 e2 =>
    decide (Exp.binary op e1 e2 = pattern) || Exp.search pattern e1 || Exp.search pattern e2
  | .ternary op e1 e2 e3 =>
    decide (Exp.ternary op e1 e2 e3 = pattern) || Exp.search pattern e1 ||
      Exp.search pattern e2 || Exp.search pattern e3
  | .typed t e1 => decide (Exp.typed t e1 = pattern) || Exp.search pattern e1
  | e => decide (e = pattern)

/-- `isBareMemof` (with `SYMS_IN_BACK_END` off): `exp.isMemOf()`. -/
def isBareMemof (exp : Exp) : Bool := exp.getOper = .opMemOf

/-- `a * b` on 32-bit `int`s; signed overflow is undefined behaviour and gives `none`. -/
def mulInt32 (a b : Int) : Option Int :=
  if -2147483648 ≤ a * b ∧ a * b < 2147483648 then some (a * b) else none

/-- The left side of a bitfield assignment: `lhs->getOper() == opAt` with integer
constants as second and third operand; gives `exp1`, `n` and `m`. -/
def bitfieldParts : Exp → Option (Exp × Int × Int)
  | .ternary .opAt exp1 (.intConst n _) (.intConst m _) => some (exp1, n, m)
  | _ => none

/-- The text of the left side for a left side that is not a bitfield: with a cast for a
`memOf` whose assignment has a type other than void, with `[0]` for a global of array
type, and the expression itself otherwise. The result is `none` where the source
dereferences a null type. -/
def assignmentLeftText (env : EmitEnv) (ost : String) (asgn : Assign) : Option String :=
  if isBareMemof asgn.left ∧ asgn.type.any (fun t => !t.isVoid) then
    match asgn.type with
    | some t => appendExp env ost (.typed t asgn.left) env.prec.Assign false
    | none => none
  else if asgn.left.getOper = .opGlobal then
    match asgn.type with
    | none => none
    | some t =>
      if t.isArray then
        appendExp env ost (.binary .opArrayIndex asgn.left (Exp.constInt 0)) env.prec.Assign
          false
      else appendExp env ost asgn.left env.prec.Assign false
  else appendExp env ost asgn.left env.prec.Assign false

/-- The variable `useIncrement` for a right side `lhs + b` or `lhs - b`. The result is
`none` where the source dereferences a null type or multiplies with overflow. -/
def useIncrement (env : EmitEnv) (asgn : Assign) (b : Exp) : Option Bool :=
  match b with
  | .intConst K _ =>
    if K = 1 then some true
    else
      match asgn.type with
      | none => none
      | some t =>
        if t.isPointer then (mulInt32 K 8).map fun v => decide (env.getSize t = v)
        else some false
  | _ => some false

/-- The end of `addAssignmentStatement` for an ordinary left side whose text `ost` is
written: `++`/`--`, `+=`/`-=` or a plain assignment. -/
def assignmentTail (env : EmitEnv) (g : CCodeGenerator) (asgn : Assign) (ost : String) :
    Option CCodeGenerator :=
  match asgn.right with
  | .binary op a b =>
    if (op = .opPlus ∨ op = .opMinus) ∧ a = asgn.left then
      (useIncrement env asgn b).bind fun inc =>
        if inc then
          some (appendLine g (ost ++ (if op = .opPlus then "++;" else "--;")))
        else
          (appendExp env (ost ++ (if op = .opPlus then " += " else " -= ")) b env.prec.Assign
            false).map fun s => appendLine g (s ++ ";")
    else
      (appendExp env (ost ++ " = ") asgn.right env.prec.Assign false).map fun s =>
        appendLine g (s ++ ";")
  | _ =>
    (appendExp env (ost ++ " = ") asgn.right env.prec.Assign false).map fun s =>
      appendLine g (s ++ ";")

/-- `CCodeGenerator::addAssignmentStatement`. -/
def addAssignmentStatement (env : EmitEnv) (g : CCodeGenerator) (asgn : Assign) :
    Option CCodeGenerator :=
  if asgn.left.getOper = .opPC then some g
  else if Exp.search (.terminal .opPC) asgn.right then some g
  else if asgn.left = asgn.right then some g
  else
    match bitfieldParts asgn.left with
    | some (exp1, n, m) =>
      (appendExp env (indent "" g.m_indent) exp1 env.prec.Assign false).bind fun s1 =>
        (bitfieldAssignRhs exp1 asgn.right n m).bind fun rhs =>
          (appendExp env (s1 ++ " = ") (env.simplify rhs) env.prec.Assign false).map fun s2 =>
            appendLine g (s2 ++ ";")
    | none =>
      (assignmentLeftText env (indent "" g.m_indent) asgn).bind fun ost =>
        assignmentTail env g asgn ost

/-! ## Switch headers (`generateCode_Branch`, case header) -/

/-- The fields of `SwitchInfo` that the case header reads: the switch expression, whether
the switch type is `SwitchType::F`, the lower bound, and the `int`s stored at the table
address. -/
structure SwitchInfo where
  switchExp : Exp
  isFortran : Bool
  lowerBound : Int
  tableValue : Nat → Int

/-- `CCodeGenerator::addCaseCondHeader`. -/
def addCaseCondHeader (env : EmitEnv) (g : CCodeGenerator) (cond : Exp) :
    Option CCodeGenerator :=
  (appendExp env (indent "" g.m_indent ++ "switch(") cond env.prec.None false).map fun s =>
    { appendLine g (s ++ ") \x7b") with m_indent := g.m_indent + 1 }

/-- `CCodeGenerator::addCaseCondOption`. -/
def addCaseCondOption (env : EmitEnv) (g : CCodeGenerator) (opt : Exp) :
    Option CCodeGenerator :=
  (appendExp env (indent "" (g.m_indent - 1) ++ "case ") opt env.prec.None false).map fun s =>
    { appendLine g (s ++ ":") with m_indent := g.m_indent - 1 + 1 }

/-- `CCodeGenerator::addCaseCondElse`. -/
def addCaseCondElse (g : CCodeGenerator) : CCodeGenerator :=
  { appendLine g (indent "" (g.m_indent - 1) ++ "default:") with
    m_indent := g.m_indent - 1 + 1 }

/-- `CCodeGenerator::addCaseCondEnd`. -/
def addCaseCondEnd (g : CCodeGenerator) : CCodeGenerator :=
  { appendLine g (indent "" (g.m_indent - 1) ++ "\x7d") with m_indent := g.m_indent - 1 }

/-- The constant `caseVal` of the `i`-th round of the loop over the out-edges. -/
def caseVal (psi : SwitchInfo) (i : Nat) : Exp :=
  if psi.isFortran then Exp.constInt (psi.tableValue i)
  else Exp.constInt (wrapInt32 (psi.lowerBound + i))

/-- The loop over the out-edges of a case header: a case label, then the code for the
out-edge. That code (a goto, or `generateCode` for the successor) depends on the
structural analyzer and is the parameter `succCode`. -/
def caseLoop (env : EmitEnv) (psi : SwitchInfo)
    (succCode : Nat → CCodeGenerator → CCodeGenerator) (numSuccessors : Nat)
    (g : CCodeGenerator) : Option CCodeGenerator :=
  (List.range numSuccessors).foldlM
    (fun acc i => (addCaseCondOption env acc (caseVal psi i)).map (succCode i)) g

/-- The part of `generateCode_Branch` that writes a case header: the switch header, the
loop over the out-edges and the closing bracket. -/
def generateCode_Branch_case (env : EmitEnv) (psi : SwitchInfo)
    (succCode : Nat → CCodeGenerator → CCodeGenerator) (numSuccessors : Nat)
    (g : CCodeGenerator) : Option CCodeGenerator :=
  (addCaseCondHeader env g psi.switchExp).bind fun g1 =>
    (caseLoop env psi succCode numSuccessors g1).map addCaseCondEnd

/-- A switch for examples: on the local `v`, not Fortran-style, lower bound `0`. -/
def sampleSwitch : SwitchInfo :=
  { switchExp := .unary .opLocal (.strConst "v"),
    isFortran := false,
    lowerBound := 0,
    tableValue := fun _ => 0 }

/-- Code for the out-edges, for examples: out-edge `i` leads to the block at address
`0x100 + 0x10 * i`, which is already generated, so a goto is written. -/
def gotoSuccessors (i : Nat) (g : CCodeGenerator) : CCodeGenerator :=
  addGoto g (256 + 16 * i)

/-! ## Modules and their functions (`Module.cpp`) -/

/-- The value of an `Address`. -/
abbrev Address := Nat

/-- A function as `Module::createFunction` makes it: a `LibProc` or a `UserProc` with its
entry address and name. -/
structure FunctionObject where
  isLib : Bool
  entryAddr : Address
  name : String
  deriving DecidableEq, Repr

/-- The members of `Module` that hold its functions: the index `m_labelsToProcs` (a
`std::map<Address, Function *>`, `none` for an address without entry) and the list
`m_functionList`. -/
structure ModuleFunctions where
  m_labelsToProcs : Address → Option FunctionObject
  m_functionList : List FunctionObject

namespace ModuleFunctions

/-- `Module::getFunction(Address)`; `none` for `nullptr`. -/
def getFunction (m : ModuleFunctions) (loc : Address) : Option FunctionObject :=
  m.m_labelsToProcs loc

/-- `Module::setLocationMap`; `fnc` is `none` for `nullptr`, and the result is `none`
when `assert(count == 1)` fails. -/
def setLocationMap (m : ModuleFunctions) (loc : Address) (fnc : Option FunctionObject) :
    Option ModuleFunctions :=
  match fnc with
  | none =>
    if (m.m_labelsToProcs loc).isSome then
      some { m with m_labelsToProcs := Function.update m.m_labelsToProcs loc none }
    else none
  | some f => some { m with m_labelsToProcs := Function.update m.m_labelsToProcs loc (some f) }

/-- `Module::createFunction`; `invalid` is `Address::INVALID`, whose value is declared in
a header that is not among the sources. The result is the new function and the module
after the call, or `none` when the assertion that the address has no entry fails. The
notifications of the watchers and the debug information of Windows builds do not touch
the index or the list. -/
def createFunction (invalid : Address) (m : ModuleFunctions) (name : String)
    (entryAddr : Address) (libraryFunction : Bool) :
    Option (FunctionObject × ModuleFunctions) :=
  let function : FunctionObject := ⟨libraryFunction, entryAddr, name⟩
  if invalid ≠ entryAddr then
    if (m.m_labelsToProcs entryAddr).isNone then
      some (function,
        { m_labelsToProcs := Function.update m.m_labelsToProcs entryAddr (some function),
          m_functionList := m.m_functionList ++ [function] })
    else none
  else some (function, { m with m_functionList := m.m_functionList ++ [function] })

end ModuleFunctions

/-- A module without functions. -/
def emptyModule : ModuleFunctions := { m_labelsToProcs := fun _ => none, m_functionList := [] }

/-! ## Previously decoded indirect transfers (`DefaultFrontEnd.h`, `saveDecodedICTs`) -/

/-- The member `m_previouslyDecoded` of `DefaultFrontEnd`, a `std::map<Address, RTL *>`:
`none` for an address without entry; an `RTL *` is a number. -/
structure DefaultFrontEnd where
  m_previouslyDecoded : Address → Option Nat

/-- `DefaultFrontEnd::saveDecodedRTL`: `m_previouslyDecoded[a] = rtl`. -/
def DefaultFrontEnd.saveDecodedRTL (fe : DefaultFrontEnd) (a : Address) (rtl : Nat) :
    DefaultFrontEnd :=
  { m_previouslyDecoded := Function.update fe.m_previouslyDecoded a (some rtl) }

/-- What `saveDecodedICTs` reads of a basic block: whether it has a last statement and
whether that is a high-level indirect transfer (`none` when `getLastStmt` is null), its
high address and its last RTL. -/
structure TransferBlock where
  lastIsHL_ICT : Option Bool
  hiAddr : Address
  lastRTL : Nat

/-- `ProcDecompiler::saveDecodedICTs`, over the blocks of the CFG in order. -/
def saveDecodedICTs (fe : DefaultFrontEnd) (cfg : List TransferBlock) : DefaultFrontEnd :=
  cfg.foldl (fun acc bb =>
    match bb.lastIsHL_ICT with
    | some true => acc.saveDecodedRTL bb.hiAddr bb.lastRTL
    | _ => acc) fe

/-- A front end that has saved nothing. -/
def emptyFrontEnd : DefaultFrontEnd := { m_previouslyDecoded := fun _ => none }

/-! ## Address simplification -/

/-- Modelled from the spec: the code of the address simplifier is not among the sources
(only the declaration of its test class is). This is rule 4 of the simplifier as the spec
states it, applied at the root of an expression: `addrOf(memOf(e)) → e` and
`memOf(addrOf(e)) → e`. -/
def addrSimplifyRoot : Exp → Exp
  | .unary .opAddrOf (.unary .opMemOf e) => e
  | .unary .opMemOf (.unary .opAddrOf e) => e
  | e => e

/-- Modelled from the spec: the address simplifier as a modifier that visits the operands
first and then applies `addrSimplifyRoot` to the rebuilt node. -/
def simplifyAddr : Exp → Exp
  | .unary op e1 => addrSimplifyRoot (.unary op (simplifyAddr e1))
  | .binary op e1 e2 => .binary op (simplifyAddr e1) (simplifyAddr e2)
  | .ternary op e1 e2 e3 => .ternary op (simplifyAddr e1) (simplifyAddr e2) (simplifyAddr e3)
  | .typed t e1 => .typed t (simplifyAddr e1)
  | e => e

/-- Whether no subexpression has the form `addrOf(memOf(_))` or `memOf(addrOf(_))`. -/
def Exp.addrSimplified : Exp → Bool
  | .unary .opAddrOf (.unary .opMemOf _) => false
  | .unary .opMemOf (.unary .opAddrOf _) => false
  | .unary _ e1 => e1.addrSimplified
  | .binary _ e1 e2 => e1.addrSimplified && e2.addrSimplified
  | .ternary _ e1 e2 e3 => e1.addrSimplified && e2.addrSimplified && e3.addrSimplified
  | .typed _ e1 => e1.addrSimplified
  | _ => true

/-! ## Pre-tested loops (`generateCode_Loop`) -/

/-- What the pre-tested branch of `generateCode_Loop` reads of the loop header: the
block itself, its branch condition and its successors `BTHEN` and `BELSE`. -/
structure LoopHeader where
  id : Nat
  cond : Exp
  succThen : Nat
  succElse : Nat

/-- The condition written for a pre-tested loop: the branch condition, negated and
simplified when the `BTHEN` successor is the loop follow (`none` for no follow). -/
def pretestedCond (env : EmitEnv) (bb : LoopHeader) (loopFollow : Option Nat) : Exp :=
  if some bb.succThen = loopFollow then env.simplify (.unary .opNot bb.cond) else bb.cond

/-- The block `loopBody` of a pre-tested loop. -/
def pretestedBody (bb : LoopHeader) (loopFollow : Option Nat) : Nat :=
  if some bb.succElse = loopFollow then bb.succThen else bb.succElse

/-- `CCodeGenerator::addPretestedLoopHeader`. -/
def addPretestedLoopHeader (env : EmitEnv) (g : CCodeGenerator) (cond : Exp) :
    Option CCodeGenerator :=
  (appendExp env (indent "" g.m_indent ++ "while (") cond env.prec.None false).map fun s =>
    { appendLine g (s ++ ") \x7b") with m_indent := g.m_indent + 1 }

/-- `CCodeGenerator::addPretestedLoopEnd`. -/
def addPretestedLoopEnd (g : CCodeGenerator) : CCodeGenerator :=
  { appendLine g (indent "" (g.m_indent - 1) ++ "\x7d") with m_indent := g.m_indent - 1 }

/-- The branch of `generateCode_Loop` for a pre-tested loop. What depends on the
statements of the blocks and on the structural analyzer is a parameter: `writeBB` for a
block, `bodyCode` for `generateCode(loopBody, latch, ...)`, and `latchCode` for the
latch node when it is not generated yet. -/
def generateCode_Loop_pretested (env : EmitEnv) (bb : LoopHeader) (loopFollow : Option Nat)
    (writeBB : Nat → CCodeGenerator → CCodeGenerator)
    (bodyCode : Nat → CCodeGenerator → CCodeGenerator)
    (latchCode : CCodeGenerator → CCodeGenerator) (g : CCodeGenerator) :
    Option CCodeGenerator :=
  (addPretestedLoopHeader env (writeBB bb.id g) (pretestedCond env bb loopFollow)).map
    fun g2 =>
      addPretestedLoopEnd
        (writeBB bb.id (latchCode (bodyCode (pretestedBody bb loopFollow) g2)))

/-- The successor that control reaches from a two-way block when its branch condition
has the value `taken`: `BTHEN` when the branch is taken, `BELSE` otherwise. -/
def LoopHeader.successorFor (bb : LoopHeader) (taken : Bool) : Nat :=
  if taken then bb.succThen else bb.succElse

/-! ## Support for statements about the driver -/

/-- The members of the recursion group of `q`, empty when `q` has none. -/
def DecompState.groupOf (s : DecompState) (q : UserProc) : ProcSet :=
  match s.recursionGroup q with
  | some h => s.getSet h
  | none => []

/-- The state a run ended with; the initial state for a run that failed. -/
def stateAfter (r : Except DriverError DecompState) : DecompState :=
  match r with
  | .ok s => s
  | .error _ => DecompState.init

/-- The body of the `do … while` loop of `recursionGroupAnalysis`, executed `n` times in
a row: the values of `changed` and the last state. -/
def repeatGroupPass (env : Environment)
    (tryRec : UserProc → DecompState → Except DriverError DecompState) (fuel : Nat)
    (entry : UserProc) : Nat → DecompState → Except DriverError (List Bool × DecompState)
  | 0, s => .ok ([], s)
  | n + 1, s =>
    (decompileProcInRecursionGroup env tryRec fuel entry [] s).bind fun r =>
      (repeatGroupPass env tryRec fuel entry n r.2.2).map fun q => (r.1 :: q.1, q.2)

/-- One procedure without calls whose first check for indirect transfers (asked while the
trace has fewer than 40 events) reports a decoded indirect jump; later checks report
none. Decoding succeeds and the passes report no change. -/
def restartOnce : Environment :=
  { cfg := fun _ _ => [],
    getCallees := fun _ _ => [],
    reDecode := fun _ _ => true,
    executePass := fun _ _ _ => false,
    decodeIndirectJmp := fun _ n => decide (n < 40) }

/-! ## Gotos, `continue` and `break` (`emitGotoAndLabel`) -/

/-- What `emitGotoAndLabel` and `writeBB` read of a basic block: its identity (blocks are
compared by pointer), its low address and whether its type is `BBType::Ret`. -/
structure EmitBlock where
  id : Nat
  lowAddr : Nat
  isRet : Bool
  deriving DecidableEq, Repr

/-- `CCodeGenerator::addContinue`. -/
def addContinue (g : CCodeGenerator) : CCodeGenerator :=
  appendLine g (indent "" g.m_indent ++ "continue;")

/-- `CCodeGenerator::addBreak`. -/
def addBreak (g : CCodeGenerator) : CCodeGenerator :=
  appendLine g (indent "" g.m_indent ++ "break;")

/-- `CCodeGenerator::emitGotoAndLabel(bb, dest)`. The answers of the structural analyzer
are parameters: `loopHead` is `getLoopHead(bb)` and `loopFollow` is `getLoopFollow` of that
head (blocks by identity, `none` for `nullptr`); `writeBB` writes a block, which depends on
its statements. -/
def emitGotoAndLabel (loopHead loopFollow : Option Nat)
    (writeBB : EmitBlock → CCodeGenerator → CCodeGenerator) (dest : EmitBlock)
    (g : CCodeGenerator) : CCodeGenerator :=
  if loopHead.isSome ∧ (loopHead = some dest.id ∨ loopFollow = some dest.id) then
    if loopHead = some dest.id then addContinue g else addBreak g
  else if dest.isRet then writeBB dest g
  else addGoto g dest.lowAddr

/-! ## Call statements (`addCallStatement`) -/

/-- Whether an expression is a `Const` (what `dynamic_pointer_cast<const Const>` tests). -/
def Exp.isConst : Exp → Bool
  | .intConst _ _ => true
  | .longConst _ => true
  | .strConst _ => true
  | .funcConst _ => true
  | _ => false

/-- The text written for one argument of a call. `getFunctionByAddr` gives the name of the
function at an address, `none` for no function. The result is `none` where the source
calls `const_arg->isIntConst()` on the null pointer that the cast gives for a value that is
not a `Const`. -/
def callArgText (env : EmitEnv) (getFunctionByAddr : Int → Option String) (s : String)
    (arg : Assign) : Option String :=
  if arg.type.any (fun t =>
      match t with
      | .pointer pointsTo => pointsTo.isFunc
      | _ => false) then
    if arg.right.isConst then
      match arg.right with
      | .intConst K _ =>
        match getFunctionByAddr K with
        | some name => some (s ++ name)
        | none => appendExp env s arg.right env.prec.Comma false
      | _ => appendExp env s arg.right env.prec.Comma false
    else none
  else appendExp env s arg.right env.prec.Comma false

/-- The loop over the arguments of `addCallStatement`; the state is the text and the
variable `first`. -/
def callArgsText (env : EmitEnv) (getFunctionByAddr : Int → Option String) :
    List Assign → String × Bool → Option (String × Bool)
  | [], acc => some acc
  | arg :: rest, acc =>
    (callArgText env getFunctionByAddr (if acc.2 then acc.1 else acc.1 ++ ", ") arg).bind
      fun s => callArgsText env getFunctionByAddr rest (s, false)

/-- The loop over the further results of `addCallStatement`. -/
def callResultsText (env : EmitEnv) : List Assign → String × Bool → Option (String × Bool)
  | [], acc => some acc
  | res :: rest, acc =>
    (appendExp env (if acc.2 then acc.1 else acc.1 ++ ", ") res.left env.prec.Comma false).bind
      fun s => callResultsText env rest (s, false)

/-- `CCodeGenerator::addCallStatement`; `name` is the name of the callee. -/
def addCallStatement (env : EmitEnv) (getFunctionByAddr : Int → Option String)
    (g : CCodeGenerator) (name : String) (args results : List Assign) :
    Option CCodeGenerator :=
  (match results with
    | [] => some (indent "" g.m_indent)
    | firstRet :: _ =>
      (appendExp env (indent "" g.m_indent) firstRet.left env.prec.Assign false).map
        fun s => s ++ " = ").bind fun s1 =>
  (callArgsText env getFunctionByAddr args (s1 ++ name ++ "(", true)).bind fun r =>
  (if results.length > 1 then
      (callResultsText env (results.drop 1)
        (r.1 ++ ");" ++ " /* Warning: also results in ", true)).map
        fun (q : String × Bool) => q.1 ++ " */"
    else some (r.1 ++ ");")).map fun tgt => appendLine g tgt

/-! ## Data sections (`generateDataSectionCode`) -/

/-- The initializer list that the loop of `generateDataSectionCode` has built after `i`
rounds, for a section of `size` bytes; `readNative1` reads a byte of the image as an `int`,
and `n & 0xFF` is `n % 256`. -/
def dataSectionList (readNative1 : Nat → Int) (section_start size : Nat) : Nat → Exp
  | 0 => .terminal .opNil
  | i + 1 =>
    .binary .opList (Exp.constInt (readNative1 (section_start + size - 1 - i) % 256))
      (dataSectionList readNative1 section_start size i)

/-- The three calls of `addGlobal` that `generateDataSectionCode` makes: name and initial
value of each global. The value of a constant built from an unsigned number is given as
that number. -/
structure DataSectionGlobals where
  startName : String
  startInit : Nat
  sizeName : String
  sizeInit : Nat
  dataName : String
  dataLength : Nat
  dataInit : Exp

/-- `CCodeGenerator::generateDataSectionCode`, as far as the arguments of `addGlobal` are
concerned; `size` is a `uint32_t`. -/
def generateDataSectionCode (readNative1 : Nat → Int) (section_name : String)
    (section_start size : Nat) : DataSectionGlobals :=
  { startName := "start_" ++ section_name,
    startInit := section_start,
    sizeName := section_name ++ "_size",
    sizeInit := if size ≠ 0 then size else 4294967295,
    dataName := section_name,
    dataLength := size,
    dataInit := dataSectionList readNative1 section_start size size }

/-- The elements of a list spine `List(head, tail)` ended by `Nil`; `none` for an
expression that is not such a spine. -/
def Exp.listElements : Exp → Option (List Exp)
  | .terminal .opNil => some []
  | .binary .opList head tail => (Exp.listElements tail).map fun l => head :: l
  | _ => none

/-! ## The module tree (`Module::addChild`, `Module::removeChild`) -/

/-- The tree of modules: `m_parent` (`none` for `nullptr`) and `m_children` of every
module; modules are identified by a number. -/
structure ModuleTree where
  m_parent : Nat → Option Nat
  m_children : Nat → List Nat

/-- The loop of `Module::removeChild` over `m_children`. The iterator `it` is a position;
`m_children.erase(it)` removes the element there and the loop goes on with `it++` from the
same position, as with the pointer iterators of a vector (by the rules of the language the
iterator is invalid after `erase`). A position beyond the end is outside the container and
gives `none`. The first argument bounds the number of rounds. -/
def removeChildLoop (module : Nat) : Nat → List Nat → Nat → Option (List Nat)
  | 0, _, _ => none
  | fuel + 1, children, it =>
    if it = children.length then some children
    else if children.length < it then none
    else if children.getD it 0 = module then
      removeChildLoop module fuel (children.eraseIdx it) (it + 1)
    else removeChildLoop module fuel children (it + 1)

namespace ModuleTree

/-- `Module::removeChild`, called on the module `self`. -/
def removeChild (t : ModuleTree) (self module : Nat) : Option ModuleTree :=
  (removeChildLoop module ((t.m_children self).length + 1) (t.m_children self) 0).map
    fun l => { t with m_children := Function.update t.m_children self l }

/-- `Module::addChild`, called on the module `self`. -/
def addChild (t : ModuleTree) (self module : Nat) : Option ModuleTree :=
  (match t.m_parent module with
    | some q => t.removeChild q module
    | none => some t).map fun (t1 : ModuleTree) =>
    { m_parent := Function.update t1.m_parent module (some self),
      m_children := Function.update t1.m_children self (t1.m_children self ++ [module]) }

end ModuleTree

/-- A tree for examples: the module `0` has the children `1` and `2`, the module `3` has
no parent and no children. -/
def sampleTree : ModuleTree :=
  { m_parent := fun m => if m = 1 ∨ m = 2 then some 0 else none,
    m_children := fun m => if m = 0 then [1, 2] else [] }

/-! ## Counting parentheses -/

/-- The number of `(` minus the number of `)` in a text. -/
def parenBalance (s : String) : Int :=
  s.data.foldl (fun n c => if c = '(' then n + 1 else if c = ')' then n - 1 else n) 0

/-- Reads the text of a mask as C does on 32-bit values: `0x` and hexadecimal digits, or
`~` before them for the complement. -/
def readMaskLiteral (s : String) : Option Nat :=
  match s.data with
  | '~' :: '0' :: 'x' :: hs => (readDigits 16 hs 0).map fun n => 4294967295 - n
  | '0' :: 'x' :: hs => readDigits 16 hs 0
  | _ => none

/-- The arms of a switch as the description of case headers gives them (this definition
follows the description, not the source): the generator after the first `n` arms, where
arm `i` is the label `case <lowerBound + i>:`, written one level to the left, followed by
the code for successor `i`. -/
def caseArms (psi : SwitchInfo) (succCode : Nat → CCodeGenerator → CCodeGenerator) :
    Nat → CCodeGenerator → CCodeGenerator
  | 0, g => g
  | n + 1, g =>
    succCode n
      (appendLine (caseArms psi succCode n g)
        (indent "" ((caseArms psi succCode n g).m_indent - 1) ++ "case " ++
          intConstText (psi.lowerBound + n) false false ++ ":"))

/-- Whether a line of the output is the label `default:` behind its indentation. -/
def isDefaultLine (s : String) : Bool :=
  s.data.dropWhile (fun c => c == ' ') == "default:".data

/-- The value that C gives to the text of an expression made of integer constants, locals,
`~` and `!`, for the values `σ` of the locals; `none` for other expressions. This
definition follows the C language (the complement of `v` is `-v - 1`, a condition holds
when its value is not 0); the source has no evaluator. -/
def cValue (σ : String → Int) : Exp → Option Int
  | .intConst K _ => some K
  | .unary .opLocal (.strConst s) => some (σ s)
  | .unary .opNot e => (cValue σ e).map fun v => -v - 1
  | .unary .opLNot e => (cValue σ e).map fun v => if v = 0 then 1 else 0
  | _ => none

/-- Code for the body of a loop, for examples: one line that names the block. -/
def bodyLine (b : Nat) (g : CCodeGenerator) : CCodeGenerator :=
  appendLine g (indent "" g.m_indent ++ "body" ++ number b 10 ++ ";")

/-! # Theorems -/

/-! ## Theorems: parentheses -/

theorem append_ne_self (s t : String) (h : 0 < t.length) : s ++ t ≠ s := by
  intro e
  have := congrArg String.length e
  rw [String.length_append] at this
  omega

/-- C10: `openParen` writes `(` exactly when `inner > outer` and nothing otherwise;
`closeParen` writes `)` under exactly the same condition, so the two agree. -/
theorem openParen_closeParen_agree (str str2 : String) (outer inner : OpPrec) :
    (openParen str outer inner = str ++ "(" ↔ inner > outer) ∧
    (openParen str outer inner = str ↔ ¬ inner > outer) ∧
    (closeParen str2 outer inner = str2 ++ ")" ↔ inner > outer) ∧
    (closeParen str2 outer inner = str2 ↔ ¬ inner > outer) ∧
    (openParen str outer inner ≠ str ↔ closeParen str2 outer inner ≠ str2) := by
  have ho : str ++ "(" ≠ str := append_ne_self _ _ (by decide)
  have hc : str2 ++ ")" ≠ str2 := append_ne_self _ _ (by decide)
  unfold openParen closeParen
  by_cases h : inner > outer
  · simp [h, ho, hc]
  · simp [h, ho, hc, Ne.symm ho, Ne.symm hc]

/-! ## Theorems: unused labels -/

theorem removeUnusedLabelsLoop_eq (toLongLong : String → Option Nat) (used : List Nat) :
    ∀ lines : List String,
      (∀ l ∈ lines, isLabelLine l = true → (toLongLong (labelAddrText l)).isSome = true) →
      removeUnusedLabelsLoop toLongLong used lines =
        some (lines.filter (fun l => !isUnusedLabel toLongLong used l))
  | [], _ => rfl
  | l :: rest, h => by
    have ih := removeUnusedLabelsLoop_eq toLongLong used rest
      (fun x hx => h x (List.mem_cons_of_mem _ hx))
    have hl := h l (List.mem_cons_self _ _)
    unfold removeUnusedLabelsLoop
    by_cases hlab : isLabelLine l = true
    · obtain ⟨a, ha⟩ := Option.isSome_iff_exists.mp (hl hlab)
      by_cases hu : a ∈ used
      · simp [hlab, ha, hu, ih, isUnusedLabel, List.filter_cons]
      · simp [hlab, ha, hu, ih, isUnusedLabel, List.filter_cons]
    · simp [hlab, ih, isUnusedLabel, List.filter_cons]


theorem hexDigitValue_digitChar (d : Nat) (h : d < 16) :
    hexDigitValue (Nat.digitChar d) = some d := by
  interval_cases d <;> decide

theorem digitChar_ne_colon (d : Nat) (h : d < 16) : Nat.digitChar d ≠ ':' := by
  interval_cases d <;> decide

theorem readDigits_toDigitsCore (b : Nat) (hb : 2 ≤ b) (hb16 : b ≤ 16) :
    ∀ (fuel n : Nat) (ds : List Char), n < fuel →
      readDigits b (Nat.toDigitsCore b fuel n ds) 0 = readDigits b ds n
  | 0, _, _, h => absurd h (Nat.not_lt_zero _)
  | fuel + 1, n, ds, h => by
    have hmod : n % b < b := Nat.mod_lt _ (by omega)
    have hdv : hexDigitValue (Nat.digitChar (n % b)) = some (n % b) :=
      hexDigitValue_digitChar _ (by omega)
    unfold Nat.toDigitsCore
    by_cases h0 : n / b = 0
    · have hlt : n < b := by
        by_contra hge
        have : 0 < n / b := Nat.div_pos (by omega) (by omega)
        omega
      have hm : n % b = n := Nat.mod_eq_of_lt hlt
      rw [hm] at hdv
      simp [h0, readDigits, hm, hdv, hlt]
    · have hdiv : n / b < fuel := by
        have : n / b < n := Nat.div_lt_self (by
          rcases Nat.eq_zero_or_pos n with h1 | h1
          · subst h1; simp at h0
          · exact h1) (by omega)
        omega
      have ih := readDigits_toDigitsCore b hb hb16 fuel (n / b)
        (Nat.digitChar (n % b) :: ds) hdiv
      simp only [h0, if_false]
      rw [ih]
      simp [readDigits, hdv, hmod, Nat.div_add_mod']

theorem readDigits_toDigits (b : Nat) (hb : 2 ≤ b) (hb16 : b ≤ 16) (n : Nat) :
    readDigits b (Nat.toDigits b n) 0 = some n := by
  unfold Nat.toDigits
  rw [readDigits_toDigitsCore b hb hb16 (n + 1) n [] (Nat.lt_succ_self n)]
  rfl

theorem toDigitsCore_ne_nil (b : Nat) :
    ∀ (fuel n : Nat) (ds : List Char), 0 < fuel → Nat.toDigitsCore b fuel n ds ≠ []
  | 0, _, _, h => absurd h (Nat.lt_irrefl _)
  | fuel + 1, n, ds, _ => by
    unfold Nat.toDigitsCore
    by_cases h0 : n / b = 0
    · simp [h0]
    · simp only [h0, if_false]
      cases fuel with
      | zero => simp [Nat.toDigitsCore]
      | succ f => exact toDigitsCore_ne_nil b (f + 1) _ _ (Nat.succ_pos f)

theorem hexToNat_number (a : Nat) : hexToNat (number a 16) = some a := by
  unfold hexToNat number
  have hne : Nat.toDigits 16 a ≠ [] := toDigitsCore_ne_nil 16 (a + 1) a [] (Nat.succ_pos a)
  simp [hne, readDigits_toDigits 16 (by decide) (by decide) a]

example : hexToNat "1f" = some 31 := by decide
example : isLabelLine "bb0x10:" = true := by decide
example : labelAddrText "bb0x10:" = "10" := by decide
example : number 4294965248 16 = "fffff800" := by decide


theorem toDigitsCore_mem (b : Nat) (hb : 0 < b) :
    ∀ (fuel n : Nat) (ds : List Char) (c : Char), c ∈ Nat.toDigitsCore b fuel n ds →
      c ∈ ds ∨ ∃ d, d < b ∧ c = Nat.digitChar d
  | 0, _, _, c, h => by
    simp [Nat.toDigitsCore] at h
    exact Or.inl h
  | fuel + 1, n, ds, c, h => by
    unfold Nat.toDigitsCore at h
    by_cases h0 : n / b = 0
    · simp only [h0, if_true] at h
      rcases List.mem_cons.mp h with h1 | h1
      · exact Or.inr ⟨n % b, Nat.mod_lt _ hb, h1⟩
      · exact Or.inl h1
    · simp only [h0, if_false] at h
      rcases toDigitsCore_mem b hb fuel (n / b) _ c h with h1 | h1
      · rcases List.mem_cons.mp h1 with h2 | h2
        · exact Or.inr ⟨n % b, Nat.mod_lt _ hb, h2⟩
        · exact Or.inl h2
      · exact Or.inr h1

theorem colon_not_mem_number (a : Nat) : ':' ∉ (number a 16).data := by
  intro h
  rcases toDigitsCore_mem 16 (by decide) (a + 1) a [] ':' h with h1 | ⟨d, hd, h1⟩
  · simp at h1
  · exact digitChar_ne_colon d hd h1.symm

theorem labelLine_data (a : Nat) :
    ("bb0x" ++ number a 16 ++ ":").data = 'b' :: 'b' :: '0' :: 'x' :: ((number a 16).data ++ [':']) := by
  simp [String.data_append]

theorem isLabelLine_label (a : Nat) : isLabelLine ("bb0x" ++ number a 16 ++ ":") = true := by
  simp [isLabelLine, startsWith, contains, labelLine_data, List.isPrefixOf]

theorem labelAddrText_label (a : Nat) :
    labelAddrText ("bb0x" ++ number a 16 ++ ":") = number a 16 := by
  have hc := colon_not_mem_number a
  have hidx : List.indexOf ':' ('b' :: 'b' :: '0' :: 'x' :: ((number a 16).data ++ [':']))
      = 4 + (number a 16).data.length := by
    rw [List.indexOf_cons_ne _ (by decide), List.indexOf_cons_ne _ (by decide),
      List.indexOf_cons_ne _ (by decide), List.indexOf_cons_ne _ (by decide),
      List.indexOf_append_of_not_mem hc]
    simp
    omega
  simp [labelAddrText, midRef, indexOf, labelLine_data, hidx]


/-- C2: provided every label-shaped line carries an address that `toLongLong` accepts,
`removeUnusedLabels` succeeds and keeps, in their order, exactly the lines that are not
(label line with an address outside `m_usedLabels`); `m_usedLabels` and `m_indent` are
untouched. Hence every label line that remains has its address in `m_usedLabels`,
and the label line of a block at address `a` remains iff it was there and `a` is used
(for a reader that reads back what `number _ 16` prints). -/
theorem removeUnusedLabels_deletes_exactly (toLongLong : String → Option Nat)
    (g : CCodeGenerator)
    (h : ∀ l ∈ g.m_lines, isLabelLine l = true → (toLongLong (labelAddrText l)).isSome = true) :
    removeUnusedLabels toLongLong g =
      some { g with m_lines :=
        g.m_lines.filter (fun l => !isUnusedLabel toLongLong g.m_usedLabels l) } ∧
    (∀ l ∈ g.m_lines.filter (fun l => !isUnusedLabel toLongLong g.m_usedLabels l),
      isLabelLine l = true →
        ∃ a, toLongLong (labelAddrText l) = some a ∧ a ∈ g.m_usedLabels) ∧
    ((∀ x, toLongLong (number x 16) = some x) → ∀ a,
      (("bb0x" ++ number a 16 ++ ":") ∈
          g.m_lines.filter (fun l => !isUnusedLabel toLongLong g.m_usedLabels l) ↔
        ("bb0x" ++ number a 16 ++ ":") ∈ g.m_lines ∧ a ∈ g.m_usedLabels)) := by
  refine ⟨?_, ?_, ?_⟩
  · simp [removeUnusedLabels, removeUnusedLabelsLoop_eq toLongLong g.m_usedLabels g.m_lines h]
  · intro l hl hlab
    rw [List.mem_filter] at hl
    obtain ⟨hmem, hkeep⟩ := hl
    obtain ⟨a, ha⟩ := Option.isSome_iff_exists.mp (h l hmem hlab)
    refine ⟨a, ha, ?_⟩
    by_contra hu
    simp [isUnusedLabel, hlab, ha, hu] at hkeep
  · intro hread a
    rw [List.mem_filter]
    simp [isUnusedLabel, isLabelLine_label, labelAddrText_label, hread]

theorem removeUnusedLabels_deletes_exactly_witness :
    (∀ l ∈ ({ m_lines := ["bb0x10:", "    x = 1;", "bb0x20:", "    goto bb0x20;"],
              m_usedLabels := [32] } : CCodeGenerator).m_lines,
        isLabelLine l = true → (hexToNat (labelAddrText l)).isSome = true) ∧
    removeUnusedLabels hexToNat
        { m_lines := ["bb0x10:", "    x = 1;", "bb0x20:", "    goto bb0x20;"],
          m_usedLabels := [32] } =
      some { m_lines := ["    x = 1;", "bb0x20:", "    goto bb0x20;"], m_usedLabels := [32] } :=
  ⟨by decide,
   ((removeUnusedLabels_deletes_exactly hexToNat
      { m_lines := ["bb0x10:", "    x = 1;", "bb0x20:", "    goto bb0x20;"],
        m_usedLabels := [32] } (by decide)).1).trans (by decide)⟩

/-! ## Theorems: integer literals -/

example : intConstText (-2048) false false = "0xfffff800" := by decide
example : intConstText (-5) false false = "-5" := by decide
example : intConstText (-5) false true = "4294967291U" := by decide
example : intConstText (-1000) false true = "0xfffffc18" := by decide
example : intConstText 4096 false true = "0x1000" := by decide
example : readCLiteral "0xfffff800" = some 4294965248 := by decide
example : readCLiteral "4294967291U" = some 4294967291 := by decide
example : readCLiteral "-5" = some (-5) := by decide
example : charConstText 10 = "'\\n'" := by decide

theorem number_data_ne_nil (n b : Nat) : (number n b).data ≠ [] :=
  toDigitsCore_ne_nil b (n + 1) n [] (Nat.succ_pos n)

theorem number_data_mem (n b : Nat) (hb : 0 < b) (c : Char) (h : c ∈ (number n b).data) :
    ∃ d, d < b ∧ c = Nat.digitChar d := by
  rcases toDigitsCore_mem b hb (n + 1) n [] c h with h1 | h1
  · simp at h1
  · exact h1

theorem digitChar_not_special (d : Nat) (h : d < 16) :
    Nat.digitChar d ≠ 'U' ∧ Nat.digitChar d ≠ '-' ∧ Nat.digitChar d ≠ 'x' := by
  interval_cases d <;> decide

theorem number_data_not_special (n b : Nat) (hb : 0 < b) (hb16 : b ≤ 16) (c : Char)
    (h : c ∈ (number n b).data) : c ≠ 'U' ∧ c ≠ '-' ∧ c ≠ 'x' := by
  obtain ⟨d, hd, rfl⟩ := number_data_mem n b hb c h
  exact digitChar_not_special d (by omega)

theorem stripSuffixU_concat (ds : List Char) : stripSuffixU (ds ++ ['U']) = ds := by
  simp [stripSuffixU]

theorem stripSuffixU_of_not_mem (cs : List Char) (h : 'U' ∉ cs) : stripSuffixU cs = cs := by
  unfold stripSuffixU
  by_cases hl : cs.getLast? = some 'U'
  · exact absurd (List.mem_of_getLast?_eq_some hl) h
  · simp [hl]

theorem readLiteralBody_decimal (ds : List Char) (hne : ds ≠ [])
    (h : ∀ c ∈ ds, c ≠ '-' ∧ c ≠ 'x') :
    readLiteralBody ds = (readDigits 10 ds 0).map (fun n => (n : Int)) := by
  unfold readLiteralBody
  split
  · exact absurd rfl (h '-' (by simp)).1
  · exact absurd rfl (h 'x' (by simp)).2
  · simp [hne]

theorem readCLiteral_decimal (n : Nat) : readCLiteral (number n 10) = some (n : Int) := by
  have hs := number_data_not_special n 10 (by decide) (by decide)
  unfold readCLiteral
  rw [stripSuffixU_of_not_mem _ (fun h => (hs _ h).1 rfl),
    readLiteralBody_decimal _ (number_data_ne_nil n 10) (fun c hc => (hs c hc).2)]
  simp [number, readDigits_toDigits 10 (by decide) (by decide) n]

theorem readCLiteral_decimalU (n : Nat) :
    readCLiteral (number n 10 ++ "U") = some (n : Int) := by
  have hs := number_data_not_special n 10 (by decide) (by decide)
  unfold readCLiteral
  have hd : (number n 10 ++ "U").data = (number n 10).data ++ ['U'] := by
    simp [String.data_append]
  rw [hd, stripSuffixU_concat,
    readLiteralBody_decimal _ (number_data_ne_nil n 10) (fun c hc => (hs c hc).2)]
  simp [number, readDigits_toDigits 10 (by decide) (by decide) n]

theorem readCLiteral_negative (n : Nat) :
    readCLiteral ("-" ++ number n 10) = some (-(n : Int)) := by
  have hs := number_data_not_special n 10 (by decide) (by decide)
  unfold readCLiteral
  have hd : ("-" ++ number n 10).data = '-' :: (number n 10).data := by
    simp [String.data_append]
  rw [hd, stripSuffixU_of_not_mem _ (by
    intro h
    rcases List.mem_cons.mp h with h1 | h1
    · exact absurd h1 (by decide)
    · exact (hs _ h1).1 rfl)]
  have hne : Nat.toDigits 10 n ≠ [] := number_data_ne_nil n 10
  simp [readLiteralBody, hne, number, readDigits_toDigits 10 (by decide) (by decide) n]

theorem readCLiteral_hex (n : Nat) :
    readCLiteral ("0x" ++ number n 16) = some (n : Int) := by
  have hs := number_data_not_special n 16 (by decide) (by decide)
  unfold readCLiteral
  have hd : ("0x" ++ number n 16).data = '0' :: 'x' :: (number n 16).data := by
    simp [String.data_append]
  rw [hd, stripSuffixU_of_not_mem _ (by
    intro h
    rcases List.mem_cons.mp h with h1 | h1
    · exact absurd h1 (by decide)
    · rcases List.mem_cons.mp h1 with h2 | h2
      · exact absurd h2 (by decide)
      · exact (hs _ h2).1 rfl)]
  have hne : Nat.toDigits 16 n ≠ [] := number_data_ne_nil n 16
  simp [readLiteralBody, hne, number, readDigits_toDigits 16 (by decide) (by decide) n]

theorem toUnsigned32_of_nonneg (K : Int) (h0 : 0 ≤ K) (hhi : K < 2147483648) :
    ((toUnsigned32 K : Nat) : Int) = K := by
  unfold toUnsigned32
  omega

theorem toUnsigned32_of_neg (K : Int) (hlo : -2147483648 ≤ K) (h0 : K < 0) :
    ((toUnsigned32 K : Nat) : Int) = K + 4294967296 := by
  unfold toUnsigned32
  omega

/-- C4 (as stated) fails: the non-char constant `-2048`, emitted with the unsigned flag
off, is written `0xfffff800`, which reads back as 4294965248 and not as -2048. -/
theorem intConst_roundtrip_counterexample :
    (-2147483648 : Int) ≤ -2048 ∧ (-2048 : Int) < 2147483648 ∧
    appendIntConst "" (-2048) false false = "0xfffff800" ∧
    readCLiteral (appendIntConst "" (-2048) false false) = some 4294965248 ∧
    readCLiteral (appendIntConst "" (-2048) false false) ≠ some (-2048) := by
  decide

/-- C4 (amended): for a 32-bit constant `K` that is not of type char and either value of
the unsigned flag, the emitted literal reads back as `K` when `K ≥ 0`, or when
`-2048 < K` and the unsigned flag is off; in the remaining cases it reads back as
`K + 2^32`, the unsigned 32-bit value with the bit pattern of `K`. In every case the
value read is congruent to `K` modulo `2^32`. -/
theorem intConst_roundtrip_mod (K : Int) (uns : Bool)
    (hlo : -2147483648 ≤ K) (hhi : K < 2147483648) :
    readCLiteral (appendIntConst "" K false uns) =
      some (if 0 ≤ K ∨ (uns = false ∧ -2048 < K) then K else K + 4294967296) ∧
    ∃ v, readCLiteral (appendIntConst "" K false uns) = some v ∧
      v % 4294967296 = K % 4294967296 := by
  have key : readCLiteral (appendIntConst "" K false uns) =
      some (if 0 ≤ K ∨ (uns = false ∧ -2048 < K) then K else K + 4294967296) := by
    have hap : appendIntConst "" K false uns = intConstText K false uns := by
      simp [appendIntConst]
    rw [hap]
    unfold intConstText
    by_cases hneg : K < 0
    · have hu := toUnsigned32_of_neg K hlo hneg
      cases uns with
      | true =>
        have hcond : ¬ (0 ≤ K ∨ ((true : Bool) = false ∧ -2048 < K)) := by
          simp; omega
        rw [if_neg hcond]
        simp only [Bool.true_and, decide_eq_true_eq, hneg, if_true]
        split
        · rw [readCLiteral_decimalU, hu]
        · rw [readCLiteral_hex, hu]
      | false =>
        by_cases hsmall : -2048 < K ∧ K < 2048
        · have hcond : (0 ≤ K ∨ ((false : Bool) = false ∧ -2048 < K)) := Or.inr ⟨rfl, hsmall.1⟩
          have hK : (((-K).toNat : Nat) : Int) = -K := by omega
          rw [if_pos hcond]
          simp only [Bool.false_and, Bool.false_eq_true, if_false, hsmall, and_self, if_true,
            intToString, hneg]
          rw [readCLiteral_negative, hK]
          simp
        · have hcond : ¬ (0 ≤ K ∨ ((false : Bool) = false ∧ -2048 < K)) := by
            simp; omega
          rw [if_neg hcond]
          simp only [Bool.false_and, Bool.false_eq_true, if_false, hsmall]
          rw [readCLiteral_hex, hu]
    · have h0 : 0 ≤ K := by omega
      have hu := toUnsigned32_of_nonneg K h0 hhi
      have hcond : (0 ≤ K ∨ (uns = false ∧ -2048 < K)) := Or.inl h0
      have hK : ((K.toNat : Nat) : Int) = K := by omega
      rw [if_pos hcond]
      simp only [hneg, decide_False, Bool.and_false, Bool.false_eq_true, if_false]
      by_cases hsmall : -2048 < K ∧ K < 2048
      · simp only [hsmall, and_self, if_true, intToString, hneg, if_false]
        rw [readCLiteral_decimal, hK]
      · simp only [hsmall, if_false]
        rw [readCLiteral_hex, hu]
  refine ⟨key, _, key, ?_⟩
  split <;> omega

theorem intConst_roundtrip_mod_witness :
    readCLiteral (appendIntConst "" (-1000) false true) = some (-1000 + 4294967296) :=
  (intConst_roundtrip_mod (-1000) true (by decide) (by decide)).1.trans (by decide)

/-! ## Theorems: bitfield assignment -/

example : bitfieldAssignMask 0 0 = some (-2) := by decide
example : bitfieldAssignMask 3 3 = some (-9) := by decide
example : bitfieldAssignMask 4 3 = some (-1) := by decide
example : bitfieldAssignMask 7 3 = none := by decide
example : bitfieldReadMask 7 3 = some 31 := by decide
example : (bitfieldAssignRhs (.unary .opLocal (.strConst "x")) (.unary .opLocal (.strConst "v")) 0 0).bind
    (evalBits (fun e => if e = .unary .opLocal (.strConst "x") then 0 else 1)) = some 0 := by decide

/-- C5: at `x = 0`, `n = m = 0`, `v = 1` the right-hand side built for `x@[0:0] := v` is
`x & (0xfffffffe | (v << 0))`, which evaluates to `0`; reading bit 0 of it gives `0`,
whereas `v & ((1 << (0-0+1)) - 1) = 1`. -/
theorem bitfield_assign_then_read_mismatch :
    bitfieldAssignRhs (.unary .opLocal (.strConst "x")) (.unary .opLocal (.strConst "v")) 0 0 =
      some (.binary .opBitAnd (.unary .opLocal (.strConst "x"))
        (.binary .opBitOr (.intConst (-2) false)
          (.binary .opShiftL (.unary .opLocal (.strConst "v")) (.intConst 0 false)))) ∧
    ((bitfieldAssignRhs (.unary .opLocal (.strConst "x"))
        (.unary .opLocal (.strConst "v")) 0 0).bind
      (evalBits (fun e => if e = .unary .opLocal (.strConst "x") then 0 else 1))).bind
      (fun r => bitfieldReadValue r 0 0) = some 0 ∧
    (bitfieldReadMask 0 0).map (fun mask => 1 &&& mask) = some 1 := by
  decide

/-! ## Theorems: recursion groups and the driver -/

set_option maxRecDepth 100000 in
/-- C6: for `0` calling `1` and `1` calling `0`, both undecoded, the run of
`tryDecompileRecursive(0)` from an empty call stack ends normally with `0` in status
`Final` but `1` in status `Preserveds`; started on `1` it is the other way round. -/
theorem mutual_recursion_member_not_final :
    statusAfter (decompileRecursive (mutualRecursion false) 10 0) 0 = some .PROC_FINAL ∧
    statusAfter (decompileRecursive (mutualRecursion false) 10 0) 1 = some .PROC_PRESERVEDS ∧
    statusAfter (decompileRecursive (mutualRecursion false) 10 1) 1 = some .PROC_FINAL ∧
    statusAfter (decompileRecursive (mutualRecursion false) 10 1) 0 = some .PROC_PRESERVEDS := by
  decide

set_option maxRecDepth 100000 in
/-- C1: after the groups `{0, 1}` and `{2, 3}` have been created, adding `0` to the group
of `2` gives `0` the new group `{0, 2, 3}`, while `1` keeps the group `{0, 1}`: `0` is a
member of the group of `1`, but its own group is another one and does not contain `1`.
The driver reaches such a state on `crossingCycles`: at the end `2` has the group
`{0, 1, 2}`, whose member `0` has the group `{0, 1, 4}`. -/
theorem addToRecursionGroup_splits_group :
    (addToRecursionGroup (createGroupOf (createGroupOf DecompState.init [0, 1]) [2, 3])
        0 1).m_recursionGroups 1 = some 0 ∧
    (addToRecursionGroup (createGroupOf (createGroupOf DecompState.init [0, 1]) [2, 3])
        0 1).getSet 0 = [0, 1] ∧
    (addToRecursionGroup (createGroupOf (createGroupOf DecompState.init [0, 1]) [2, 3])
        0 1).m_recursionGroups 0 = some 2 ∧
    (addToRecursionGroup (createGroupOf (createGroupOf DecompState.init [0, 1]) [2, 3])
        0 1).recursionGroup 0 = some 2 ∧
    (addToRecursionGroup (createGroupOf (createGroupOf DecompState.init [0, 1]) [2, 3])
        0 1).getSet 2 = [0, 2, 3] ∧
    groupAfter (decompileRecursive crossingCycles 20 0) 2 = some (some 2, some 2, [0, 1, 2]) ∧
    groupAfter (decompileRecursive crossingCycles 20 0) 0 = some (some 0, some 0, [0, 1, 4]) := by
  decide

/-! ### Frame lemmas for the primitive state operations -/

namespace DecompState

@[simp] theorem log_status (s : DecompState) (e : Event) : (s.log e).status = s.status := rfl
@[simp] theorem log_recursionGroup (s : DecompState) (e : Event) :
    (s.log e).recursionGroup = s.recursionGroup := rfl
@[simp] theorem log_registry (s : DecompState) (e : Event) :
    (s.log e).m_recursionGroups = s.m_recursionGroups := rfl
@[simp] theorem log_procSets (s : DecompState) (e : Event) :
    (s.log e).procSets = s.procSets := rfl
@[simp] theorem log_callStack (s : DecompState) (e : Event) :
    (s.log e).m_callStack = s.m_callStack := rfl
@[simp] theorem log_trace (s : DecompState) (e : Event) : (s.log e).trace = s.trace ++ [e] := rfl
@[simp] theorem log_getSet (s : DecompState) (e : Event) (h : Nat) :
    (s.log e).getSet h = s.getSet h := rfl

@[simp] theorem setStatus_status (s : DecompState) (p : UserProc) (st : ProcStatus) (site : Site) :
    (s.setStatus p st site).status = Function.update s.status p st := rfl
@[simp] theorem setStatus_recursionGroup (s : DecompState) (p : UserProc) (st : ProcStatus)
    (site : Site) : (s.setStatus p st site).recursionGroup = s.recursionGroup := rfl
@[simp] theorem setStatus_registry (s : DecompState) (p : UserProc) (st : ProcStatus)
    (site : Site) : (s.setStatus p st site).m_recursionGroups = s.m_recursionGroups := rfl
@[simp] theorem setStatus_procSets (s : DecompState) (p : UserProc) (st : ProcStatus)
    (site : Site) : (s.setStatus p st site).procSets = s.procSets := rfl
@[simp] theorem setStatus_callStack (s : DecompState) (p : UserProc) (st : ProcStatus)
    (site : Site) : (s.setStatus p st site).m_callStack = s.m_callStack := rfl
@[simp] theorem setStatus_trace (s : DecompState) (p : UserProc) (st : ProcStatus)
    (site : Site) :
    (s.setStatus p st site).trace = s.trace ++ [.status p (s.status p) st site] := rfl
@[simp] theorem setStatus_getSet (s : DecompState) (p : UserProc) (st : ProcStatus)
    (site : Site) (h : Nat) : (s.setStatus p st site).getSet h = s.getSet h := rfl

@[simp] theorem setRecursionGroup_status (s : DecompState) (p : UserProc) (g : Option Nat) :
    (s.setRecursionGroup p g).status = s.status := rfl
@[simp] theorem setRecursionGroup_recursionGroup (s : DecompState) (p : UserProc)
    (g : Option Nat) :
    (s.setRecursionGroup p g).recursionGroup = Function.update s.recursionGroup p g := rfl
@[simp] theorem setRecursionGroup_registry (s : DecompState) (p : UserProc) (g : Option Nat) :
    (s.setRecursionGroup p g).m_recursionGroups = s.m_recursionGroups := rfl
@[simp] theorem setRecursionGroup_procSets (s : DecompState) (p : UserProc) (g : Option Nat) :
    (s.setRecursionGroup p g).procSets = s.procSets := rfl
@[simp] theorem setRecursionGroup_callStack (s : DecompState) (p : UserProc) (g : Option Nat) :
    (s.setRecursionGroup p g).m_callStack = s.m_callStack := rfl
@[simp] theorem setRecursionGroup_trace (s : DecompState) (p : UserProc) (g : Option Nat) :
    (s.setRecursionGroup p g).trace = s.trace := rfl
@[simp] theorem setRecursionGroup_getSet (s : DecompState) (p : UserProc) (g : Option Nat)
    (h : Nat) : (s.setRecursionGroup p g).getSet h = s.getSet h := rfl

@[simp] theorem push_status (s : DecompState) (p : UserProc) : (s.push p).status = s.status := rfl
@[simp] theorem push_recursionGroup (s : DecompState) (p : UserProc) :
    (s.push p).recursionGroup = s.recursionGroup := rfl
@[simp] theorem push_registry (s : DecompState) (p : UserProc) :
    (s.push p).m_recursionGroups = s.m_recursionGroups := rfl
@[simp] theorem push_procSets (s : DecompState) (p : UserProc) :
    (s.push p).procSets = s.procSets := rfl
@[simp] theorem push_callStack (s : DecompState) (p : UserProc) :
    (s.push p).m_callStack = s.m_callStack ++ [p] := rfl
@[simp] theorem push_trace (s : DecompState) (p : UserProc) :
    (s.push p).trace = s.trace ++ [.stack (s.m_callStack ++ [p])] := rfl
@[simp] theorem push_getSet (s : DecompState) (p : UserProc) (h : Nat) :
    (s.push p).getSet h = s.getSet h := rfl

@[simp] theorem newProcSet_status (s : DecompState) : s.newProcSet.1.status = s.status := rfl
@[simp] theorem newProcSet_recursionGroup (s : DecompState) :
    s.newProcSet.1.recursionGroup = s.recursionGroup := rfl
@[simp] theorem newProcSet_registry (s : DecompState) :
    s.newProcSet.1.m_recursionGroups = s.m_recursionGroups := rfl
@[simp] theorem newProcSet_procSets (s : DecompState) :
    s.newProcSet.1.procSets = s.procSets ++ [[]] := rfl
@[simp] theorem newProcSet_handle (s : DecompState) : s.newProcSet.2 = s.procSets.length := rfl
@[simp] theorem newProcSet_callStack (s : DecompState) :
    s.newProcSet.1.m_callStack = s.m_callStack := rfl
@[simp] theorem newProcSet_trace (s : DecompState) : s.newProcSet.1.trace = s.trace := rfl

@[simp] theorem insertInto_status (s : DecompState) (h : Nat) (p : UserProc) :
    (s.insertInto h p).status = s.status := rfl
@[simp] theorem insertInto_recursionGroup (s : DecompState) (h : Nat) (p : UserProc) :
    (s.insertInto h p).recursionGroup = s.recursionGroup := rfl
@[simp] theorem insertInto_registry (s : DecompState) (h : Nat) (p : UserProc) :
    (s.insertInto h p).m_recursionGroups = s.m_recursionGroups := rfl
@[simp] theorem insertInto_callStack (s : DecompState) (h : Nat) (p : UserProc) :
    (s.insertInto h p).m_callStack = s.m_callStack := rfl
@[simp] theorem insertInto_trace (s : DecompState) (h : Nat) (p : UserProc) :
    (s.insertInto h p).trace = s.trace := rfl
@[simp] theorem insertInto_length (s : DecompState) (h : Nat) (p : UserProc) :
    (s.insertInto h p).procSets.length = s.procSets.length := by
  simp [insertInto]

end DecompState

theorem mem_procSetInsert (l : ProcSet) (p x : UserProc) :
    x ∈ procSetInsert l p ↔ x = p ∨ x ∈ l := by
  induction l with
  | nil => simp [procSetInsert]
  | cons q rest ih =>
    unfold procSetInsert
    by_cases h1 : p < q
    · simp [h1]
    · by_cases h2 : p = q
      · subst h2
        simp
      · simp only [h1, h2, if_false, List.mem_cons, ih]
        tauto

theorem getSet_insertInto (s : DecompState) (h h2 : Nat) (p : UserProc) :
    (s.insertInto h p).getSet h2 =
      if h2 = h ∧ h < s.procSets.length then procSetInsert (s.getSet h) p else s.getSet h2 := by
  unfold DecompState.insertInto DecompState.getSet
  by_cases e : h2 = h
  · subst e
    by_cases hl : h2 < s.procSets.length
    · simp [hl, List.getD_eq_getElem?_getD]
    · have hl2 : s.procSets.length ≤ h2 := Nat.le_of_not_lt hl
      have e1 : (s.procSets.set h2 (procSetInsert [] p))[h2]? = none :=
        List.getElem?_eq_none (by simpa using hl2)
      simp [hl, List.getD_eq_getElem?_getD, List.getElem?_eq_none hl2, e1]
  · simp [e, List.getD_eq_getElem?_getD, List.getElem?_set_ne (Ne.symm e)]

theorem mem_getSet_insertInto (s : DecompState) (h h2 : Nat) (p x : UserProc) :
    x ∈ (s.insertInto h p).getSet h2 ↔
      x ∈ s.getSet h2 ∨ (x = p ∧ h2 = h ∧ h < s.procSets.length) := by
  rw [getSet_insertInto]
  by_cases c : h2 = h ∧ h < s.procSets.length
  · rw [if_pos c, mem_procSetInsert]
    obtain ⟨c1, c2⟩ := c
    subst c1
    tauto
  · rw [if_neg c]
    tauto

/-! ### The operations on `ProcSet` objects -/

theorem SameButHeap.refl (s : DecompState) : SameButHeap s s :=
  ⟨rfl, rfl, rfl, rfl, rfl, Nat.le_refl _⟩

theorem SameButHeap.trans {s s2 s3 : DecompState} (h1 : SameButHeap s s2)
    (h2 : SameButHeap s2 s3) : SameButHeap s s3 :=
  ⟨h2.status.trans h1.status, h2.field.trans h1.field, h2.registry.trans h1.registry,
    h2.stack.trans h1.stack, h2.trace.trans h1.trace, Nat.le_trans h1.length h2.length⟩

theorem sameButHeap_insertInto (s : DecompState) (h : Nat) (p : UserProc) :
    SameButHeap s (s.insertInto h p) :=
  ⟨rfl, rfl, rfl, rfl, rfl, by simp⟩

theorem sameButHeap_newProcSet (s : DecompState) : SameButHeap s s.newProcSet.1 :=
  ⟨rfl, rfl, rfl, rfl, rfl, by simp⟩

theorem getSet_newProcSet (s : DecompState) (h : Nat) :
    s.newProcSet.1.getSet h = s.getSet h := by
  unfold DecompState.getSet
  simp only [DecompState.newProcSet_procSets, List.getD_eq_getElem?_getD]
  by_cases hl : h < s.procSets.length
  · rw [List.getElem?_append_left hl]
  · have hl2 : s.procSets.length ≤ h := Nat.le_of_not_lt hl
    rw [List.getElem?_eq_none hl2]
    by_cases e : h = s.procSets.length
    · subst e
      simp
    · rw [List.getElem?_eq_none (by simp; omega)]

theorem sameButHeap_insertAll (ps : List UserProc) :
    ∀ (s : DecompState) (h : Nat), SameButHeap s (s.insertAll h ps) := by
  induction ps with
  | nil => intro s h; exact SameButHeap.refl s
  | cons p rest ih =>
    intro s h
    exact (sameButHeap_insertInto s h p).trans (ih (s.insertInto h p) h)

theorem mem_getSet_insertAll (ps : List UserProc) :
    ∀ (s : DecompState) (h h2 : Nat) (x : UserProc),
      x ∈ (s.insertAll h ps).getSet h2 ↔
        x ∈ s.getSet h2 ∨ (x ∈ ps ∧ h2 = h ∧ h < s.procSets.length) := by
  induction ps with
  | nil => intro s h h2 x; simp [DecompState.insertAll]
  | cons p rest ih =>
    intro s h h2 x
    have := ih (s.insertInto h p) h h2 x
    simp only [DecompState.insertAll, List.foldl_cons] at this ⊢
    rw [this, mem_getSet_insertInto, DecompState.insertInto_length, List.mem_cons]
    tauto

theorem sameButHeap_unionStep (ug : Nat) (s : DecompState) (m : UserProc) :
    SameButHeap s (unionStep ug s m) := by
  unfold unionStep
  split
  · exact (sameButHeap_insertInto s ug m).trans (sameButHeap_insertAll _ _ _)
  · exact sameButHeap_insertInto s ug m

theorem mem_getSet_unionStep (ug : Nat) (s : DecompState) (m : UserProc) (h2 : Nat)
    (x : UserProc) (hx : x ∈ (unionStep ug s m).getSet h2) :
    x ∈ s.getSet h2 ∨ x = m ∨ ∃ r, x ∈ s.getSet r := by
  unfold unionStep at hx
  split at hx
  · rename_i r _
    rw [mem_getSet_insertAll, mem_getSet_insertInto] at hx
    rcases hx with (h1 | h1) | h1
    · exact Or.inl h1
    · exact Or.inr (Or.inl h1.1)
    · rw [mem_getSet_insertInto] at h1
      rcases h1.1 with h3 | h3
      · exact Or.inr (Or.inr ⟨r, h3⟩)
      · exact Or.inr (Or.inl h3.1)
  · rw [mem_getSet_insertInto] at hx
    rcases hx with h1 | h1
    · exact Or.inl h1
    · exact Or.inr (Or.inl h1.1)

theorem getSet_unionStep_mono (ug : Nat) (s : DecompState) (m : UserProc) (h2 : Nat)
    (x : UserProc) (hx : x ∈ s.getSet h2) : x ∈ (unionStep ug s m).getSet h2 := by
  unfold unionStep
  split
  · rw [mem_getSet_insertAll, mem_getSet_insertInto]
    exact Or.inl (Or.inl hx)
  · rw [mem_getSet_insertInto]
    exact Or.inl hx

theorem mem_unionStep_self (ug : Nat) (s : DecompState) (m : UserProc)
    (hug : ug < s.procSets.length) : m ∈ (unionStep ug s m).getSet ug := by
  unfold unionStep
  split
  · rw [mem_getSet_insertAll, mem_getSet_insertInto]
    exact Or.inl (Or.inr ⟨rfl, rfl, hug⟩)
  · rw [mem_getSet_insertInto]
    exact Or.inr ⟨rfl, rfl, hug⟩

theorem sameButHeap_unionInto (members : ProcSet) :
    ∀ (s : DecompState) (ug : Nat), SameButHeap s (unionInto s ug members) := by
  induction members with
  | nil => intro s ug; exact SameButHeap.refl s
  | cons m rest ih =>
    intro s ug
    exact (sameButHeap_unionStep ug s m).trans (ih (unionStep ug s m) ug)

theorem getSet_unionInto_mono (members : ProcSet) :
    ∀ (s : DecompState) (ug h2 : Nat) (x : UserProc), x ∈ s.getSet h2 →
      x ∈ (unionInto s ug members).getSet h2 := by
  induction members with
  | nil => intro s ug h2 x hx; exact hx
  | cons m rest ih =>
    intro s ug h2 x hx
    exact ih (unionStep ug s m) ug h2 x (getSet_unionStep_mono ug s m h2 x hx)

theorem members_subset_unionInto (members : ProcSet) :
    ∀ (s : DecompState) (ug : Nat), ug < s.procSets.length →
      ∀ x ∈ members, x ∈ (unionInto s ug members).getSet ug := by
  induction members with
  | nil => intro s ug _ x hx; simp at hx
  | cons m rest ih =>
    intro s ug hug x hx
    have hlen : ug < (unionStep ug s m).procSets.length :=
      Nat.lt_of_lt_of_le hug (sameButHeap_unionStep ug s m).length
    rcases List.mem_cons.mp hx with h1 | h1
    · subst h1
      exact getSet_unionInto_mono rest _ ug ug x (mem_unionStep_self ug s x hug)
    · exact ih (unionStep ug s m) ug hlen x h1

/-- The members of the sets after `unionInto` come from the members argument or from the
sets before. -/
theorem unionInto_closure (src : UserProc → Prop) (members : ProcSet) :
    ∀ (s : DecompState) (ug : Nat), (∀ h x, x ∈ s.getSet h → src x) →
      (∀ x ∈ members, src x) →
      ∀ h x, x ∈ (unionInto s ug members).getSet h → src x := by
  induction members with
  | nil => intro s ug hs _ h x hx; exact hs h x hx
  | cons m rest ih =>
    intro s ug hs hm h x hx
    refine ih (unionStep ug s m) ug ?_ (fun y hy => hm y (List.mem_cons_of_mem _ hy)) h x hx
    intro h2 y hy
    rcases mem_getSet_unionStep ug s m h2 y hy with h1 | h1 | ⟨r, h1⟩
    · exact hs h2 y h1
    · subst h1
      exact hm y (List.mem_cons_self _ _)
    · exact hs r y h1

theorem assignFold_spec (ug : Nat) (site : Site) (l : List UserProc) :
    ∀ st : DecompState,
      (l.foldl (assignStep ug site) st).procSets = st.procSets ∧
      (l.foldl (assignStep ug site) st).m_callStack = st.m_callStack ∧
      (∀ q, (l.foldl (assignStep ug site) st).m_recursionGroups q =
        if q ∈ l then some ug else st.m_recursionGroups q) ∧
      (∀ q, (l.foldl (assignStep ug site) st).recursionGroup q =
        if q ∈ l then some ug else st.recursionGroup q) ∧
      (∀ q, (l.foldl (assignStep ug site) st).status q =
        if q ∈ l then .PROC_INCYCLE else st.status q) ∧
      ∃ t, (l.foldl (assignStep ug site) st).trace = st.trace ++ t ∧
        ∀ e ∈ t, ∃ q old, e = .status q old .PROC_INCYCLE site ∧ q ∈ l ∧
          (old = st.status q ∨ old = .PROC_INCYCLE) := by
  induction l with
  | nil =>
    intro st
    exact ⟨rfl, rfl, fun _ => by simp, fun _ => by simp, fun _ => by simp, [], by simp, by simp⟩
  | cons p rest ih =>
    intro st
    obtain ⟨h1, h2, h3, h4, h5, t, h6, h7⟩ := ih (assignStep ug site st p)
    simp only [List.foldl_cons]
    refine ⟨h1.trans rfl, h2.trans rfl, ?_, ?_, ?_, ?_⟩
    · intro q
      rw [h3 q]
      by_cases hq : q ∈ rest
      · simp [hq]
      · by_cases hp : q = p
        · subst hp
          simp [hq, assignStep]
        · simp [hq, hp, assignStep, Function.update_noteq hp]
    · intro q
      rw [h4 q]
      by_cases hq : q ∈ rest
      · simp [hq]
      · by_cases hp : q = p
        · subst hp
          simp [hq, assignStep]
        · simp [hq, hp, assignStep, Function.update_noteq hp]
    · intro q
      rw [h5 q]
      by_cases hq : q ∈ rest
      · simp [hq]
      · by_cases hp : q = p
        · subst hp
          simp [hq, assignStep]
        · simp [hq, hp, assignStep, Function.update_noteq hp]
    · refine ⟨.status p (st.status p) .PROC_INCYCLE site :: t, ?_, ?_⟩
      · rw [h6]
        simp [assignStep]
      · intro e he
        rcases List.mem_cons.mp he with h8 | h8
        · exact ⟨p, st.status p, h8, List.mem_cons_self _ _, Or.inl rfl⟩
        · obtain ⟨q, old, e1, e2, e3⟩ := h7 e h8
          refine ⟨q, old, e1, List.mem_cons_of_mem _ e2, ?_⟩
          rcases e3 with e3 | e3
          · by_cases hp : q = p
            · subst hp
              right
              rw [e3]
              simp [assignStep]
            · left
              rw [e3]
              simp [assignStep, Function.update_noteq hp]
          · exact Or.inr e3

/-- What the first loop of `createRecursionGoup` leaves: nothing but `ProcSet` objects has
changed, the union handle is valid and its set contains the members of the new group. -/
theorem createFold_spec (src : UserProc → Prop) (s : DecompState) (ng : Nat)
    (_hng : ng < s.procSets.length) (hsrc : ∀ h x, x ∈ s.getSet h → src x) (l : List UserProc) :
    ∀ acc : DecompState × Nat,
      (SameButHeap s acc.1 ∧ acc.2 < acc.1.procSets.length ∧
        (∀ x ∈ s.getSet ng, x ∈ acc.1.getSet acc.2) ∧
        (∀ h x, x ∈ acc.1.getSet h → src x)) →
      (SameButHeap s (l.foldl (createStep ng (s.getSet ng)) acc).1 ∧
        (l.foldl (createStep ng (s.getSet ng)) acc).2 <
          (l.foldl (createStep ng (s.getSet ng)) acc).1.procSets.length ∧
        (∀ x ∈ s.getSet ng, x ∈ (l.foldl (createStep ng (s.getSet ng)) acc).1.getSet
          (l.foldl (createStep ng (s.getSet ng)) acc).2) ∧
        (∀ h x, x ∈ (l.foldl (createStep ng (s.getSet ng)) acc).1.getSet h → src x)) := by
  induction l with
  | nil => intro acc h; exact h
  | cons p rest ih =>
    intro acc ⟨h1, h2, h3, h4⟩
    simp only [List.foldl_cons]
    apply ih
    unfold createStep
    by_cases hreg : (acc.1.m_recursionGroups p).isSome = true
    · simp only [hreg, if_true]
      by_cases hfirst : acc.2 = ng
      · simp only [hfirst, if_true]
        have hv : acc.1.newProcSet.2 < acc.1.newProcSet.1.procSets.length := by simp
        have hsame := sameButHeap_unionInto (s.getSet ng) acc.1.newProcSet.1 acc.1.newProcSet.2
        refine ⟨h1.trans ((sameButHeap_newProcSet acc.1).trans hsame),
          Nat.lt_of_lt_of_le hv hsame.length,
          members_subset_unionInto _ _ _ hv, ?_⟩
        refine unionInto_closure src _ _ _ ?_ (fun x hx => hsrc ng x hx)
        intro h x hx
        rw [getSet_newProcSet] at hx
        exact h4 h x hx
      · simp only [hfirst, if_false]
        have hsame := sameButHeap_unionInto (s.getSet ng) acc.1 acc.2
        exact ⟨h1.trans hsame, Nat.lt_of_lt_of_le h2 hsame.length,
          members_subset_unionInto _ _ _ h2,
          unionInto_closure src _ _ _ h4 (fun x hx => hsrc ng x hx)⟩
    · simp only [hreg]
      exact ⟨h1, h2, h3, h4⟩

theorem getSet_assignGroup (s : DecompState) (ug : Nat) (site : Site) (h : Nat) :
    (assignGroup s ug site).getSet h = s.getSet h := by
  unfold DecompState.getSet assignGroup
  rw [(assignFold_spec ug site _ s).1]

/-- After `createRecursionGoup(newGroup)` all members of the new group have one and the
same group in the registry and in their field, are members of it, and have status
`InCycle`; the call stack is untouched. -/
theorem createRecursionGoup_members (s : DecompState) (ng : Nat) (hng : ng < s.procSets.length) :
    ∃ G, (∀ q ∈ s.getSet ng,
        (createRecursionGoup s ng).m_recursionGroups q = some G ∧
        (createRecursionGoup s ng).recursionGroup q = some G ∧
        q ∈ (createRecursionGoup s ng).getSet G ∧
        (createRecursionGoup s ng).status q = .PROC_INCYCLE) ∧
      (createRecursionGoup s ng).m_callStack = s.m_callStack := by
  obtain ⟨hsame, _, hsub, _⟩ := createFold_spec (fun _ => True) s ng hng (fun _ _ _ => trivial)
    (s.getSet ng) (s, ng) ⟨SameButHeap.refl s, hng, fun x hx => hx, fun _ _ _ => trivial⟩
  obtain ⟨_, a2, a3, a4, a5, _⟩ := assignFold_spec
    ((s.getSet ng).foldl (createStep ng (s.getSet ng)) (s, ng)).2 .createGroup
    (((s.getSet ng).foldl (createStep ng (s.getSet ng)) (s, ng)).1.getSet
      ((s.getSet ng).foldl (createStep ng (s.getSet ng)) (s, ng)).2)
    ((s.getSet ng).foldl (createStep ng (s.getSet ng)) (s, ng)).1
  refine ⟨((s.getSet ng).foldl (createStep ng (s.getSet ng)) (s, ng)).2, ?_, ?_⟩
  · intro q hq
    have hmem := hsub q hq
    refine ⟨?_, ?_, ?_, ?_⟩
    · have := a3 q
      simp only [hmem, if_true] at this
      exact this
    · have := a4 q
      simp only [hmem, if_true] at this
      exact this
    · unfold createRecursionGoup
      rw [getSet_assignGroup]
      exact hmem
    · have := a5 q
      simp only [hmem, if_true] at this
      exact this
  · unfold createRecursionGoup assignGroup
    rw [a2, hsame.stack]

theorem createGroupOf_members (s : DecompState) (members : List UserProc) :
    ∃ G, (∀ q ∈ members,
        (createGroupOf s members).m_recursionGroups q = some G ∧
        (createGroupOf s members).recursionGroup q = some G ∧
        q ∈ (createGroupOf s members).getSet G ∧
        (createGroupOf s members).status q = .PROC_INCYCLE) ∧
      (createGroupOf s members).m_callStack = s.m_callStack := by
  have hv : s.newProcSet.2 < (s.newProcSet.1.insertAll s.newProcSet.2 members).procSets.length :=
    Nat.lt_of_lt_of_le (by simp) (sameButHeap_insertAll members s.newProcSet.1 s.newProcSet.2).length
  obtain ⟨G, h1, h2⟩ := createRecursionGoup_members
    (s.newProcSet.1.insertAll s.newProcSet.2 members) s.newProcSet.2 hv
  refine ⟨G, ?_, ?_⟩
  · intro q hq
    apply h1 q
    rw [mem_getSet_insertAll]
    exact Or.inr ⟨hq, rfl, by simp⟩
  · unfold createGroupOf
    rw [h2, (sameButHeap_insertAll members s.newProcSet.1 s.newProcSet.2).stack]
    rfl

theorem dropWhile_getLast (p : UserProc → Bool) :
    ∀ l : List UserProc, l.dropWhile p ≠ [] → (l.dropWhile p).getLast? = l.getLast?
  | [], h => absurd rfl h
  | a :: rest, h => by
    by_cases hp : p a = true
    · rw [List.dropWhile_cons_of_pos hp] at h ⊢
      rw [dropWhile_getLast p rest h]
      cases rest with
      | nil => simp at h
      | cons b t => simp [List.getLast?_cons_cons]
    · rw [List.dropWhile_cons_of_neg hp]

theorem stackFrom_ne_nil (callStack : List UserProc) (callee : UserProc)
    (h : callee ∈ callStack) : stackFrom callStack callee ≠ [] := by
  unfold stackFrom
  intro e
  rw [List.dropWhile_eq_nil_iff] at e
  have := e callee h
  simp at this

theorem mem_stackFrom_of_top (callStack : List UserProc) (callee proc : UserProc)
    (h : callee ∈ callStack) (htop : callStack.getLast? = some proc) :
    proc ∈ stackFrom callStack callee := by
  have h1 := dropWhile_getLast (fun p => p != callee) callStack (stackFrom_ne_nil _ _ h)
  rw [htop] at h1
  exact List.mem_of_getLast?_eq_some h1

theorem ProcStatus.final_not_le_earlyDone (a : ProcStatus) (h : a ≤ .PROC_EARLYDONE) :
    a ≠ .PROC_FINAL := by
  intro e
  subst e
  exact absurd h (by decide)

/-- C7: when the loop of `tryDecompileRecursive(proc)` meets a call block whose
destination is a user procedure `c` that is on the call stack with a status between
`Visited` and `EarlyDone`, it ends normally, and afterwards all procedures from the first
occurrence of `c` to the top of the call stack (`proc`, the top, among them) have one and
the same group `G` in the registry and in their field, are members of `G`, and have
status `InCycle`. -/
theorem cycle_call_groups_stack_segment
    (tryRec : UserProc → DecompState → Except DriverError DecompState)
    (s : DecompState) (proc c : UserProc) (bb : BasicBlock)
    (hbb : bb.type = .Call) (hcall : bb.hlStmtIsCall = true)
    (hdest : bb.destProc = some ⟨false, c⟩) (hstack : c ∈ s.m_callStack)
    (hlo : .PROC_VISITED ≤ s.status c) (hhi : s.status c ≤ .PROC_EARLYDONE)
    (htop : s.m_callStack.getLast? = some proc) :
    ∃ s2 G, processCallBB tryRec proc s bb = .ok s2 ∧
      s2.m_callStack = s.m_callStack ∧
      proc ∈ stackFrom s.m_callStack c ∧
      ∀ q ∈ stackFrom s.m_callStack c,
        s2.m_recursionGroups q = some G ∧ s2.recursionGroup q = some G ∧
        q ∈ s2.getSet G ∧ s2.status q = .PROC_INCYCLE := by
  obtain ⟨G, h1, h2⟩ := createGroupOf_members s (stackFrom s.m_callStack c)
  refine ⟨(createGroupOf s (stackFrom s.m_callStack c)).setStatus proc .PROC_INCYCLE .cycleCall,
    G, ?_, ?_, mem_stackFrom_of_top _ _ _ hstack htop, ?_⟩
  · have hnf : s.status c ≠ .PROC_FINAL := ProcStatus.final_not_le_earlyDone _ hhi
    simp [processCallBB, hbb, hcall, hdest, hnf, hlo, hhi, cycleCall, hstack, Except.map]
  · simpa using h2
  · intro q hq
    obtain ⟨a1, a2, a3, a4⟩ := h1 q hq
    refine ⟨by simpa using a1, by simpa using a2, by simpa using a3, ?_⟩
    by_cases e : q = proc
    · subst e
      simp
    · simp [Function.update_noteq e, a4]

theorem cycle_call_groups_stack_segment_witness :
    (∃ s2 G, processCallBB (fun _ s => .ok s) 1 midCycleState (callBB 0) = .ok s2 ∧
      s2.m_callStack = midCycleState.m_callStack ∧
      1 ∈ stackFrom midCycleState.m_callStack 0 ∧
      ∀ q ∈ stackFrom midCycleState.m_callStack 0,
        s2.m_recursionGroups q = some G ∧ s2.recursionGroup q = some G ∧
        q ∈ s2.getSet G ∧ s2.status q = .PROC_INCYCLE) ∧
    stackFrom midCycleState.m_callStack 0 = [0, 1] ∧
    groupAfter (processCallBB (fun _ s => .ok s) 1 midCycleState (callBB 0)) 0 =
      some (some 0, some 0, [0, 1]) ∧
    groupAfter (processCallBB (fun _ s => .ok s) 1 midCycleState (callBB 0)) 1 =
      some (some 0, some 0, [0, 1]) :=
  ⟨cycle_call_groups_stack_segment (fun _ s => .ok s) midCycleState 1 0 (callBB 0)
      (by decide) (by decide) (by decide) (by decide) (by decide) (by decide) (by decide),
    by decide, by decide, by decide⟩

set_option maxRecDepth 100000 in
/-- C8 (as stated) fails: in the run on two mutually recursive procedures, started with an
empty call stack, the call stack takes the value `[0, 0]` when
`decompileProcInRecursionGroup` pushes `0` during the group analysis. -/
theorem callStack_duplicate_counterexample :
    Event.stack [0, 0] ∈ traceAfter (decompileRecursive (mutualRecursion false) 10 0) ∧
    ¬ ([0, 0] : List UserProc).Nodup := by
  decide

set_option maxRecDepth 100000 in
/-- C9 (as stated) fails: when the passes report changes, the second depth-first pass of
`recursionGroupAnalysis` sets procedure `1` from `Preserveds` back to `InCycle`
(`decompileProcInRecursionGroup`), which is not the reset of the restart. -/
theorem status_decrease_counterexample :
    Event.status 1 .PROC_PRESERVEDS .PROC_INCYCLE .groupEnter ∈
      traceAfter (decompileRecursive (mutualRecursion true) 10 0) ∧
    ¬ (ProcStatus.PROC_PRESERVEDS ≤ ProcStatus.PROC_INCYCLE) ∧
    Site.groupEnter ≠ Site.restart := by
  decide

/-! ### Traces that are good until the first recursion group analysis -/

theorem hasGroupAnalysis_append (t t2 : List Event) :
    hasGroupAnalysis (t ++ t2) = (hasGroupAnalysis t || hasGroupAnalysis t2) := by
  simp [hasGroupAnalysis]

theorem good_nil : GoodUntilGroupAnalysis [] := by
  intro pre e post h
  simp at h

theorem good_of_forall (t : List Event) (h : ∀ e ∈ t, e.ok) : GoodUntilGroupAnalysis t := by
  intro pre e post ht _
  apply h
  rw [ht]
  simp

theorem good_append (t t2 : List Event) (h1 : GoodUntilGroupAnalysis t)
    (h2 : hasGroupAnalysis t = false → GoodUntilGroupAnalysis t2) :
    GoodUntilGroupAnalysis (t ++ t2) := by
  intro pre e post ht hpre
  rcases List.append_eq_append_iff.mp ht with ⟨a, ha1, ha2⟩ | ⟨c, hc1, hc2⟩
  · -- pre = t ++ a, t2 = a ++ e :: post
    rw [ha1, hasGroupAnalysis_append] at hpre
    simp only [Bool.or_eq_false_iff] at hpre
    exact h2 hpre.1 a e post ha2 hpre.2
  · -- t = pre ++ c, e :: post = c ++ t2
    cases c with
    | nil =>
      simp only [List.nil_append, List.append_nil] at hc1 hc2
      rw [hc1] at h2
      exact h2 hpre [] e post (by simpa using hc2.symm) rfl
    | cons c0 crest =>
      simp only [List.cons_append, List.cons.injEq] at hc2
      obtain ⟨rfl, _⟩ := hc2
      exact h1 pre e crest hc1 hpre

theorem good_cons_groupAnalysis (p : UserProc) (t : List Event) :
    GoodUntilGroupAnalysis (Event.call .recursionGroupAnalysis p :: t) := by
  intro pre e post ht hpre
  cases pre with
  | nil =>
    simp only [List.nil_append, List.cons.injEq] at ht
    rw [← ht.1]
    trivial
  | cons a rest =>
    simp only [List.cons_append, List.cons.injEq] at ht
    rw [← ht.1] at hpre
    simp [hasGroupAnalysis, Event.isGroupAnalysis] at hpre

theorem isQuiet_ok (e : Event) (h : e.isQuiet = true) : e.ok := by
  cases e <;> simp [Event.isQuiet] at h <;> trivial

theorem isQuiet_not_groupAnalysis (e : Event) (h : e.isQuiet = true) :
    e.isGroupAnalysis = false := by
  cases e with
  | call fn p => cases fn <;> simp [Event.isQuiet] at h <;> rfl
  | _ => rfl

theorem hasGroupAnalysis_of_forall (t : List Event)
    (h : ∀ e ∈ t, e.isGroupAnalysis = false) : hasGroupAnalysis t = false := by
  simp only [hasGroupAnalysis, List.any_eq_false]
  intro e he
  simp [h e he]

/-! ### Quiet steps: passes and the functions that only run passes -/

theorem Quiet.quiet_refl (s : DecompState) : Quiet s s :=
  ⟨[], by simp, by cases s; simp⟩

theorem Quiet.quiet_trans {s s2 s3 : DecompState} (h1 : Quiet s s2) (h2 : Quiet s2 s3) :
    Quiet s s3 := by
  obtain ⟨t1, q1, rfl⟩ := h1
  obtain ⟨t2, q2, rfl⟩ := h2
  refine ⟨t1 ++ t2, ?_, by simp⟩
  intro e he
  rcases List.mem_append.mp he with h | h
  · exact q1 e h
  · exact q2 e h

theorem quiet_log (s : DecompState) (e : Event) (h : e.isQuiet = true) : Quiet s (s.log e) :=
  ⟨[e], by simpa using h, rfl⟩

theorem quiet_executePass (env : Environment) (s : DecompState) (id : PassID) (p : UserProc) :
    Quiet s (s.executePass env id p).1 :=
  quiet_log s _ rfl

theorem quiet_executePasses (env : Environment) (p : UserProc) (ids : List PassID) :
    ∀ s : DecompState, Quiet s (s.executePasses env ids p) := by
  induction ids with
  | nil => intro s; exact Quiet.quiet_refl s
  | cons id rest ih =>
    intro s
    exact (quiet_executePass env s id p).quiet_trans (ih _)

theorem Quiet.status {s s2 : DecompState} (h : Quiet s s2) : s2.status = s.status := by
  obtain ⟨t, _, rfl⟩ := h; rfl

theorem Quiet.recursionGroup {s s2 : DecompState} (h : Quiet s s2) :
    s2.recursionGroup = s.recursionGroup := by
  obtain ⟨t, _, rfl⟩ := h; rfl

theorem Quiet.registry {s s2 : DecompState} (h : Quiet s s2) :
    s2.m_recursionGroups = s.m_recursionGroups := by
  obtain ⟨t, _, rfl⟩ := h; rfl

theorem Quiet.procSets {s s2 : DecompState} (h : Quiet s s2) : s2.procSets = s.procSets := by
  obtain ⟨t, _, rfl⟩ := h; rfl

theorem Quiet.callStack {s s2 : DecompState} (h : Quiet s s2) :
    s2.m_callStack = s.m_callStack := by
  obtain ⟨t, _, rfl⟩ := h; rfl

theorem quiet_earlyDecompile (env : Environment) (s : DecompState) (p : UserProc) :
    Quiet s (earlyDecompile env s p) := by
  unfold earlyDecompile
  have h1 := (quiet_log s (.call .earlyDecompile p) rfl).quiet_trans
    (quiet_executePasses env p [.StatementInit, .BBSimplify, .Dominators] _)
  simp only []
  split
  · exact h1
  · exact h1.quiet_trans (quiet_executePasses env p _ _)

theorem quiet_lateDecompile (env : Environment) (s : DecompState) (p : UserProc) :
    Quiet s (lateDecompile env s p) := by
  unfold lateDecompile
  have h0 := quiet_log s (.call .lateDecompile p) rfl
  have h1 : Quiet s (if (s.log (.call .lateDecompile p)).status p < .PROC_FINAL then
      (s.log (.call .lateDecompile p)).executePasses env
        [.LocalTypeAnalysis, .PhiPlacement, .BlockVarRename, .StatementPropagation] p
      else s.log (.call .lateDecompile p)) := by
    split
    · exact h0.quiet_trans (quiet_executePasses env p _ _)
    · exact h0
  have h2 := h1.quiet_trans (quiet_executePasses env p [.UnusedStatementRemoval, .FinalParameterSearch] _)
  simp only []
  refine Quiet.quiet_trans ?_ (quiet_executePasses env p _ _)
  split
  · exact h2.quiet_trans (quiet_executePasses env p _ _)
  · exact h2

theorem quiet_updateReturnsLoop (env : Environment) (p : UserProc) (k : Nat) :
    ∀ s : DecompState, Quiet s (updateReturnsLoop env p k s) := by
  induction k with
  | zero => intro s; exact Quiet.quiet_refl s
  | succ k ih =>
    intro s
    unfold updateReturnsLoop
    simp only []
    refine Quiet.quiet_trans ?_ (ih _)
    refine Quiet.quiet_trans ?_ (quiet_executePasses env p _ _)
    split
    · exact quiet_executePasses env p _ _
    · exact Quiet.quiet_refl s

theorem quiet_middleLoopBody (env : Environment) (p : UserProc) (s : DecompState) :
    Quiet s (middleLoopBody env p s).1 := by
  unfold middleLoopBody
  simp only []
  have h2 := (quiet_executePass env s .PhiPlacement p).quiet_trans
    (quiet_executePass env _ .BlockVarRename p)
  have h3 : Quiet s (if env.changeSignatures then updateReturnsLoop env p 3
      ((s.executePass env .PhiPlacement p).1.executePass env .BlockVarRename p).1
      else ((s.executePass env .PhiPlacement p).1.executePass env .BlockVarRename p).1) := by
    split
    · exact h2.quiet_trans (quiet_updateReturnsLoop env p 3 _)
    · exact h2
  exact ((h3.quiet_trans (quiet_executePass env _ .StatementPropagation p)).quiet_trans
    (quiet_executePass env _ .BlockVarRename p)).quiet_trans (quiet_executePass env _ .AssignRemoval p)

theorem quiet_middleLoop (env : Environment) (p : UserProc) (k : Nat) :
    ∀ (pass : Nat) (s : DecompState), Quiet s (middleLoop env p k pass s) := by
  induction k with
  | zero => intro pass s; exact Quiet.quiet_refl s
  | succ k ih =>
    intro pass s
    unfold middleLoop
    simp only []
    split
    · exact (quiet_middleLoopBody env p s).quiet_trans (ih _ _)
    · exact quiet_middleLoopBody env p s

/-! ### Composition of steps -/

theorem StepSpec.ext {pre : DecompState → Prop} {post : DecompState → DecompState → Prop}
    {s s2 : DecompState} (h : StepSpec pre post s s2) : ∃ t, s2.trace = s.trace ++ t := by
  obtain ⟨t, ht, _⟩ := h
  exact ⟨t, ht⟩

theorem StepSpec.of_ext {pre : DecompState → Prop} {post : DecompState → DecompState → Prop}
    {s s2 : DecompState} (t : List Event) (ht : s2.trace = s.trace ++ t)
    (h : pre s → GoodUntilGroupAnalysis t ∧ (hasGroupAnalysis t = false → post s s2)) :
    StepSpec pre post s s2 :=
  ⟨t, ht, h⟩

theorem StepSpec.same {pre : DecompState → Prop} {post : DecompState → DecompState → Prop}
    (s : DecompState) (h : pre s → post s s) : StepSpec pre post s s :=
  ⟨[], by simp, fun hp => ⟨good_nil, fun _ => h hp⟩⟩

theorem StepSpec.of_quiet {pre : DecompState → Prop} {post : DecompState → DecompState → Prop}
    {s s2 : DecompState} (hq : Quiet s s2) (h : pre s → post s s2) : StepSpec pre post s s2 := by
  obtain ⟨t, q, rfl⟩ := hq
  exact ⟨t, rfl, fun hp => ⟨good_of_forall t (fun e he => isQuiet_ok e (q e he)), fun _ => h hp⟩⟩

theorem StepSpec.of_event {pre : DecompState → Prop} {post : DecompState → DecompState → Prop}
    {s s2 : DecompState} (e : Event) (ht : s2.trace = s.trace ++ [e])
    (h : pre s → e.ok ∧ post s s2) : StepSpec pre post s s2 :=
  ⟨[e], ht, fun hp => ⟨good_of_forall [e] (by simpa using (h hp).1), fun _ => (h hp).2⟩⟩

theorem StepSpec.of_groupAnalysis {pre : DecompState → Prop}
    {post : DecompState → DecompState → Prop} {s s2 : DecompState} (p : UserProc)
    (t : List Event) (ht : s2.trace = s.trace ++ Event.call .recursionGroupAnalysis p :: t) :
    StepSpec pre post s s2 :=
  ⟨_, ht, fun _ => ⟨good_cons_groupAnalysis p t, fun h => by
    simp [hasGroupAnalysis, Event.isGroupAnalysis] at h⟩⟩

theorem StepSpec.step_trans {p1 p2 : DecompState → Prop}
    {q1 q2 q3 : DecompState → DecompState → Prop} {s s1 s2 : DecompState}
    (h1 : StepSpec p1 q1 s s1) (h2 : StepSpec p2 q2 s1 s2)
    (hpre : p1 s → q1 s s1 → p2 s1)
    (hpost : p1 s → q1 s s1 → q2 s1 s2 → q3 s s2) : StepSpec p1 q3 s s2 := by
  obtain ⟨t1, e1, g1⟩ := h1
  obtain ⟨t2, e2, g2⟩ := h2
  refine ⟨t1 ++ t2, by rw [e2, e1, List.append_assoc], fun hp => ?_⟩
  obtain ⟨a1, a2⟩ := g1 hp
  refine ⟨good_append t1 t2 a1 (fun hn => (g2 (hpre hp (a2 hn))).1), fun hn => ?_⟩
  rw [hasGroupAnalysis_append] at hn
  simp only [Bool.or_eq_false_iff] at hn
  have b1 := a2 hn.1
  exact hpost hp b1 ((g2 (hpre hp b1)).2 hn.2)

theorem StepSpec.weaken {p1 p2 : DecompState → Prop}
    {q1 q2 : DecompState → DecompState → Prop} {s s2 : DecompState}
    (h : StepSpec p1 q1 s s2) (hpre : p2 s → p1 s) (hpost : p2 s → q1 s s2 → q2 s s2) :
    StepSpec p2 q2 s s2 := by
  obtain ⟨t, e, g⟩ := h
  exact ⟨t, e, fun hp => ⟨(g (hpre hp)).1, fun hn => hpost hp ((g (hpre hp)).2 hn)⟩⟩

/-- A step that only adds events, whatever they are, after a step that has started a
recursion group analysis or kept its postcondition. -/
theorem StepSpec.then_ext {p1 : DecompState → Prop}
    {q1 q3 : DecompState → DecompState → Prop} {s s1 s2 : DecompState}
    (h1 : StepSpec p1 q1 s s1) (t2 : List Event) (e2 : s2.trace = s1.trace ++ t2)
    (h : p1 s → q1 s s1 → GoodUntilGroupAnalysis t2 ∧ (hasGroupAnalysis t2 = false → q3 s s2)) :
    StepSpec p1 q3 s s2 := by
  have h2 : StepSpec (fun x => x = s1 ∧ p1 s ∧ q1 s s1) (fun _ y => y = s2 ∧ q3 s s2) s1 s2 :=
    ⟨t2, e2, fun hp => ⟨(h hp.2.1 hp.2.2).1, fun hn => ⟨rfl, (h hp.2.1 hp.2.2).2 hn⟩⟩⟩
  exact StepSpec.step_trans h1 h2 (fun hp hq => ⟨rfl, hp, hq⟩) (fun _ _ hq => hq.2)

theorem DriverInv.of_eq {s s2 : DecompState} (h : DriverInv s) (h1 : s2.status = s.status)
    (h2 : s2.m_recursionGroups = s.m_recursionGroups) (h3 : s2.procSets = s.procSets)
    (h4 : s2.m_callStack = s.m_callStack) : DriverInv s2 := by
  have hg : ∀ x, s2.getSet x = s.getSet x := fun x => by simp [DecompState.getSet, h3]
  refine ⟨by rw [h4]; exact h.nodup, ?_, ?_, ?_, ?_⟩
  · intro q hq
    rw [h1]
    exact h.onStack q (h4 ▸ hq)
  · intro p
    rw [h1]
    exact h.range p
  · intro p hp
    rw [h1]
    exact h.registered p (h2 ▸ hp)
  · intro x q hq
    rw [h2]
    exact h.members x q (hg x ▸ hq)

theorem DriverInv.inv_of_quiet {s s2 : DecompState} (h : DriverInv s) (hq : Quiet s s2) :
    DriverInv s2 :=
  h.of_eq hq.status hq.registry hq.procSets hq.callStack

theorem DriverInv.init : DriverInv DecompState.init := by
  refine ⟨List.nodup_nil, ?_, ?_, ?_, ?_⟩
  · intro q hq
    simp [DecompState.init] at hq
  · intro p
    left
    show ProcStatus.PROC_UNDECODED ≤ ProcStatus.PROC_INCYCLE
    decide
  · intro p hp
    simp [DecompState.init] at hp
  · intro x q hq
    simp [DecompState.init, DecompState.getSet] at hq

/-! ### The group operations keep the invariant -/

theorem ProcStatus.le_incycle_of_visited_or_incycle (a : ProcStatus)
    (h : a = .PROC_VISITED ∨ a = .PROC_INCYCLE) : a ≤ .PROC_INCYCLE := by
  rcases h with h | h <;> subst h <;> decide

/-- The last loop of the group operations keeps the invariant, when the union group
consists of procedures that are in the registry or on the call stack and every member of
every set is in the registry or in the union group. -/
theorem assignGroup_inv (s st : DecompState) (ug : Nat) (site : Site)
    (hinv : DriverInv s) (hsame : SameButHeap s st)
    (a1 : ∀ q ∈ st.getSet ug, s.m_recursionGroups q ≠ none ∨ q ∈ s.m_callStack)
    (a2 : ∀ h x, x ∈ st.getSet h → s.m_recursionGroups x ≠ none ∨ x ∈ st.getSet ug) :
    DriverInv (assignGroup st ug site) ∧
    (assignGroup st ug site).m_callStack = s.m_callStack ∧
    ∃ t, (assignGroup st ug site).trace = s.trace ++ t ∧
      ∀ e ∈ t, e.ok ∧ e.isGroupAnalysis = false := by
  obtain ⟨f1, f2, f3, f4, f5, t, f6, f7⟩ := assignFold_spec ug site (st.getSet ug) st
  have hold : ∀ q ∈ st.getSet ug, s.status q ≤ .PROC_INCYCLE := by
    intro q hq
    rcases a1 q hq with h | h
    · rw [hinv.registered q h]
      decide
    · exact ProcStatus.le_incycle_of_visited_or_incycle _ (hinv.onStack q h)
  have hgs : ∀ x, (assignGroup st ug site).getSet x = st.getSet x :=
    fun x => getSet_assignGroup st ug site x
  refine ⟨⟨?_, ?_, ?_, ?_, ?_⟩, ?_, t, ?_, ?_⟩
  · show (assignGroup st ug site).m_callStack.Nodup
    unfold assignGroup
    rw [f2, hsame.stack]
    exact hinv.nodup
  · intro q hq
    unfold assignGroup at hq ⊢
    rw [f2, hsame.stack] at hq
    rw [f5 q]
    by_cases hm : q ∈ st.getSet ug
    · simp [hm]
    · simp only [hm, if_false, hsame.status]
      exact hinv.onStack q hq
  · intro p
    unfold assignGroup
    rw [f5 p]
    by_cases hm : p ∈ st.getSet ug
    · simp only [hm, if_true]
      left
      decide
    · simp only [hm, if_false, hsame.status]
      exact hinv.range p
  · intro p hp
    unfold assignGroup at hp ⊢
    rw [f5 p]
    rw [f3 p] at hp
    by_cases hm : p ∈ st.getSet ug
    · simp [hm]
    · simp only [hm, if_false, hsame.status, hsame.registry] at hp ⊢
      exact hinv.registered p hp
  · intro x q hq
    rw [hgs x] at hq
    unfold assignGroup
    rw [f3 q]
    by_cases hm : q ∈ st.getSet ug
    · simp [hm]
    · simp only [hm, if_false, hsame.registry]
      rcases a2 x q hq with h | h
      · exact h
      · exact absurd h hm
  · unfold assignGroup
    rw [f2, hsame.stack]
  · unfold assignGroup
    rw [f6, hsame.trace]
  · intro e he
    obtain ⟨q, old, rfl, hq, hold2⟩ := f7 e he
    refine ⟨?_, rfl⟩
    left
    rcases hold2 with h | h
    · rw [h, hsame.status]
      exact hold q hq
    · rw [h]
      decide

theorem createGroupOf_inv (s : DecompState) (members : List UserProc)
    (hinv : DriverInv s) (hm : ∀ q ∈ members, q ∈ s.m_callStack) :
    DriverInv (createGroupOf s members) ∧
    (createGroupOf s members).m_callStack = s.m_callStack ∧
    ∃ t, (createGroupOf s members).trace = s.trace ++ t ∧
      ∀ e ∈ t, e.ok ∧ e.isGroupAnalysis = false := by
  have hs1 := sameButHeap_insertAll members s.newProcSet.1 s.newProcSet.2
  have hv : s.newProcSet.2 < (s.newProcSet.1.insertAll s.newProcSet.2 members).procSets.length :=
    Nat.lt_of_lt_of_le (by simp) hs1.length
  have hsrc : ∀ h x, x ∈ (s.newProcSet.1.insertAll s.newProcSet.2 members).getSet h →
      (s.m_recursionGroups x ≠ none ∨ x ∈ members) := by
    intro h x hx
    rw [mem_getSet_insertAll, getSet_newProcSet] at hx
    rcases hx with h1 | h1
    · exact Or.inl (hinv.members h x h1)
    · exact Or.inr h1.1
  have hmem : ∀ x ∈ members,
      x ∈ (s.newProcSet.1.insertAll s.newProcSet.2 members).getSet s.newProcSet.2 := by
    intro x hx
    rw [mem_getSet_insertAll]
    exact Or.inr ⟨hx, rfl, by simp⟩
  obtain ⟨c1, _, c3, c4⟩ := createFold_spec
    (fun x => s.m_recursionGroups x ≠ none ∨ x ∈ members)
    (s.newProcSet.1.insertAll s.newProcSet.2 members) s.newProcSet.2 hv hsrc
    ((s.newProcSet.1.insertAll s.newProcSet.2 members).getSet s.newProcSet.2)
    (s.newProcSet.1.insertAll s.newProcSet.2 members, s.newProcSet.2)
    ⟨SameButHeap.refl _, hv, fun x hx => hx, hsrc⟩
  have hsame := ((sameButHeap_newProcSet s).trans hs1).trans c1
  unfold createGroupOf createRecursionGoup
  apply assignGroup_inv s _ _ _ hinv hsame
  · intro q hq
    rcases c4 _ q hq with h | h
    · exact Or.inl h
    · exact Or.inr (hm q h)
  · intro h x hx
    rcases c4 h x hx with h1 | h1
    · exact Or.inl h1
    · exact Or.inr (c3 x (hmem x h1))

theorem addToRecursionGroup_inv (s : DecompState) (p : UserProc) (rg : Nat)
    (hinv : DriverInv s) (hp : p ∈ s.m_callStack) :
    DriverInv (addToRecursionGroup s p rg) ∧
    (addToRecursionGroup s p rg).m_callStack = s.m_callStack ∧
    ∃ t, (addToRecursionGroup s p rg).trace = s.trace ++ t ∧
      ∀ e ∈ t, e.ok ∧ e.isGroupAnalysis = false := by
  unfold addToRecursionGroup
  by_cases hreg : (s.m_recursionGroups p).isSome = true
  · simp only [hreg, if_true]
    have hregne : s.m_recursionGroups p ≠ none := by
      intro e
      rw [e] at hreg
      simp at hreg
    have hsame := (sameButHeap_newProcSet s).trans
      (sameButHeap_unionInto (s.getSet rg) s.newProcSet.1 s.newProcSet.2)
    have hcl := unionInto_closure (fun x => s.m_recursionGroups x ≠ none) (s.getSet rg)
      s.newProcSet.1 s.newProcSet.2
      (fun h x hx => hinv.members h x (by rw [getSet_newProcSet] at hx; exact hx))
      (fun x hx => hinv.members rg x hx)
    apply assignGroup_inv s _ _ _ hinv (hsame.trans (sameButHeap_insertInto _ _ _))
    · intro q hq
      rw [mem_getSet_insertInto] at hq
      rcases hq with h | h
      · exact Or.inl (hcl _ q h)
      · exact Or.inr (h.1 ▸ hp)
    · intro h x hx
      rw [mem_getSet_insertInto] at hx
      rcases hx with h1 | h1
      · exact Or.inl (hcl _ x h1)
      · exact Or.inl (h1.1 ▸ hregne)
  · simp only [hreg]
    apply assignGroup_inv s _ _ _ hinv (sameButHeap_insertInto _ _ _)
    · intro q hq
      rw [mem_getSet_insertInto] at hq
      rcases hq with h | h
      · exact Or.inl (hinv.members _ q h)
      · exact Or.inr (h.1 ▸ hp)
    · intro h x hx
      rw [mem_getSet_insertInto] at hx
      rcases hx with h1 | h1
      · exact Or.inl (hinv.members _ x h1)
      · right
        rw [mem_getSet_insertInto]
        exact Or.inr ⟨h1.1, rfl, h1.2.2⟩

theorem assignGroup_ext (st : DecompState) (ug : Nat) (site : Site) :
    ∃ t, (assignGroup st ug site).trace = st.trace ++ t ∧
      ∀ e ∈ t, e.isGroupAnalysis = false := by
  obtain ⟨_, _, _, _, _, t, f6, f7⟩ := assignFold_spec ug site (st.getSet ug) st
  refine ⟨t, f6, ?_⟩
  intro e he
  obtain ⟨q, old, rfl, _, _⟩ := f7 e he
  rfl

theorem createGroupOf_ext (s : DecompState) (members : List UserProc) :
    ∃ t, (createGroupOf s members).trace = s.trace ++ t ∧
      ∀ e ∈ t, e.isGroupAnalysis = false := by
  have hs1 := sameButHeap_insertAll members s.newProcSet.1 s.newProcSet.2
  have hv : s.newProcSet.2 < (s.newProcSet.1.insertAll s.newProcSet.2 members).procSets.length :=
    Nat.lt_of_lt_of_le (by simp) hs1.length
  obtain ⟨c1, _, _, _⟩ := createFold_spec (fun _ => True)
    (s.newProcSet.1.insertAll s.newProcSet.2 members) s.newProcSet.2 hv (fun _ _ _ => trivial)
    ((s.newProcSet.1.insertAll s.newProcSet.2 members).getSet s.newProcSet.2)
    (s.newProcSet.1.insertAll s.newProcSet.2 members, s.newProcSet.2)
    ⟨SameButHeap.refl _, hv, fun x hx => hx, fun _ _ _ => trivial⟩
  have hsame := ((sameButHeap_newProcSet s).trans hs1).trans c1
  unfold createGroupOf createRecursionGoup
  obtain ⟨t, h1, h2⟩ := assignGroup_ext
    (((s.newProcSet.1.insertAll s.newProcSet.2 members).getSet s.newProcSet.2).foldl
      (createStep s.newProcSet.2
        ((s.newProcSet.1.insertAll s.newProcSet.2 members).getSet s.newProcSet.2))
      (s.newProcSet.1.insertAll s.newProcSet.2 members, s.newProcSet.2)).1
    (((s.newProcSet.1.insertAll s.newProcSet.2 members).getSet s.newProcSet.2).foldl
      (createStep s.newProcSet.2
        ((s.newProcSet.1.insertAll s.newProcSet.2 members).getSet s.newProcSet.2))
      (s.newProcSet.1.insertAll s.newProcSet.2 members, s.newProcSet.2)).2 .createGroup
  exact ⟨t, by rw [h1, hsame.trace], h2⟩

theorem addToRecursionGroup_ext (s : DecompState) (p : UserProc) (rg : Nat) :
    ∃ t, (addToRecursionGroup s p rg).trace = s.trace ++ t ∧
      ∀ e ∈ t, e.isGroupAnalysis = false := by
  unfold addToRecursionGroup
  by_cases hreg : (s.m_recursionGroups p).isSome = true
  · simp only [hreg, if_true]
    obtain ⟨t, h1, h2⟩ := assignGroup_ext
      ((unionInto s.newProcSet.1 s.newProcSet.2 (s.getSet rg)).insertInto s.newProcSet.2 p)
      s.newProcSet.2 .addToGroup
    refine ⟨t, ?_, h2⟩
    rw [h1, DecompState.insertInto_trace,
      (sameButHeap_unionInto (s.getSet rg) s.newProcSet.1 s.newProcSet.2).trace]
    rfl
  · simp only [hreg, Bool.false_eq_true, if_false]
    obtain ⟨t, h1, h2⟩ := assignGroup_ext (s.insertInto rg p) rg .addToGroup
    exact ⟨t, by rw [h1]; simp, h2⟩

/-- A step of a group operation: the events added are status writes, and when the
invariant and `pre` hold before, the invariant holds afterwards, the call stack is the
same and the events are good. -/
theorem addFold_spec (rg : Nat) (above : List UserProc) :
    ∀ s : DecompState,
      ∃ t, (above.foldl (fun st p => addToRecursionGroup st p rg) s).trace = s.trace ++ t ∧
        (∀ e ∈ t, e.isGroupAnalysis = false) ∧
        (DriverInv s → (∀ p ∈ above, p ∈ s.m_callStack) →
          DriverInv (above.foldl (fun st p => addToRecursionGroup st p rg) s) ∧
          (above.foldl (fun st p => addToRecursionGroup st p rg) s).m_callStack =
            s.m_callStack ∧
          ∀ e ∈ t, e.ok) := by
  induction above with
  | nil =>
    intro s
    exact ⟨[], by simp, by simp, fun h _ => ⟨h, rfl, by simp⟩⟩
  | cons p rest ih =>
    intro s
    obtain ⟨t1, e1, g1⟩ := addToRecursionGroup_ext s p rg
    obtain ⟨t2, e2, g2, k2⟩ := ih (addToRecursionGroup s p rg)
    refine ⟨t1 ++ t2, ?_, ?_, ?_⟩
    · simp only [List.foldl_cons]
      rw [e2, e1, List.append_assoc]
    · intro e he
      rcases List.mem_append.mp he with h | h
      · exact g1 e h
      · exact g2 e h
    · intro hinv hall
      obtain ⟨i1, i2, t1b, i3, i4⟩ := addToRecursionGroup_inv s p rg hinv
        (hall p (List.mem_cons_self _ _))
      have ht : t1b = t1 := by
        have := i3.symm.trans e1
        exact List.append_cancel_left this
      subst ht
      obtain ⟨j1, j2, j3⟩ := k2 i1 (fun q hq => by
        rw [i2]
        exact hall q (List.mem_cons_of_mem _ hq))
      refine ⟨j1, ?_, ?_⟩
      · simp only [List.foldl_cons]
        rw [j2, i2]
      · intro e he
        rcases List.mem_append.mp he with h | h
        · exact (i4 e h).1
        · exact j3 e h

theorem mem_of_mem_dropWhile (p : UserProc → Bool) (l : List UserProc) (x : UserProc)
    (h : x ∈ l.dropWhile p) : x ∈ l :=
  (List.dropWhile_sublist p).subset h

theorem stepSpec_of_statusSteps {pre : DecompState → Prop}
    {post : DecompState → DecompState → Prop} {s s2 : DecompState} (t : List Event)
    (ht : s2.trace = s.trace ++ t)
    (h : pre s → (∀ e ∈ t, e.ok) ∧ post s s2) : StepSpec pre post s s2 :=
  ⟨t, ht, fun hp => ⟨good_of_forall t (h hp).1, fun _ => (h hp).2⟩⟩

/-- The branch of `tryDecompileRecursive` for a callee in a cycle keeps the invariant
and the call stack. -/
theorem cycleCall_spec (s s2 : DecompState) (proc callee : UserProc)
    (h : cycleCall s proc callee = .ok s2) :
    StepSpec (fun s => DriverInv s ∧ proc ∈ s.m_callStack)
      (fun s s2 => DriverInv s2 ∧ s2.m_callStack = s.m_callStack) s s2 := by
  -- the state after the group operation
  have key : ∀ s1 : DecompState, ∀ t : List Event, s1.trace = s.trace ++ t →
      (∀ e ∈ t, e.isGroupAnalysis = false) →
      (DriverInv s → proc ∈ s.m_callStack →
        DriverInv s1 ∧ s1.m_callStack = s.m_callStack ∧ ∀ e ∈ t, e.ok) →
      StepSpec (fun s => DriverInv s ∧ proc ∈ s.m_callStack)
        (fun s s2 => DriverInv s2 ∧ s2.m_callStack = s.m_callStack) s
        (s1.setStatus proc .PROC_INCYCLE .cycleCall) := by
    intro s1 t e1 _ k1
    refine stepSpec_of_statusSteps (t ++ [.status proc (s1.status proc) .PROC_INCYCLE .cycleCall])
      (by simp [e1]) ?_
    · rintro ⟨hinv, hp⟩
      obtain ⟨i1, i2, i3⟩ := k1 hinv hp
      have hps : s1.status proc ≤ .PROC_INCYCLE :=
        ProcStatus.le_incycle_of_visited_or_incycle _ (i1.onStack proc (i2 ▸ hp))
      refine ⟨?_, ⟨?_, ?_, ?_, ?_, ?_⟩, ?_⟩
      · intro e he
        rcases List.mem_append.mp he with h1 | h1
        · exact i3 e h1
        · simp only [List.mem_singleton] at h1
          subst h1
          exact Or.inl hps
      · exact i1.nodup
      · intro q hq
        by_cases e : q = proc
        · subst e
          simp
        · simp only [DecompState.setStatus_status, Function.update_noteq e]
          exact i1.onStack q hq
      · intro p
        by_cases e : p = proc
        · subst e
          left
          simp only [DecompState.setStatus_status, Function.update_same]
          decide
        · simp only [DecompState.setStatus_status, Function.update_noteq e]
          exact i1.range p
      · intro p hp2
        by_cases e : p = proc
        · subst e
          simp
        · simp only [DecompState.setStatus_status, Function.update_noteq e]
          exact i1.registered p hp2
      · intro x q hq
        exact i1.members x q hq
      · exact i2
  unfold cycleCall at h
  by_cases hon : callee ∈ s.m_callStack
  · rw [if_pos hon] at h
    simp only [Except.map] at h
    injection h with h
    subst h
    obtain ⟨t, e1, g1⟩ := createGroupOf_ext s (stackFrom s.m_callStack callee)
    apply key _ t e1 g1
    intro hinv _
    obtain ⟨i1, i2, t2, i3, i4⟩ := createGroupOf_inv s (stackFrom s.m_callStack callee) hinv
      (fun q hq => mem_of_mem_dropWhile _ _ q hq)
    have ht : t2 = t := List.append_cancel_left (i3.symm.trans e1)
    subst ht
    exact ⟨i1, i2, fun e he => (i4 e he).1⟩
  · rw [if_neg hon] at h
    cases hrg : s.recursionGroup callee with
    | none =>
      rw [hrg] at h
      simp only [Except.map] at h
      injection h with h
      subst h
      exact key s [] (by simp) (by simp) (fun hinv _ => ⟨hinv, rfl, by simp⟩)
    | some rg =>
      rw [hrg] at h
      dsimp only at h
      cases hdw : s.m_callStack.dropWhile (fun func => decide (func ∉ s.getSet rg)) with
      | nil =>
        rw [hdw] at h
        simp [Except.map] at h
      | cons f above =>
        rw [hdw] at h
        simp only [Except.map] at h
        injection h with h
        subst h
        obtain ⟨t, e1, g1, k1⟩ := addFold_spec rg above s
        apply key _ t e1 g1
        intro hinv _
        apply k1 hinv
        intro p hp
        apply mem_of_mem_dropWhile (fun func => decide (func ∉ s.getSet rg))
        rw [hdw]
        exact List.mem_cons_of_mem _ hp

/-! ### `middleDecompile` and the group analysis -/

theorem pop_ok (s s2 : DecompState) (proc : UserProc) (h : s.pop proc = .ok s2) :
    s.m_callStack.getLast? = some proc ∧
    s2 = { s with m_callStack := s.m_callStack.dropLast,
                  trace := s.trace ++ [.stack s.m_callStack.dropLast] } := by
  unfold DecompState.pop at h
  by_cases hl : s.m_callStack.getLast? = some proc
  · rw [if_pos hl] at h
    injection h with h
    exact ⟨hl, h.symm⟩
  · rw [if_neg hl] at h
    cases h

theorem quiet_middlePasses (env : Environment) (s : DecompState) (proc : UserProc) :
    Quiet s (middlePasses env s proc) := by
  unfold middlePasses
  simp only []
  have h1 := (quiet_log s (.call .middleDecompile proc) rfl).quiet_trans
    (quiet_executePasses env proc [.CallAndPhiFix] _)
  have h2 : Quiet s (if ((s.log (.call .middleDecompile proc)).executePasses env
      [.CallAndPhiFix] proc).status proc ≠ .PROC_INCYCLE then
      ((s.log (.call .middleDecompile proc)).executePasses env [.CallAndPhiFix]
        proc).executePasses env [.StatementPropagation] proc
      else (s.log (.call .middleDecompile proc)).executePasses env [.CallAndPhiFix] proc) := by
    split
    · exact h1.quiet_trans (quiet_executePasses env proc _ _)
    · exact h1
  exact ((h2.quiet_trans (quiet_executePasses env proc _ _)).quiet_trans
    (quiet_middleLoop env proc 12 3 _)).quiet_trans (quiet_executePasses env proc _ _)

/-- The three ways in which `middleDecompile` ends normally: without indirect transfers
(status `EarlyDone`), with a failed re-decoding, or with a restart. -/
theorem middleDecompile_cases (env : Environment)
    (tryRec : UserProc → DecompState → Except DriverError DecompState)
    (s s2 : DecompState) (proc : UserProc) (h : middleDecompile env tryRec s proc = .ok s2) :
    s.m_callStack.getLast? = some proc ∧
    ∃ sq, Quiet s sq ∧
      (s2 = sq.setStatus proc .PROC_EARLYDONE .earlyDone ∨ s2 = sq ∨
        ∃ sp s8, (sq.setStatus proc .PROC_VISITED .restart).pop proc = .ok sp ∧
          tryRec proc sp = .ok s8 ∧ s2 = s8.push proc) := by
  unfold middleDecompile at h
  have hq := quiet_middlePasses env s proc
  by_cases ha : s.m_callStack.getLast? = some proc
  · refine ⟨ha, ?_⟩
    rw [if_neg (not_not.mpr ha)] at h
    by_cases hc : env.decodeIndirectJmp proc (middlePasses env s proc).trace.length = true
    · rw [if_pos hc] at h
      by_cases hr : env.reDecode proc
          ((middlePasses env s proc).log (.indirect proc true)).trace.length = true
      · rw [if_pos hr] at h
        have hq2 := (hq.quiet_trans (quiet_log _ (.indirect proc true) rfl)).quiet_trans
          (quiet_log _ (.reDecode proc true) rfl)
        refine ⟨_, hq2, Or.inr (Or.inr ?_)⟩
        cases hp : ((((middlePasses env s proc).log (.indirect proc true)).log
            (.reDecode proc true)).setStatus proc .PROC_VISITED .restart).pop proc with
        | error e =>
          rw [hp] at h
          simp [Except.map, bind, Except.bind] at h
        | ok sp =>
          rw [hp] at h
          cases ht : tryRec proc sp with
          | error e =>
            simp [Except.map, bind, Except.bind, ht] at h
          | ok s8 =>
            simp only [Except.map, bind, Except.bind, ht] at h
            injection h with h
            exact ⟨sp, s8, rfl, ht, h.symm⟩
      · rw [if_neg hr] at h
        injection h with h
        exact ⟨_, (hq.quiet_trans (quiet_log _ (.indirect proc true) rfl)).quiet_trans
          (quiet_log _ (.reDecode proc false) rfl), Or.inr (Or.inl h.symm)⟩
    · rw [if_neg hc] at h
      injection h with h
      exact ⟨_, (hq.quiet_trans (quiet_log _ (.indirect proc false) rfl)).quiet_trans
        (quiet_executePasses env proc _ _), Or.inl h.symm⟩
  · rw [if_pos ha] at h
    cases h

theorem Quiet.quiet_ext {s s2 : DecompState} (h : Quiet s s2) : ∃ t, s2.trace = s.trace ++ t := by
  obtain ⟨t, _, rfl⟩ := h
  exact ⟨t, rfl⟩

theorem ext_trans {s s1 s2 : DecompState} (h1 : ∃ t, s1.trace = s.trace ++ t)
    (h2 : ∃ t, s2.trace = s1.trace ++ t) : ∃ t, s2.trace = s.trace ++ t := by
  obtain ⟨t1, e1⟩ := h1
  obtain ⟨t2, e2⟩ := h2
  exact ⟨t1 ++ t2, by rw [e2, e1, List.append_assoc]⟩

theorem pop_ext (s s2 : DecompState) (proc : UserProc) (h : s.pop proc = .ok s2) :
    ∃ t, s2.trace = s.trace ++ t := by
  obtain ⟨_, rfl⟩ := pop_ok s s2 proc h
  exact ⟨_, rfl⟩

theorem middleDecompile_ext (env : Environment)
    (tryRec : UserProc → DecompState → Except DriverError DecompState)
    (htry : ∀ p s s2, tryRec p s = .ok s2 → ∃ t, s2.trace = s.trace ++ t)
    (s s2 : DecompState) (proc : UserProc) (h : middleDecompile env tryRec s proc = .ok s2) :
    ∃ t, s2.trace = s.trace ++ t := by
  obtain ⟨_, sq, hq, hc⟩ := middleDecompile_cases env tryRec s s2 proc h
  rcases hc with rfl | rfl | ⟨sp, s8, hp, ht, rfl⟩
  · exact ext_trans hq.quiet_ext ⟨_, rfl⟩
  · exact hq.quiet_ext
  · exact ext_trans (ext_trans (ext_trans (ext_trans hq.quiet_ext ⟨_, rfl⟩) (pop_ext _ _ _ hp))
      (htry _ _ _ ht)) ⟨_, rfl⟩

theorem visitCallee_ext
    (dfs : UserProc → ProcSet → DecompState → Except DriverError (Bool × ProcSet × DecompState))
    (hdfs : ∀ p v s r, dfs p v s = .ok r → ∃ t, r.2.2.trace = s.trace ++ t)
    (proc : UserProc) (acc r : Bool × ProcSet × DecompState) (c : Function)
    (h : visitCallee dfs proc acc c = .ok r) : ∃ t, r.2.2.trace = acc.2.2.trace ++ t := by
  unfold visitCallee at h
  split at h
  · injection h with h
    subst h
    exact ⟨[], by simp⟩
  · split at h
    · injection h with h
      subst h
      exact ⟨[], by simp⟩
    · split at h
      · cases h
      · split at h
        · injection h with h
          subst h
          exact ⟨[], by simp⟩
        · cases hd : dfs c.id acc.2.1 acc.2.2 with
          | error e =>
            rw [hd] at h
            simp [Except.map] at h
          | ok r1 =>
            rw [hd] at h
            simp only [Except.map] at h
            injection h with h
            subst h
            exact hdfs _ _ _ r1 hd

theorem visitFold_ext
    (dfs : UserProc → ProcSet → DecompState → Except DriverError (Bool × ProcSet × DecompState))
    (hdfs : ∀ p v s r, dfs p v s = .ok r → ∃ t, r.2.2.trace = s.trace ++ t)
    (proc : UserProc) (callees : List Function) :
    ∀ (acc r : Bool × ProcSet × DecompState),
      callees.foldlM (visitCallee dfs proc) acc = .ok r →
      ∃ t, r.2.2.trace = acc.2.2.trace ++ t := by
  induction callees with
  | nil =>
    intro acc r h
    simp only [List.foldlM_nil, pure, Except.pure] at h
    injection h with h
    subst h
    exact ⟨[], by simp⟩
  | cons c rest ih =>
    intro acc r h
    simp only [List.foldlM_cons, bind, Except.bind] at h
    cases hv : visitCallee dfs proc acc c with
    | error e =>
      rw [hv] at h
      cases h
    | ok r1 =>
      rw [hv] at h
      exact ext_trans (visitCallee_ext dfs hdfs proc acc r1 c hv) (ih r1 r h)

theorem decompileProcInRecursionGroup_ext (env : Environment)
    (tryRec : UserProc → DecompState → Except DriverError DecompState)
    (htry : ∀ p s s2, tryRec p s = .ok s2 → ∃ t, s2.trace = s.trace ++ t) :
    ∀ (fuel : Nat) (proc : UserProc) (visited : ProcSet) (s : DecompState)
      (r : Bool × ProcSet × DecompState),
      decompileProcInRecursionGroup env tryRec fuel proc visited s = .ok r →
      ∃ t, r.2.2.trace = s.trace ++ t := by
  intro fuel
  induction fuel with
  | zero =>
    intro proc visited s r h
    simp [decompileProcInRecursionGroup] at h
  | succ fuel ih =>
    intro proc visited s r h
    unfold decompileProcInRecursionGroup at h
    simp only [] at h
    cases hf : (env.getCallees proc
        ((s.log (.call .decompileProcInRecursionGroup proc)).push proc).trace.length).foldlM
        (visitCallee (decompileProcInRecursionGroup env tryRec fuel) proc)
        (false, procSetInsert visited proc,
          (s.log (.call .decompileProcInRecursionGroup proc)).push proc) with
    | error e =>
      rw [hf] at h
      cases h
    | ok r1 =>
      rw [hf] at h
      simp only [Except.bind] at h
      have e1 := visitFold_ext _ ih proc _ _ _ hf
      cases hm : middleDecompile env tryRec
          (earlyDecompile env (r1.2.2.setStatus proc .PROC_INCYCLE .groupEnter) proc) proc with
      | error e =>
        rw [hm] at h
        cases h
      | ok s2 =>
        rw [hm] at h
        simp only [] at h
        have e2 := middleDecompile_ext env tryRec htry _ _ _ hm
        have e3 := (quiet_earlyDecompile env
          (r1.2.2.setStatus proc .PROC_INCYCLE .groupEnter) proc).quiet_ext
        cases hp : DecompState.pop
            ((((((s2.setStatus proc .PROC_PRESERVEDS .preserveds).executePass env
              .LocalAndParamMap proc).1.executePass env .CallArgumentUpdate proc).1.executePass
              env .Dominators proc).1.executePass env .StatementPropagation proc).1) proc with
        | error e =>
          rw [hp] at h
          simp [Except.map] at h
        | ok s5 =>
          rw [hp] at h
          simp only [Except.map] at h
          injection h with h
          subst h
          have e4 := pop_ext _ _ _ hp
          have e5 : ∃ t, (((((s2.setStatus proc .PROC_PRESERVEDS .preserveds).executePass env
              .LocalAndParamMap proc).1.executePass env .CallArgumentUpdate proc).1.executePass
              env .Dominators proc).1.executePass env .StatementPropagation proc).1.trace =
              s2.trace ++ t := ⟨_, by simp [DecompState.executePass]; rfl⟩
          have e0 : ∃ t, ((s.log (.call .decompileProcInRecursionGroup proc)).push proc).trace =
              s.trace ++ t := ⟨_, by simp; rfl⟩
          have e6 : ∃ t, (r1.2.2.setStatus proc .PROC_INCYCLE .groupEnter).trace =
              r1.2.2.trace ++ t := ⟨_, rfl⟩
          exact ext_trans (ext_trans (ext_trans (ext_trans (ext_trans (ext_trans e0 e1) e6) e3)
            e2) e5) e4

theorem groupAnalysisLoop_ext (env : Environment)
    (tryRec : UserProc → DecompState → Except DriverError DecompState)
    (htry : ∀ p s s2, tryRec p s = .ok s2 → ∃ t, s2.trace = s.trace ++ t)
    (fuel : Nat) (entry : UserProc) :
    ∀ (k numRepeats : Nat) (s s2 : DecompState),
      groupAnalysisLoop env tryRec fuel entry k numRepeats s = .ok s2 →
      ∃ t, s2.trace = s.trace ++ t := by
  intro k
  induction k with
  | zero =>
    intro n s s2 h
    simp only [groupAnalysisLoop] at h
    injection h with h
    subst h
    exact ⟨[], by simp⟩
  | succ k ih =>
    intro n s s2 h
    unfold groupAnalysisLoop at h
    cases hd : decompileProcInRecursionGroup env tryRec fuel entry [] s with
    | error e =>
      rw [hd] at h
      cases h
    | ok r =>
      rw [hd] at h
      simp only [Except.bind] at h
      have e1 := decompileProcInRecursionGroup_ext env tryRec htry fuel entry [] s r hd
      split at h
      · exact ext_trans e1 (ih _ _ _ h)
      · injection h with h
        subst h
        exact e1

theorem quiet_foldl {α : Type} (f : DecompState → α → DecompState)
    (hf : ∀ st a, Quiet st (f st a)) (l : List α) :
    ∀ s : DecompState, Quiet s (l.foldl f s) := by
  induction l with
  | nil => intro s; exact Quiet.quiet_refl s
  | cons a rest ih => intro s; exact (hf s a).quiet_trans (ih _)

/-- A recursion group analysis on a non-empty group records its start in the trace. -/
theorem recursionGroupAnalysis_spec (env : Environment)
    (tryRec : UserProc → DecompState → Except DriverError DecompState)
    (htry : ∀ p s s2, tryRec p s = .ok s2 → ∃ t, s2.trace = s.trace ++ t)
    (fuel : Nat) (s s2 : DecompState) (group : Nat)
    (h : recursionGroupAnalysis env tryRec fuel s group = .ok s2) :
    (s.getSet group = [] ∧ s2 = s) ∨
    ∃ p t, s2.trace = s.trace ++ Event.call .recursionGroupAnalysis p :: t := by
  unfold recursionGroupAnalysis at h
  cases hg : s.getSet group with
  | nil =>
    rw [hg] at h
    injection h with h
    exact Or.inl ⟨rfl, h.symm⟩
  | cons entry rest =>
    rw [hg] at h
    simp only [] at h
    right
    cases hl : groupAnalysisLoop env tryRec fuel entry 3 0
        (s.log (.call .recursionGroupAnalysis entry)) with
    | error e =>
      rw [hl] at h
      simp [Except.map] at h
    | ok s1 =>
      rw [hl] at h
      simp only [Except.map] at h
      injection h with h
      subst h
      obtain ⟨t1, e1⟩ := groupAnalysisLoop_ext env tryRec htry fuel entry 3 0 _ _ hl
      have hq : Quiet s1 ((List.range 2).foldl (fun st _ =>
          (st.getSet group).foldl (fun st2 proc => lateDecompile env st2 proc) st) s1) :=
        quiet_foldl _ (fun st _ => quiet_foldl _ (fun st2 p => quiet_lateDecompile env st2 p) _ st)
          _ s1
      obtain ⟨t2, e2⟩ := hq.quiet_ext
      refine ⟨entry, t1 ++ t2, ?_⟩
      rw [e2, e1]
      simp

theorem dropWhile_head_not (p : UserProc → Bool) (l : List UserProc) (f : UserProc)
    (rest : List UserProc) (h : l.dropWhile p = f :: rest) : p f = false := by
  have hne : l.dropWhile p ≠ [] := by rw [h]; simp
  have := List.head_dropWhile_not p l hne
  simpa [h] using this

/-- The end of `tryDecompileRecursive` for a procedure in a cycle either leaves the state
as it is or starts a recursion group analysis. -/
theorem groupCheck_spec (env : Environment)
    (tryRec : UserProc → DecompState → Except DriverError DecompState)
    (htry : ∀ p s s2, tryRec p s = .ok s2 → ∃ t, s2.trace = s.trace ++ t)
    (fuel : Nat) (s s2 : DecompState) (proc : UserProc)
    (h : groupCheck env tryRec fuel s proc = .ok s2) :
    s2 = s ∨ ∃ p t, s2.trace = s.trace ++ Event.call .recursionGroupAnalysis p :: t := by
  unfold groupCheck at h
  cases hg : s.recursionGroup proc with
  | none =>
    rw [hg] at h
    cases h
  | some g =>
    rw [hg] at h
    dsimp only at h
    cases hd : s.m_callStack.dropWhile (fun func => decide (func ∉ s.getSet g)) with
    | nil =>
      rw [hd] at h
      cases h
    | cons f rest =>
      rw [hd] at h
      dsimp only at h
      by_cases hf : f = proc
      · rw [if_pos hf] at h
        cases hr : recursionGroupAnalysis env tryRec fuel s g with
        | error e =>
          rw [hr] at h
          simp [Except.map] at h
        | ok s1 =>
          rw [hr] at h
          simp only [Except.map] at h
          injection h with h
          subst h
          right
          rcases recursionGroupAnalysis_spec env tryRec htry fuel s s1 g hr with
            ⟨hempty, _⟩ | ⟨p, t, e1⟩
          · have := dropWhile_head_not _ _ _ _ hd
            simp [hempty] at this
          · exact ⟨p, t ++ [.status proc (s1.status proc) .PROC_FINAL .groupFinal], by
              simp [e1]⟩
      · rw [if_neg hf] at h
        injection h with h
        exact Or.inl h.symm

/-! ### The loop over the call blocks -/

theorem ProcStatus.below_visited (a : ProcStatus)
    (h1 : a ≤ .PROC_INCYCLE ∨ a = .PROC_FINAL) (h2 : a ≠ .PROC_FINAL)
    (h3 : ¬ (.PROC_VISITED ≤ a ∧ a ≤ .PROC_EARLYDONE)) :
    a ≠ .PROC_VISITED ∧ a ≠ .PROC_INCYCLE := by
  cases a <;> simp_all <;> revert h3 <;> decide

theorem processCallBB_spec
    (tryRec : UserProc → DecompState → Except DriverError DecompState) (htry : TrySpec tryRec)
    (proc : UserProc) (s s2 : DecompState) (bb : BasicBlock)
    (h : processCallBB tryRec proc s bb = .ok s2) :
    StepSpec (fun s => DriverInv s ∧ proc ∈ s.m_callStack)
      (fun s s2 => DriverInv s2 ∧ s2.m_callStack = s.m_callStack) s s2 := by
  have hsame : ∀ x : DecompState, StepSpec (fun s => DriverInv s ∧ proc ∈ s.m_callStack)
      (fun s s2 => DriverInv s2 ∧ s2.m_callStack = s.m_callStack) x x :=
    fun x => StepSpec.same x (fun hp => ⟨hp.1, rfl⟩)
  unfold processCallBB at h
  split at h
  · injection h with h; subst h; exact hsame _
  · split at h
    · injection h with h; subst h; exact hsame _
    · split at h
      · injection h with h; subst h; exact hsame _
      · rename_i f _
        split at h
        · injection h with h; subst h; exact hsame _
        · rename_i hlib
          split at h
          · injection h with h; subst h; exact hsame _
          · rename_i hfin
            split at h
            · exact cycleCall_spec s s2 proc f.id h
            · rename_i hrange
              cases ht : tryRec f.id s with
              | error e =>
                rw [ht] at h
                simp [Except.map] at h
              | ok s1 =>
                rw [ht] at h
                simp only [Except.map] at h
                injection h with h
                have h1 : StepSpec (fun s => DriverInv s ∧ proc ∈ s.m_callStack)
                    (fun s s2 => DriverInv s2 ∧ s2.m_callStack = s.m_callStack) s s1 := by
                  refine (htry f.id s s1 ht).weaken ?_ (fun _ hq => hq)
                  rintro ⟨hinv, _⟩
                  refine ⟨hinv, fun hmem => ?_⟩
                  obtain ⟨n1, n2⟩ := ProcStatus.below_visited _ (hinv.range f.id) hfin hrange
                  rcases hinv.onStack f.id hmem with e | e
                  · exact n1 e
                  · exact n2 e
                by_cases hc : s1.status proc ≠ .PROC_INCYCLE ∧
                    (s1.m_recursionGroups proc).isSome = true
                · rw [if_pos hc] at h
                  subst h
                  refine h1.then_ext [.status proc (s1.status proc) .PROC_INCYCLE .afterCallee]
                    (by simp) ?_
                  rintro _ ⟨hinv1, _⟩
                  exfalso
                  apply hc.1
                  apply hinv1.registered
                  intro e
                  rw [e] at hc
                  simp at hc
                · rw [if_neg hc] at h
                  subst h
                  exact h1

theorem callLoop_spec
    (tryRec : UserProc → DecompState → Except DriverError DecompState) (htry : TrySpec tryRec)
    (proc : UserProc) (bbs : List BasicBlock) :
    ∀ (s s2 : DecompState), bbs.foldlM (processCallBB tryRec proc) s = .ok s2 →
      StepSpec (fun s => DriverInv s ∧ proc ∈ s.m_callStack)
        (fun s s2 => DriverInv s2 ∧ s2.m_callStack = s.m_callStack) s s2 := by
  induction bbs with
  | nil =>
    intro s s2 h
    simp only [List.foldlM_nil, pure, Except.pure] at h
    injection h with h
    subst h
    exact StepSpec.same _ (fun hp => ⟨hp.1, rfl⟩)
  | cons bb rest ih =>
    intro s s2 h
    simp only [List.foldlM_cons, bind, Except.bind] at h
    cases hb : processCallBB tryRec proc s bb with
    | error e =>
      rw [hb] at h
      cases h
    | ok s1 =>
      rw [hb] at h
      refine (processCallBB_spec tryRec htry proc s s1 bb hb).step_trans (ih s1 s2 h) ?_ ?_
      · rintro ⟨_, hp⟩ ⟨hinv1, hst⟩
        exact ⟨hinv1, hst ▸ hp⟩
      · rintro _ ⟨_, hst1⟩ ⟨hinv2, hst2⟩
        exact ⟨hinv2, hst2.trans hst1⟩

/-! ### The end of `tryDecompileRecursive` -/

theorem TopInv.of_driverInv {s : DecompState} {proc : UserProc} (h : DriverInv s)
    (htop : s.m_callStack.getLast? = some proc) : TopInv proc s := by
  have hmem : proc ∈ s.m_callStack := List.mem_of_getLast?_eq_some htop
  refine ⟨htop, h.nodup, ?_, fun p _ => h.range p, ?_, h.registered, h.members⟩
  · intro q hq
    exact h.onStack q (List.mem_of_mem_dropLast hq)
  · rcases h.onStack proc hmem with e | e <;> rw [e] <;> decide

theorem stack_eq_dropLast_append {l : List UserProc} {proc : UserProc}
    (h : l.getLast? = some proc) : l = l.dropLast ++ [proc] := by
  cases hl : l with
  | nil => rw [hl] at h; simp at h
  | cons a rest =>
    have hne : a :: rest ≠ [] := by simp
    rw [hl] at h
    rw [List.getLast?_eq_getLast _ hne] at h
    injection h with h
    rw [← h]
    exact (List.dropLast_append_getLast hne).symm

theorem not_mem_dropLast_of_nodup {l : List UserProc} {proc : UserProc}
    (h : l.getLast? = some proc) (hn : l.Nodup) : proc ∉ l.dropLast := by
  have e := stack_eq_dropLast_append h
  rw [e] at hn
  intro hm
  have := List.nodup_append.mp hn
  exact this.2.2 hm (List.mem_singleton_self proc)

/-- The state after the top of the stack has been finished satisfies the invariant, when
the top's status is `InCycle` or `Final`, and is not in the registry unless `InCycle`. -/
theorem DriverInv.of_topInv_pop {s s2 : DecompState} {proc : UserProc} (h : TopInv proc s)
    (h1 : s2.status = s.status ∨
      ((∃ x, s2.status = Function.update s.status proc x) ∧ s.status proc ≠ .PROC_INCYCLE))
    (htop : s2.status proc ≤ .PROC_INCYCLE ∨ s2.status proc = .PROC_FINAL)
    (h2 : s2.m_recursionGroups = s.m_recursionGroups) (h3 : s2.procSets = s.procSets)
    (h4 : s2.m_callStack = s.m_callStack.dropLast) : DriverInv s2 := by
  have hg : ∀ x, s2.getSet x = s.getSet x := fun x => by simp [DecompState.getSet, h3]
  have hnot := not_mem_dropLast_of_nodup h.top h.nodup
  have hst : ∀ p, p ≠ proc → s2.status p = s.status p := by
    intro p hp
    rcases h1 with e | ⟨⟨x, e⟩, _⟩
    · rw [e]
    · rw [e, Function.update_noteq hp]
  refine ⟨?_, ?_, ?_, ?_, ?_⟩
  · rw [h4]
    exact (List.dropLast_sublist _).nodup h.nodup
  · intro q hq
    rw [h4] at hq
    have hne : q ≠ proc := fun e => hnot (e ▸ hq)
    rw [hst q hne]
    exact h.onStack q hq
  · intro p
    by_cases e : p = proc
    · subst e
      exact htop
    · rw [hst p e]
      exact h.range p e
  · intro p hp
    rw [h2] at hp
    by_cases e : p = proc
    · subst e
      rcases h1 with e1 | ⟨_, e2⟩
      · rw [e1]
        exact h.registered p hp
      · exact absurd (h.registered p hp) e2
    · rw [hst p e]
      exact h.registered p hp
  · intro x q hq
    rw [h2]
    exact h.members x q (hg x ▸ hq)

theorem finishProc_spec (env : Environment)
    (tryRec : UserProc → DecompState → Except DriverError DecompState)
    (htry : ∀ p s s2, tryRec p s = .ok s2 → ∃ t, s2.trace = s.trace ++ t)
    (fuel : Nat) (s s2 : DecompState) (proc : UserProc)
    (h : finishProc env tryRec fuel s proc = .ok s2) :
    StepSpec (fun s => TopInv proc s)
      (fun s s2 => DriverInv s2 ∧ s2.m_callStack = s.m_callStack.dropLast) s s2 := by
  unfold finishProc at h
  by_cases hst : s.status proc ≠ .PROC_INCYCLE
  · rw [if_pos hst] at h
    simp only [Except.bind] at h
    obtain ⟨_, rfl⟩ := pop_ok _ _ _ h
    obtain ⟨t, qt, e⟩ := quiet_lateDecompile env s proc
    have hq : Quiet s (lateDecompile env s proc) := ⟨t, qt, e⟩
    refine StepSpec.of_ext (t ++ [.status proc (s.status proc) .PROC_FINAL .final,
      .stack s.m_callStack.dropLast]) (by simp [hq.status, hq.callStack, e]) ?_
    intro hinv
    refine ⟨good_of_forall _ ?_, fun _ => ⟨?_, by simp [hq.callStack]⟩⟩
    · intro ev hev
      rcases List.mem_append.mp hev with h1 | h1
      · exact isQuiet_ok ev (qt ev h1)
      · simp only [List.mem_cons, List.mem_singleton, List.not_mem_nil, or_false] at h1
        rcases h1 with rfl | rfl
        · exact Or.inl hinv.rangeTop
        · exact (List.dropLast_sublist _).nodup hinv.nodup
    · refine DriverInv.of_topInv_pop hinv (Or.inr ⟨⟨.PROC_FINAL, ?_⟩, hst⟩) (Or.inr ?_) ?_ ?_ ?_
      · simp [hq.status]
      · simp
      · simp [hq.registry]
      · simp [hq.procSets]
      · simp [hq.callStack]
  · rw [if_neg hst] at h
    have hI : s.status proc = .PROC_INCYCLE := not_not.mp hst
    have hplain : ∀ s2, s.pop proc = .ok s2 →
        StepSpec (fun s => TopInv proc s)
          (fun s s2 => DriverInv s2 ∧ s2.m_callStack = s.m_callStack.dropLast) s s2 := by
      intro s2 hp
      obtain ⟨_, rfl⟩ := pop_ok _ _ _ hp
      refine StepSpec.of_event (.stack s.m_callStack.dropLast) rfl ?_
      intro hinv
      exact ⟨(List.dropLast_sublist _).nodup hinv.nodup,
        DriverInv.of_topInv_pop hinv (Or.inl rfl) (Or.inl (by rw [hI]; decide)) rfl rfl rfl, rfl⟩
    by_cases hreg : (s.m_recursionGroups proc).isSome = true
    · rw [if_pos hreg] at h
      cases hg : groupCheck env tryRec fuel s proc with
      | error e =>
        rw [hg] at h
        cases h
      | ok s6 =>
        rw [hg] at h
        simp only [Except.bind] at h
        rcases groupCheck_spec env tryRec htry fuel s s6 proc hg with rfl | ⟨p, t, e1⟩
        · exact hplain s2 h
        · obtain ⟨t2, e2⟩ := pop_ext _ _ _ h
          exact StepSpec.of_groupAnalysis p (t ++ t2) (by rw [e2, e1]; simp)
    · rw [if_neg hreg] at h
      simp only [Except.bind] at h
      exact hplain s2 h

theorem TopInv.of_driverInv_setTop {s s2 : DecompState} {proc : UserProc} (h : DriverInv s)
    (htop : s.m_callStack.getLast? = some proc) (hst : s.status proc ≠ .PROC_INCYCLE)
    (x : ProcStatus) (hx : x ≤ .PROC_FINAL)
    (h1 : s2.status = Function.update s.status proc x)
    (h2 : s2.m_recursionGroups = s.m_recursionGroups) (h3 : s2.procSets = s.procSets)
    (h4 : s2.m_callStack = s.m_callStack) : TopInv proc s2 := by
  have hg : ∀ y, s2.getSet y = s.getSet y := fun y => by simp [DecompState.getSet, h3]
  have hnot := not_mem_dropLast_of_nodup htop h.nodup
  refine ⟨by rw [h4]; exact htop, by rw [h4]; exact h.nodup, ?_, ?_, ?_, ?_, ?_⟩
  · intro q hq
    rw [h4] at hq
    have hne : q ≠ proc := fun e => hnot (e ▸ hq)
    rw [h1, Function.update_noteq hne]
    exact h.onStack q (List.mem_of_mem_dropLast hq)
  · intro p hp
    rw [h1, Function.update_noteq hp]
    exact h.range p
  · rw [h1, Function.update_same]
    exact hx
  · intro p hp
    rw [h2] at hp
    by_cases e : p = proc
    · subst e
      exact absurd (h.registered p hp) hst
    · rw [h1, Function.update_noteq e]
      exact h.registered p hp
  · intro y q hq
    rw [h2]
    exact h.members y q (hg y ▸ hq)

theorem earlyAndMiddle_spec (env : Environment)
    (tryRec : UserProc → DecompState → Except DriverError DecompState) (htry : TrySpec tryRec)
    (s s2 : DecompState) (proc : UserProc) (h : earlyAndMiddle env tryRec s proc = .ok s2) :
    StepSpec (fun s => DriverInv s ∧ s.m_callStack.getLast? = some proc)
      (fun s s2 => TopInv proc s2 ∧ s2.m_callStack = s.m_callStack) s s2 := by
  unfold earlyAndMiddle at h
  by_cases hst : s.status proc ≠ .PROC_INCYCLE
  · rw [if_pos hst] at h
    obtain ⟨_, sq, hq0, hc⟩ := middleDecompile_cases env tryRec _ _ proc h
    have hq : Quiet s sq := (quiet_earlyDecompile env s proc).quiet_trans hq0
    obtain ⟨tq, qt, eq⟩ := hq
    have hq : Quiet s sq := ⟨tq, qt, eq⟩
    have hqgood : ∀ ev ∈ tq, ev.ok := fun ev hev => isQuiet_ok ev (qt ev hev)
    rcases hc with rfl | rfl | ⟨sp, s8, hp, ht, rfl⟩
    · -- no indirect transfer: status EarlyDone
      refine StepSpec.of_ext (tq ++ [.status proc (s.status proc) .PROC_EARLYDONE .earlyDone])
        (by simp [hq.status, eq]) ?_
      rintro ⟨hinv, htop⟩
      refine ⟨good_of_forall _ ?_, fun _ => ⟨?_, by simp [hq.callStack]⟩⟩
      · intro ev hev
        rcases List.mem_append.mp hev with h1 | h1
        · exact hqgood ev h1
        · simp only [List.mem_singleton] at h1
          subst h1
          left
          rcases hinv.onStack proc (List.mem_of_getLast?_eq_some htop) with e | e <;>
            rw [e] <;> decide
      · exact TopInv.of_driverInv_setTop hinv htop hst .PROC_EARLYDONE (by decide)
          (by simp [hq.status]) (by simp [hq.registry]) (by simp [hq.procSets])
          (by simp [hq.callStack])
    · -- re-decoding failed
      refine StepSpec.of_quiet hq ?_
      rintro ⟨hinv, htop⟩
      exact ⟨TopInv.of_driverInv (hinv.inv_of_quiet hq) (by rw [hq.callStack]; exact htop),
        hq.callStack⟩
    · -- restart
      obtain ⟨_, rfl⟩ := pop_ok _ _ _ hp
      have step1 : StepSpec (fun s => DriverInv s ∧ s.m_callStack.getLast? = some proc)
          (fun s sp => DriverInv sp ∧ sp.m_callStack = s.m_callStack.dropLast) s
          ({ (sq.setStatus proc .PROC_VISITED .restart) with
              m_callStack := (sq.setStatus proc .PROC_VISITED .restart).m_callStack.dropLast,
              trace := (sq.setStatus proc .PROC_VISITED .restart).trace ++
                [.stack (sq.setStatus proc .PROC_VISITED .restart).m_callStack.dropLast] }) := by
        refine StepSpec.of_ext (tq ++ [.status proc (s.status proc) .PROC_VISITED .restart,
          .stack s.m_callStack.dropLast]) (by simp [hq.status, hq.callStack, eq]) ?_
        rintro ⟨hinv, htop⟩
        refine ⟨good_of_forall _ ?_, fun _ => ⟨?_, by simp [hq.callStack]⟩⟩
        · intro ev hev
          rcases List.mem_append.mp hev with h1 | h1
          · exact hqgood ev h1
          · simp only [List.mem_cons, List.mem_singleton, List.not_mem_nil, or_false] at h1
            rcases h1 with rfl | rfl
            · exact Or.inr rfl
            · exact (List.dropLast_sublist _).nodup hinv.nodup
        · refine DriverInv.of_topInv_pop (TopInv.of_driverInv hinv htop)
            (Or.inr ⟨⟨.PROC_VISITED, ?_⟩, hst⟩) (Or.inl ?_) ?_ ?_ ?_
          · simp [hq.status]
          · simp only [DecompState.setStatus_status, Function.update_same]
            decide
          · simp [hq.registry]
          · simp [hq.procSets]
          · simp [hq.callStack]
      have step2 := htry proc _ s8 ht
      have step12 : StepSpec (fun s => DriverInv s ∧ s.m_callStack.getLast? = some proc)
          (fun s s8 => DriverInv s8 ∧ s8.m_callStack = s.m_callStack.dropLast) s s8 := by
        refine step1.step_trans step2 ?_ ?_
        · rintro ⟨hinv, htop⟩ ⟨hinv1, hst1⟩
          refine ⟨hinv1, ?_⟩
          rw [hst1]
          exact not_mem_dropLast_of_nodup htop hinv.nodup
        · rintro _ ⟨_, hst1⟩ ⟨hinv2, hst2⟩
          exact ⟨hinv2, hst2.trans hst1⟩
      refine step12.then_ext [.stack (s8.m_callStack ++ [proc])] rfl ?_
      rintro ⟨hinv, htop⟩ ⟨hinv8, hst8⟩
      have hstack : s8.m_callStack ++ [proc] = s.m_callStack := by
        rw [hst8]
        exact (stack_eq_dropLast_append htop).symm
      refine ⟨good_of_forall _ ?_, fun _ => ⟨⟨?_, ?_, ?_, ?_, ?_, ?_, ?_⟩, ?_⟩⟩
      · intro ev hev
        simp only [List.mem_singleton] at hev
        subst hev
        show (s8.m_callStack ++ [proc]).Nodup
        rw [hstack]
        exact hinv.nodup
      · simp
      · show (s8.m_callStack ++ [proc]).Nodup
        rw [hstack]
        exact hinv.nodup
      · intro q hq
        simp only [DecompState.push_callStack, List.dropLast_concat] at hq
        exact hinv8.onStack q hq
      · intro p _
        exact hinv8.range p
      · show s8.status proc ≤ .PROC_FINAL
        rcases hinv8.range proc with e | e
        · exact Nat.le_trans e (by decide)
        · rw [e]
          decide
      · exact hinv8.registered
      · exact hinv8.members
      · exact hstack
  · rw [if_neg hst] at h
    injection h with h
    subst h
    exact StepSpec.same _ (fun hp => ⟨TopInv.of_driverInv hp.1 hp.2, rfl⟩)

/-! ### `tryDecompileRecursive` keeps the invariant -/

theorem ProcStatus.visited_or_incycle (a : ProcStatus)
    (h1 : a ≤ .PROC_INCYCLE ∨ a = .PROC_FINAL) (h2 : ¬ .PROC_FINAL ≤ a)
    (h3 : ¬ a < .PROC_VISITED) : a = .PROC_VISITED ∨ a = .PROC_INCYCLE := by
  revert h1 h2 h3
  cases a <;> decide

theorem DriverInv.push {s s2 : DecompState} {proc : UserProc} (h : DriverInv s)
    (hnot : proc ∉ s.m_callStack)
    (h1 : s2.status = s.status ∨
      (s2.status = Function.update s.status proc .PROC_VISITED ∧ s.status proc < .PROC_VISITED))
    (htop : s2.status proc = .PROC_VISITED ∨ s2.status proc = .PROC_INCYCLE)
    (h2 : s2.m_recursionGroups = s.m_recursionGroups) (h3 : s2.procSets = s.procSets)
    (h4 : s2.m_callStack = s.m_callStack ++ [proc]) : DriverInv s2 := by
  have hg : ∀ y, s2.getSet y = s.getSet y := fun y => by simp [DecompState.getSet, h3]
  have hst : ∀ p, p ≠ proc → s2.status p = s.status p := by
    intro p hp
    rcases h1 with e | ⟨e, _⟩
    · rw [e]
    · rw [e, Function.update_noteq hp]
  refine ⟨?_, ?_, ?_, ?_, ?_⟩
  · rw [h4]
    exact List.nodup_append.mpr ⟨h.nodup, List.nodup_singleton proc, by
      intro a ha hb
      simp only [List.mem_singleton] at hb
      exact hnot (hb ▸ ha)⟩
  · intro q hq
    rw [h4] at hq
    by_cases e : q = proc
    · subst e
      exact htop
    · rw [hst q e]
      rcases List.mem_append.mp hq with h5 | h5
      · exact h.onStack q h5
      · simp only [List.mem_singleton] at h5
        exact absurd h5 e
  · intro p
    by_cases e : p = proc
    · subst e
      left
      exact ProcStatus.le_incycle_of_visited_or_incycle _ htop
    · rw [hst p e]
      exact h.range p
  · intro p hp
    rw [h2] at hp
    by_cases e : p = proc
    · subst e
      rcases h1 with e1 | ⟨_, e2⟩
      · rw [e1]
        exact h.registered p hp
      · have := h.registered p hp
        rw [this] at e2
        exact absurd e2 (by decide)
    · rw [hst p e]
      exact h.registered p hp
  · intro y q hq
    rw [h2]
    exact h.members y q (hg y ▸ hq)

theorem tryDecompileRecursive_spec (env : Environment) :
    ∀ fuel : Nat, TrySpec (tryDecompileRecursive env fuel) := by
  intro fuel
  induction fuel with
  | zero =>
    intro proc s s2 h
    simp [tryDecompileRecursive] at h
  | succ fuel ih =>
    intro proc s s2 h
    have hext : ∀ p s s2, tryDecompileRecursive env fuel p s = .ok s2 →
        ∃ t, s2.trace = s.trace ++ t := fun p s s2 hh => (ih p s s2 hh).ext
    unfold tryDecompileRecursive at h
    by_cases hfin : ProcStatus.PROC_FINAL ≤ s.status proc
    · rw [if_pos hfin] at h
      injection h with h
      subst h
      exact StepSpec.of_quiet (quiet_log _ _ rfl) (fun hp => ⟨hp.1.inv_of_quiet (quiet_log _ _ rfl), rfl⟩)
    · rw [if_neg hfin] at h
      by_cases hdec : s.status proc < .PROC_DECODED ∧
          env.reDecode proc (s.log (.call .tryDecompileRecursive proc)).trace.length = false
      · rw [if_pos hdec] at h
        injection h with h
        subst h
        have hq := (quiet_log s (.call .tryDecompileRecursive proc) rfl).quiet_trans
          (quiet_log _ (.reDecode proc false) rfl)
        exact StepSpec.of_quiet hq (fun hp => ⟨hp.1.inv_of_quiet hq, hq.callStack⟩)
      · rw [if_neg hdec] at h
        simp only [] at h
        -- the state after the answer of the front end
        have hq1 : ∃ s1, Quiet s s1 ∧ s1 = (if s.status proc < .PROC_DECODED then
            (s.log (.call .tryDecompileRecursive proc)).log (.reDecode proc true)
            else s.log (.call .tryDecompileRecursive proc)) := by
          refine ⟨_, ?_, rfl⟩
          split
          · exact (quiet_log s (.call .tryDecompileRecursive proc) rfl).quiet_trans
              (quiet_log _ (.reDecode proc true) rfl)
          · exact quiet_log s (.call .tryDecompileRecursive proc) rfl
        obtain ⟨s1, hq1, e1⟩ := hq1
        rw [← e1] at h
        obtain ⟨t1, qt1, eq1⟩ := hq1
        have hq1 : Quiet s s1 := ⟨t1, qt1, eq1⟩
        -- the state after the push
        have step3 : StepSpec (fun s => DriverInv s ∧ proc ∉ s.m_callStack)
            (fun s s3 => DriverInv s3 ∧ s3.m_callStack = s.m_callStack ++ [proc]) s
            ((if s1.status proc < .PROC_VISITED then
                s1.setStatus proc .PROC_VISITED .enterVisited else s1).push proc) := by
          by_cases hv : s1.status proc < .PROC_VISITED
          · rw [if_pos hv]
            refine StepSpec.of_ext (t1 ++ [.status proc (s.status proc) .PROC_VISITED
              .enterVisited, .stack (s.m_callStack ++ [proc])])
              (by simp [hq1.status, hq1.callStack, eq1]) ?_
            rintro ⟨hinv, hnot⟩
            have hnd : (s.m_callStack ++ [proc]).Nodup :=
              List.nodup_append.mpr ⟨hinv.nodup, List.nodup_singleton proc, by
                intro a ha hb
                simp only [List.mem_singleton] at hb
                exact hnot (hb ▸ ha)⟩
            refine ⟨good_of_forall _ ?_, fun _ => ⟨?_, by simp [hq1.callStack]⟩⟩
            · intro ev hev
              rcases List.mem_append.mp hev with h1 | h1
              · exact isQuiet_ok ev (qt1 ev h1)
              · simp only [List.mem_cons, List.mem_singleton, List.not_mem_nil, or_false] at h1
                rcases h1 with rfl | rfl
                · left
                  rw [hq1.status] at hv
                  exact Nat.le_of_lt hv
                · exact hnd
            · refine DriverInv.push hinv hnot (Or.inr ⟨?_, ?_⟩) (Or.inl ?_) ?_ ?_ ?_
              · simp [hq1.status]
              · rw [hq1.status] at hv
                exact hv
              · simp
              · simp [hq1.registry]
              · simp [hq1.procSets]
              · simp [hq1.callStack]
          · rw [if_neg hv]
            refine StepSpec.of_ext (t1 ++ [.stack (s.m_callStack ++ [proc])])
              (by simp [hq1.callStack, eq1]) ?_
            rintro ⟨hinv, hnot⟩
            have hnd : (s.m_callStack ++ [proc]).Nodup :=
              List.nodup_append.mpr ⟨hinv.nodup, List.nodup_singleton proc, by
                intro a ha hb
                simp only [List.mem_singleton] at hb
                exact hnot (hb ▸ ha)⟩
            refine ⟨good_of_forall _ ?_, fun _ => ⟨?_, by simp [hq1.callStack]⟩⟩
            · intro ev hev
              rcases List.mem_append.mp hev with h1 | h1
              · exact isQuiet_ok ev (qt1 ev h1)
              · simp only [List.mem_singleton] at h1
                subst h1
                exact hnd
            · rw [hq1.status] at hv
              refine DriverInv.push hinv hnot (Or.inl ?_) ?_ ?_ ?_ ?_
              · simp [hq1.status]
              · simp only [DecompState.push_status, hq1.status]
                exact ProcStatus.visited_or_incycle _ (hinv.range proc) hfin hv
              · simp [hq1.registry]
              · simp [hq1.procSets]
              · simp [hq1.callStack]
        generalize hs3 : ((if s1.status proc < .PROC_VISITED then
            s1.setStatus proc .PROC_VISITED .enterVisited else s1).push proc) = s3 at h step3
        -- the loop over the callees
        cases hloop : (if env.decodeChildren = true then
            (env.cfg proc s3.trace.length).foldlM
              (processCallBB (tryDecompileRecursive env fuel) proc) s3
            else Except.ok s3) with
        | error e =>
          rw [hloop] at h
          cases h
        | ok s4 =>
          rw [hloop] at h
          simp only [Except.bind] at h
          have step4 : StepSpec (fun s => DriverInv s ∧ proc ∈ s.m_callStack)
              (fun s s2 => DriverInv s2 ∧ s2.m_callStack = s.m_callStack) s3 s4 := by
            by_cases hch : env.decodeChildren = true
            · rw [if_pos hch] at hloop
              exact callLoop_spec _ ih proc _ s3 s4 hloop
            · rw [if_neg hch] at hloop
              injection hloop with hloop
              subst hloop
              exact StepSpec.same _ (fun hp => ⟨hp.1, rfl⟩)
          cases hmid : earlyAndMiddle env (tryDecompileRecursive env fuel) s4 proc with
          | error e =>
            rw [hmid] at h
            cases h
          | ok s5 =>
            rw [hmid] at h
            simp only [] at h
            have step5 := earlyAndMiddle_spec env _ ih s4 s5 proc hmid
            have step6 := finishProc_spec env _ hext fuel s5 s2 proc h
            have step34 : StepSpec (fun s => DriverInv s ∧ proc ∉ s.m_callStack)
                (fun s s4 => DriverInv s4 ∧ s4.m_callStack = s.m_callStack ++ [proc]) s s4 := by
              refine step3.step_trans step4 ?_ ?_
              · rintro _ ⟨hinv3, hst3⟩
                exact ⟨hinv3, by rw [hst3]; simp⟩
              · rintro _ ⟨_, hst3⟩ ⟨hinv4, hst4⟩
                exact ⟨hinv4, hst4.trans hst3⟩
            have step345 : StepSpec (fun s => DriverInv s ∧ proc ∉ s.m_callStack)
                (fun s s5 => TopInv proc s5 ∧ s5.m_callStack = s.m_callStack ++ [proc]) s s5 := by
              refine step34.step_trans step5 ?_ ?_
              · rintro _ ⟨hinv4, hst4⟩
                exact ⟨hinv4, by rw [hst4]; simp⟩
              · rintro _ ⟨_, hst4⟩ ⟨hinv5, hst5⟩
                exact ⟨hinv5, hst5.trans hst4⟩
            refine step345.step_trans step6 ?_ ?_
            · rintro _ ⟨hinv5, _⟩
              exact hinv5
            · rintro _ ⟨_, hst5⟩ ⟨hinv6, hst6⟩
              refine ⟨hinv6, ?_⟩
              rw [hst6, hst5]
              simp

/-! ### The run from the initial state -/

theorem mem_untilGroupAnalysis (t : List Event) (e : Event) (h : e ∈ untilGroupAnalysis t) :
    ∃ pre post, t = pre ++ e :: post ∧ hasGroupAnalysis pre = false := by
  induction t with
  | nil => simp [untilGroupAnalysis] at h
  | cons x t ih =>
    unfold untilGroupAnalysis at h
    rw [List.takeWhile_cons] at h
    by_cases hx : x.isGroupAnalysis = true
    · simp [hx] at h
    · have hx2 : x.isGroupAnalysis = false := by simpa using hx
      simp only [hx2, Bool.not_false, if_true, List.mem_cons] at h
      rcases h with rfl | h
      · exact ⟨[], t, rfl, rfl⟩
      · obtain ⟨pre, post, e1, e2⟩ := ih h
        refine ⟨x :: pre, post, by rw [e1]; rfl, ?_⟩
        simp only [hasGroupAnalysis, List.any_cons, hx2, Bool.false_or]
        exact e2

theorem decompileRecursive_good (env : Environment) (fuel : Nat) (proc : UserProc) :
    ∀ e ∈ untilGroupAnalysis (traceAfter (decompileRecursive env fuel proc)), e.ok := by
  intro e he
  cases hr : decompileRecursive env fuel proc with
  | error err =>
    rw [hr] at he
    simp [traceAfter, untilGroupAnalysis] at he
  | ok s2 =>
    rw [hr] at he
    obtain ⟨t, ht, hgood⟩ := tryDecompileRecursive_spec env fuel proc DecompState.init s2 hr
    have ht2 : s2.trace = t := by
      rw [ht]
      simp [DecompState.init]
    obtain ⟨pre, post, e1, e2⟩ := mem_untilGroupAnalysis _ e he
    have hg := (hgood ⟨DriverInv.init, by simp [DecompState.init]⟩).1
    exact hg pre e post (by rw [← ht2]; exact e1) e2

/-- C8 (amended): in a run of `tryDecompileRecursive` started in the initial state (empty
call stack), every value that the call stack takes before the first recursion group
analysis starts has no procedure twice. -/
theorem callStack_nodup_until_groupAnalysis (env : Environment) (fuel : Nat) (proc : UserProc)
    (callStack : List UserProc)
    (h : Event.stack callStack ∈
      untilGroupAnalysis (traceAfter (decompileRecursive env fuel proc))) :
    callStack.Nodup :=
  decompileRecursive_good env fuel proc _ h

set_option maxRecDepth 100000 in
/-- In the run on two mutually recursive procedures the call stack is `[0, 1]` before the
group analysis starts, and it has no procedure twice. -/
theorem callStack_nodup_until_groupAnalysis_witness :
    Event.stack [0, 1] ∈
      untilGroupAnalysis (traceAfter (decompileRecursive (mutualRecursion false) 10 0)) ∧
    ([0, 1] : List UserProc).Nodup :=
  ⟨by decide, callStack_nodup_until_groupAnalysis (mutualRecursion false) 10 0 [0, 1]
    (by decide)⟩

/-- C9 (amended): in a run of the driver from the initial state, every status write
recorded before the first recursion group analysis starts either does not decrease the
status of the procedure, or is the reset of the restart in `middleDecompile`. -/
theorem status_monotone_until_groupAnalysis (env : Environment) (fuel : Nat)
    (proc p : UserProc) (old new : ProcStatus) (site : Site)
    (h : Event.status p old new site ∈
      untilGroupAnalysis (traceAfter (decompileRecursive env fuel proc))) :
    old ≤ new ∨ site = .restart :=
  decompileRecursive_good env fuel proc _ h

set_option maxRecDepth 100000 in
/-- In the run on a call chain, procedure `2` goes from `Visited` to `EarlyDone`. -/
theorem status_monotone_until_groupAnalysis_witness :
    Event.status 2 .PROC_VISITED .PROC_EARLYDONE .earlyDone ∈
      untilGroupAnalysis (traceAfter (decompileRecursive callChain 10 0)) ∧
    (ProcStatus.PROC_VISITED ≤ ProcStatus.PROC_EARLYDONE ∨ Site.earlyDone = Site.restart) :=
  ⟨by decide, status_monotone_until_groupAnalysis callChain 10 0 2 .PROC_VISITED
    .PROC_EARLYDONE .earlyDone (by decide)⟩

/-! ### Integer constants: decimal or hexadecimal -/

theorem x_not_mem_intToString (K : Int) : 'x' ∉ (intToString K).data := by
  intro h
  unfold intToString at h
  split at h
  · rw [String.data_append] at h
    rcases List.mem_append.mp h with h1 | h1
    · exact absurd h1 (by decide)
    · exact (number_data_not_special _ 10 (by decide) (by decide) _ h1).2.2 rfl
  · exact (number_data_not_special _ 10 (by decide) (by decide) _ h).2.2 rfl

theorem intToString_ne_hex (K : Int) (n : Nat) : "0x" ++ number n 16 ≠ intToString K := by
  intro h
  apply x_not_mem_intToString K
  rw [← h, String.data_append]
  exact List.mem_append.mpr (Or.inl (by decide))

/-- C11: for an integer constant `K` whose type is not char, emitted with the unsigned flag
off, `appendExp` writes the decimal text of `K` exactly when `-2048 < K < 2048`, and
writes `0x` followed by the hexadecimal digits of `uint32_t(K)` exactly in the other
case. -/
theorem intConst_decimal_iff_small (str : String) (K : Int) :
    (appendIntConst str K false false = str ++ intToString K ↔ (-2048 < K ∧ K < 2048)) ∧
    (appendIntConst str K false false = str ++ ("0x" ++ number (toUnsigned32 K) 16) ↔
      ¬ (-2048 < K ∧ K < 2048)) := by
  have hne : str ++ ("0x" ++ number (toUnsigned32 K) 16) ≠ str ++ intToString K :=
    fun e => intToString_ne_hex K _ (by
      have e2 := congrArg String.data e
      simp only [String.data_append, List.append_cancel_left_eq] at e2
      exact String.ext (by simpa [String.data_append] using e2))
  by_cases h : -2048 < K ∧ K < 2048
  · have e : appendIntConst str K false false = str ++ intToString K := by
      simp [appendIntConst, intConstText, h]
    rw [e]
    exact ⟨⟨fun _ => h, fun _ => rfl⟩, ⟨fun e2 => absurd e2.symm hne, fun h2 => absurd h h2⟩⟩
  · have e : appendIntConst str K false false =
        str ++ ("0x" ++ number (toUnsigned32 K) 16) := by
      simp only [appendIntConst, intConstText, Bool.false_and, Bool.false_eq_true, if_false,
        if_neg h]
    rw [e]
    exact ⟨⟨fun e2 => absurd e2 hne, fun h2 => absurd h2 h⟩, ⟨fun _ => h, fun _ => rfl⟩⟩

/-- C12: for `exp1@[n:m] := rhs` the expression built by `addAssignmentStatement` is never
`(exp1 & mask) | (rhs << m)`, whatever the mask: the operator at its root is `&`. For `x@[1:0] := v` the mask is `~0`, which has no zero
bit at the positions `0..1`, and the built expression is `x & (-1 | (v << 0))`. -/
theorem bitfield_assign_builds_and_of_or (exp1 rhs : Exp) (n m : Int) :
    (∀ mask : Int, bitfieldAssignRhs exp1 rhs n m ≠
      some (.binary .opBitOr (.binary .opBitAnd exp1 (Exp.constInt mask))
        (.binary .opShiftL rhs (Exp.constInt m)))) ∧
    bitfieldAssignMask 1 0 = some (-1) ∧
    bitfieldAssignRhs exp1 rhs 1 0 =
      some (.binary .opBitAnd exp1
        (.binary .opBitOr (Exp.constInt (-1)) (.binary .opShiftL rhs (Exp.constInt 0)))) := by
  have hm : bitfieldAssignMask 1 0 = some (-1) := by decide
  refine ⟨?_, hm, ?_⟩
  · intro mask h
    unfold bitfieldAssignRhs at h
    cases hmask : bitfieldAssignMask n m with
    | none => simp [hmask] at h
    | some k => simp [hmask] at h
  · simp [bitfieldAssignRhs, hm]

/-! ### Bitfield reads (`appendExp`, case `opAt`) -/

theorem bitfieldReadMask_eq (first last : Int) (h1 : last ≤ first) (h2 : first - last < 31) :
    bitfieldReadMask first last = some (2 ^ (first - last + 1).toNat - 1) := by
  obtain ⟨k, hk⟩ : ∃ k : Nat, first - last = (k : Int) := ⟨(first - last).toNat, by omega⟩
  have hk31 : k < 31 := by omega
  unfold bitfieldReadMask
  rw [hk]
  interval_cases k <;> decide

set_option maxHeartbeats 4000000 in
/-- C13: for a bitfield read `x@[first:last]` with integer constants `first >= last`,
`first - last < 31`, `appendExp` writes the text of `x`, then ` >> `, the text of `last`,
` & ` and the mask `2^(first-last+1) - 1`, in decimal when the mask is below 10 and as
`0x` with hexadecimal digits otherwise; the whole is put in parentheses by
`openParen`/`closeParen` when the precedence `BitAnd` requires it. -/
theorem bitfield_read_text (env : EmitEnv) (str sx : String) (x : Exp) (first last : Int)
    (c1 c2 : Bool) (curPrec : OpPrec) (uns : Bool)
    (hx : appendExp env (openParen str curPrec env.prec.BitAnd) x env.prec.BitShift false =
      some sx)
    (h1 : last ≤ first) (h2 : first - last < 31) :
    appendExp env str (.ternary .opAt x (.intConst first c1) (.intConst last c2)) curPrec uns =
      some (closeParen
        (sx ++ " >> " ++ intConstText last c2 false ++ " & " ++
          (if 2 ^ (first - last + 1).toNat - 1 < 10 then
            number (2 ^ (first - last + 1).toNat - 1) 10
          else "0x" ++ number (2 ^ (first - last + 1).toNat - 1) 16))
        curPrec env.prec.BitAnd) := by
  rw [appendExp, hx, bitfieldReadMask_eq first last h1 h2]
  rfl

/-- The read `x@[7:4]` of a local `x` is written `x >> 4 & 0xf`. -/
theorem bitfield_read_text_witness :
    appendExp sampleEmitEnv "" (.ternary .opAt (.unary .opLocal (.strConst "x"))
      (.intConst 7 false) (.intConst 4 false)) 15 false = some "x >> 4 & 0xf" :=
  bitfield_read_text sampleEmitEnv "" "x" (.unary .opLocal (.strConst "x")) 7 4 false false
    15 false (by decide) (by decide) (by decide)

/-! ### Address-of (`appendExp`, case `opAddrOf`) -/

theorem appendExp_global (env : EmitEnv) (str name : String) (curPrec : OpPrec) (uns : Bool) :
    appendExp env str (.unary .opGlobal (.strConst name)) curPrec uns = some (str ++ name) := by
  rw [appendExp]

theorem appendExp_addrOf_of_not_memOf (env : EmitEnv) (str : String) (sub : Exp)
    (curPrec : OpPrec) (uns : Bool) (hmem : ∀ e, sub ≠ .unary .opMemOf e) :
    appendExp env str (.unary .opAddrOf sub) curPrec uns =
      if addrOfIsSuppressed env sub then appendExp env str sub curPrec false
      else
        (appendExp env (openParen str curPrec env.prec.Unary ++ "&") sub env.prec.Unary
          false).map fun s => closeParen s curPrec env.prec.Unary := by
  rw [appendExp]
  intro e he
  exact hmem e he

/-- C19: for `addrOf(g)` with `g` a global, `appendExp` writes exactly the name of `g`
when the declared type of `g` is an array or a pointer to char, and `&` followed by the
name for every other type (also when the type is not known); for an operand that is
neither such a global nor a `memOf` it writes `&` followed by the text of the operand. The
`&` form is put in parentheses by `openParen`/`closeParen` when the precedence `Unary`
requires it. -/
theorem addrOf_text (env : EmitEnv) (str sx name : String) (sub : Exp) (curPrec : OpPrec)
    (uns : Bool) (hmem : sub.getOper ≠ .opMemOf)
    (hsup : addrOfIsSuppressed env sub = false)
    (hx : appendExp env (openParen str curPrec env.prec.Unary ++ "&") sub env.prec.Unary
      false = some sx) :
    appendExp env str (.unary .opAddrOf (.unary .opGlobal (.strConst name))) curPrec uns =
      some (match env.getGlobalType name with
        | some (.array _ _) => str ++ name
        | some (.pointer .char) => str ++ name
        | _ => closeParen (openParen str curPrec env.prec.Unary ++ "&" ++ name) curPrec
            env.prec.Unary) ∧
    appendExp env str (.unary .opAddrOf sub) curPrec uns =
      some (closeParen sx curPrec env.prec.Unary) := by
  constructor
  · rw [appendExp_addrOf_of_not_memOf env str _ curPrec uns (fun e he => by cases he)]
    simp only [appendExp_global, addrOfIsSuppressed]
    cases hg : env.getGlobalType name with
    | none => simp
    | some ty =>
      cases ty with
      | pointer p => cases p <;> simp [SharedType.isChar]
      | _ => simp
  · rw [appendExp_addrOf_of_not_memOf env str sub curPrec uns
      (fun e he => hmem (by rw [he]; rfl)), hsup, hx]
    rfl

/-- With the sample environment: `&arr` of the array global `arr` is written `arr`, and
the address of the local `p` is written `&p`. -/
theorem addrOf_text_witness :
    appendExp sampleEmitEnv "" (.unary .opAddrOf (.unary .opGlobal (.strConst "arr"))) 15
      false = some "arr" ∧
    appendExp sampleEmitEnv "" (.unary .opAddrOf (.unary .opLocal (.strConst "p"))) 15
      false = some "&p" :=
  addrOf_text sampleEmitEnv "" "&p" "arr" (.unary .opLocal (.strConst "p")) 15 false
    (by decide) (by decide) (by decide)

/-! ### Character constants -/

/-- C20: for an integer constant whose type is char, not a negative value under the
unsigned flag, `appendExp` writes a single-quoted literal: the C backslash escape for the
eleven characters that have one, and the raw character `static_cast<char>(K)` for every
other value. -/
theorem charConst_text (str : String) (K : Int) (uns : Bool)
    (h : ¬ (uns = true ∧ K < 0)) :
    appendIntConst str K true uns =
      str ++ ("'" ++
        (match cEscapeSequence K with
         | some esc => esc
         | none => String.singleton (Char.ofNat (K % 256).toNat)) ++ "'") := by
  have h1 : (uns && decide (K < 0)) = false := by
    cases uns
    · rfl
    · simpa using h
  unfold appendIntConst intConstText
  rw [h1]
  simp only [Bool.false_eq_true, if_false, if_true]
  congr 1
  unfold charConstText
  by_cases c7 : K = 7
  · subst c7; decide
  by_cases c8 : K = 8
  · subst c8; decide
  by_cases c12 : K = 12
  · subst c12; decide
  by_cases c10 : K = 10
  · subst c10; decide
  by_cases c13 : K = 13
  · subst c13; decide
  by_cases c9 : K = 9
  · subst c9; decide
  by_cases c11 : K = 11
  · subst c11; decide
  by_cases c92 : K = 92
  · subst c92; decide
  by_cases c63 : K = 63
  · subst c63; decide
  by_cases c39 : K = 39
  · subst c39; decide
  by_cases c34 : K = 34
  · subst c34; decide
  have hn : cEscapeSequence K = none := by
    unfold cEscapeSequence
    split <;> first | omega | rfl
  rw [hn]
  simp only [c7, c8, c12, c10, c13, c9, c11, c92, c63, c39, c34, if_false]

/-- The newline constant is written as its escape, the letter `A` raw. -/
theorem charConst_text_witness :
    appendIntConst "" 10 true false = "'\\n'" ∧ appendIntConst "" 65 true true = "'A'" :=
  ⟨charConst_text "" 10 false (by decide), charConst_text "" 65 true (by decide)⟩

/-! ### Emission of a program: prototypes and definitions -/

theorem prototypeFold_calls (txt : ProgText) (fs : List Function) (g : ProgEmitter) :
    (fs.foldl (prototypeStep txt) g).calls =
      g.calls ++ (fs.filter fun f => !f.isLib).map fun f => EmitCall.addPrototype f.id := by
  induction fs generalizing g with
  | nil => simp
  | cons f fs ih =>
    rw [List.foldl_cons, ih]
    cases hl : f.isLib <;> simp [prototypeStep, hl, ProgEmitter.addPrototype]

theorem prototypeLoop_calls (txt : ProgText) (ms : List Module) (g : ProgEmitter) :
    (ms.foldl (fun acc module => module.functions.foldl (prototypeStep txt) acc) g).calls =
      g.calls ++ ms.flatMap fun m =>
        (m.functions.filter fun f => !f.isLib).map fun f => EmitCall.addPrototype f.id := by
  induction ms generalizing g with
  | nil => simp
  | cons m ms ih =>
    rw [List.foldl_cons, ih, prototypeFold_calls]
    simp [List.flatMap_cons]

theorem definitionFold_calls (txt : ProgText) (prog : Prog) (proc : Option UserProc)
    (module : Nat) (fs : List Function) (g : ProgEmitter) :
    (fs.foldl (definitionStep txt prog proc module) g).calls =
      g.calls ++ (fs.filter fun f =>
          !f.isLib && prog.isDecoded f.id && decide (proc = none ∨ proc = some f.id)).flatMap
        fun f => [EmitCall.generateCode f.id, EmitCall.print module] := by
  induction fs generalizing g with
  | nil => simp
  | cons f fs ih =>
    rw [List.foldl_cons, ih]
    cases hl : f.isLib
    · cases hd : prog.isDecoded f.id
      · simp [definitionStep, hl, hd]
      · cases proc with
        | none =>
          simp [definitionStep, hl, hd, ProgEmitter.generateCode, ProgEmitter.print]
        | some p =>
          by_cases hp : p = f.id
          · simp [definitionStep, hl, hd, hp, ProgEmitter.generateCode, ProgEmitter.print]
          · simp [definitionStep, hl, hd, hp, ProgEmitter.generateCode, ProgEmitter.print]
    · simp [definitionStep, hl]

theorem definitionLoop_calls (txt : ProgText) (prog : Prog) (proc : Option UserProc)
    (sel : Module → Bool) (ms : List Module) (g : ProgEmitter) :
    (ms.foldl (fun acc module =>
        if sel module then acc
        else module.functions.foldl (definitionStep txt prog proc module.id) acc) g).calls =
      g.calls ++ (ms.filter fun m => !sel m).flatMap fun m =>
        (m.functions.filter fun f =>
          !f.isLib && prog.isDecoded f.id && decide (proc = none ∨ proc = some f.id)).flatMap
        fun f => [EmitCall.generateCode f.id, EmitCall.print m.id] := by
  induction ms generalizing g with
  | nil => simp
  | cons m ms ih =>
    rw [List.foldl_cons, ih]
    cases hs : sel m
    · simp [hs, definitionFold_calls, List.flatMap_cons]
    · simp [hs]

theorem foldl_addGlobal_calls (txt : ProgText) (ns : List String) (g : ProgEmitter) :
    (ns.foldl (ProgEmitter.addGlobal txt) g).calls = g.calls ++ ns.map EmitCall.addGlobal := by
  induction ns generalizing g with
  | nil => simp
  | cons n ns ih =>
    rw [List.foldl_cons, ih]
    simp [ProgEmitter.addGlobal]

theorem generateCode_calls (txt : ProgText) (prog : Prog) (cluster : Option Nat)
    (proc : Option UserProc) :
    ∃ pre mid : List EmitCall,
      (∀ c ∈ pre ++ mid, ∀ p, c ≠ .addPrototype p ∧ c ≠ .generateCode p) ∧
      (generateCode txt prog cluster proc {}).calls =
        pre ++
        (prog.moduleList.flatMap fun m =>
          (m.functions.filter fun f => !f.isLib).map fun f => EmitCall.addPrototype f.id) ++
        mid ++
        ((prog.moduleList.filter fun m =>
            decide (cluster = none ∨ cluster = some prog.rootModule ∨
              cluster = some m.id)).flatMap fun m =>
          (m.functions.filter fun f =>
            !f.isLib && prog.isDecoded f.id &&
              decide (proc = none ∨ proc = some f.id)).flatMap
          fun f => [EmitCall.generateCode f.id, EmitCall.print m.id]) := by
  have hsel : ∀ (ga : Bool) (g : ProgEmitter),
      (prog.moduleList.foldl
        (fun acc module =>
          if !ga ∧ cluster ≠ some module.id then acc
          else module.functions.foldl (definitionStep txt prog proc module.id) acc) g).calls =
      g.calls ++ (prog.moduleList.filter fun m =>
          !decide (ga = false ∧ cluster ≠ some m.id)).flatMap fun m =>
        (m.functions.filter fun f =>
          !f.isLib && prog.isDecoded f.id && decide (proc = none ∨ proc = some f.id)).flatMap
        fun f => [EmitCall.generateCode f.id, EmitCall.print m.id] := by
    intro ga g
    rw [← definitionLoop_calls txt prog proc
      (fun m => decide (ga = false ∧ cluster ≠ some m.id)) prog.moduleList g]
    congr 2
    funext acc m
    simp
  unfold generateCode
  simp only [hsel, prototypeLoop_calls]
  by_cases hall : cluster = none ∨ cluster = some prog.rootModule
  · have hf : (fun m : Module => !decide (decide (cluster = none ∨
          cluster = some prog.rootModule) = false ∧ cluster ≠ some m.id)) =
        fun m => decide (cluster = none ∨ cluster = some prog.rootModule ∨
          cluster = some m.id) := by
      funext m
      simp [hall]
      tauto
    rw [hf]
    by_cases hp : proc = none
    · by_cases hg : prog.globals = []
      · refine ⟨[], [.print prog.rootModule], ?_, ?_⟩
        · intro c hc p
          simp at hc
          subst hc
          simp
        · simp [hall, hp, hg, ProgEmitter.print]
      · refine ⟨prog.globals.map EmitCall.addGlobal ++ [.print prog.rootModule],
          [.print prog.rootModule], ?_, ?_⟩
        · intro c hc p
          simp at hc
          rcases hc with ⟨n, _, rfl⟩ | rfl <;> simp
        · simp [hall, hp, hg, ProgEmitter.print, foldl_addGlobal_calls]
    · refine ⟨[], [.print prog.rootModule], ?_, ?_⟩
      · intro c hc p
        simp at hc
        subst hc
        simp
      · simp [hall, hp, ProgEmitter.print]
  · have hf : (fun m : Module => !decide (decide (cluster = none ∨
          cluster = some prog.rootModule) = false ∧ cluster ≠ some m.id)) =
        fun m => decide (cluster = none ∨ cluster = some prog.rootModule ∨
          cluster = some m.id) := by
      have h1 : cluster ≠ none := fun h => hall (Or.inl h)
      have h2 : cluster ≠ some prog.rootModule := fun h => hall (Or.inr h)
      funext m
      simp [h1, h2]
    rw [hf]
    refine ⟨[], [], ?_, ?_⟩
    · intro c hc
      simp at hc
    · simp [hall, prototypeLoop_calls]

theorem no_addPrototype_after_generateCode (X D pre post : List EmitCall) (p q : UserProc)
    (hX : ∀ r, EmitCall.generateCode r ∉ X) (hD : ∀ r, EmitCall.addPrototype r ∉ D)
    (h : X ++ D = pre ++ EmitCall.generateCode p :: post) : EmitCall.addPrototype q ∉ post := by
  intro hq
  rcases List.append_eq_append_iff.mp h with ⟨a, _, h2⟩ | ⟨c, h1, h2⟩
  · exact hD q (by rw [h2]; simp [hq])
  · cases c with
    | nil =>
      simp at h2
      exact hD q (by rw [← h2]; simp [hq])
    | cons x c =>
      simp at h2
      exact hX p (by rw [h1, ← h2.1]; simp)

theorem prototypeFold_buffer (txt : ProgText) (fs : List Function) (g : ProgEmitter) :
    (fs.foldl (prototypeStep txt) g).m_lines =
      g.m_lines ++ ((fs.filter fun f => !f.isLib).map fun f => txt.prototypeLine f.id) ∧
    (fs.foldl (prototypeStep txt) g).written = g.written := by
  induction fs generalizing g with
  | nil => simp
  | cons f fs ih =>
    rw [List.foldl_cons, (ih _).1, (ih _).2]
    cases hl : f.isLib <;> simp [prototypeStep, hl, ProgEmitter.addPrototype]

theorem prototypeLoop_buffer (txt : ProgText) (ms : List Module) (g : ProgEmitter) :
    (ms.foldl (fun acc module => module.functions.foldl (prototypeStep txt) acc) g).m_lines =
      g.m_lines ++ (ms.flatMap fun m =>
        (m.functions.filter fun f => !f.isLib).map fun f => txt.prototypeLine f.id) ∧
    (ms.foldl (fun acc module => module.functions.foldl (prototypeStep txt) acc) g).written =
      g.written := by
  induction ms generalizing g with
  | nil => simp
  | cons m ms ih =>
    rw [List.foldl_cons, (ih _).1, (ih _).2, (prototypeFold_buffer txt m.functions g).1,
      (prototypeFold_buffer txt m.functions g).2]
    simp [List.flatMap_cons]

theorem foldl_addGlobal_buffer (txt : ProgText) (ns : List String) (g : ProgEmitter) :
    (ns.foldl (ProgEmitter.addGlobal txt) g).m_lines = g.m_lines ++ ns.map txt.globalLine ∧
    (ns.foldl (ProgEmitter.addGlobal txt) g).written = g.written := by
  induction ns generalizing g with
  | nil => simp
  | cons n ns ih =>
    rw [List.foldl_cons, (ih _).1, (ih _).2]
    simp [ProgEmitter.addGlobal]

theorem definitionFold_written (txt : ProgText) (prog : Prog) (proc : Option UserProc)
    (module : Nat) (fs : List Function) (g : ProgEmitter) :
    (fs.foldl (definitionStep txt prog proc module) g).written =
      g.written ++ (fs.filter fun f =>
          !f.isLib && prog.isDecoded f.id && decide (proc = none ∨ proc = some f.id)).map
        fun f => (module, txt.procLines f.id) := by
  induction fs generalizing g with
  | nil => simp
  | cons f fs ih =>
    rw [List.foldl_cons, ih]
    cases hl : f.isLib
    · cases hd : prog.isDecoded f.id
      · simp [definitionStep, hl, hd]
      · cases proc with
        | none =>
          simp [definitionStep, hl, hd, ProgEmitter.generateCode, ProgEmitter.print]
        | some p =>
          by_cases hp : p = f.id
          · simp [definitionStep, hl, hd, hp, ProgEmitter.generateCode, ProgEmitter.print]
          · simp [definitionStep, hl, hd, hp, ProgEmitter.generateCode, ProgEmitter.print]
    · simp [definitionStep, hl]

theorem definitionLoop_written (txt : ProgText) (prog : Prog) (proc : Option UserProc)
    (sel : Module → Bool) (ms : List Module) (g : ProgEmitter) :
    (ms.foldl (fun acc module =>
        if sel module then acc
        else module.functions.foldl (definitionStep txt prog proc module.id) acc) g).written =
      g.written ++ (ms.filter fun m => !sel m).flatMap fun m =>
        (m.functions.filter fun f =>
          !f.isLib && prog.isDecoded f.id && decide (proc = none ∨ proc = some f.id)).map
        fun f => (m.id, txt.procLines f.id) := by
  induction ms generalizing g with
  | nil => simp
  | cons m ms ih =>
    rw [List.foldl_cons, ih]
    cases hs : sel m
    · simp [hs, definitionFold_written, List.flatMap_cons]
    · simp [hs]

theorem generateCode_written (txt : ProgText) (prog : Prog) (cluster : Option Nat)
    (proc : Option UserProc) :
    (generateCode txt prog cluster proc {}).written =
      (if cluster = none ∨ cluster = some prog.rootModule then
        (if proc = none ∧ prog.globals ≠ [] then
          [(prog.rootModule, prog.globals.map txt.globalLine)] else []) ++
        [(prog.rootModule,
          (prog.moduleList.flatMap fun m =>
            (m.functions.filter fun f => !f.isLib).map fun f => txt.prototypeLine f.id) ++
          [""])]
      else []) ++
      (prog.moduleList.filter fun m =>
          decide (cluster = none ∨ cluster = some prog.rootModule ∨
            cluster = some m.id)).flatMap fun m =>
        (m.functions.filter fun f =>
          !f.isLib && prog.isDecoded f.id && decide (proc = none ∨ proc = some f.id)).map
        fun f => (m.id, txt.procLines f.id) := by
  have hsel : ∀ (ga : Bool) (g : ProgEmitter),
      (prog.moduleList.foldl
        (fun acc module =>
          if !ga ∧ cluster ≠ some module.id then acc
          else module.functions.foldl (definitionStep txt prog proc module.id) acc) g).written =
      g.written ++ (prog.moduleList.filter fun m =>
          !decide (ga = false ∧ cluster ≠ some m.id)).flatMap fun m =>
        (m.functions.filter fun f =>
          !f.isLib && prog.isDecoded f.id && decide (proc = none ∨ proc = some f.id)).map
        fun f => (m.id, txt.procLines f.id) := by
    intro ga g
    rw [← definitionLoop_written txt prog proc
      (fun m => decide (ga = false ∧ cluster ≠ some m.id)) prog.moduleList g]
    congr 2
    funext acc m
    simp
  unfold generateCode
  simp only [hsel]
  by_cases hall : cluster = none ∨ cluster = some prog.rootModule
  · have hf : (fun m : Module => !decide (decide (cluster = none ∨
          cluster = some prog.rootModule) = false ∧ cluster ≠ some m.id)) =
        fun m => decide (cluster = none ∨ cluster = some prog.rootModule ∨
          cluster = some m.id) := by
      funext m
      simp [hall]
      tauto
    rw [hf]
    by_cases hp : proc = none
    · by_cases hg : prog.globals = []
      · simp [hall, hp, hg, ProgEmitter.print, prototypeLoop_buffer]
      · simp [hall, hp, hg, ProgEmitter.print, prototypeLoop_buffer, foldl_addGlobal_buffer]
    · simp [hall, hp, ProgEmitter.print, prototypeLoop_buffer]
  · have hf : (fun m : Module => !decide (decide (cluster = none ∨
          cluster = some prog.rootModule) = false ∧ cluster ≠ some m.id)) =
        fun m => decide (cluster = none ∨ cluster = some prog.rootModule ∨
          cluster = some m.id) := by
      have h1 : cluster ≠ none := fun h => hall (Or.inl h)
      have h2 : cluster ≠ some prog.rootModule := fun h => hall (Or.inr h)
      funext m
      simp [h1, h2]
    rw [hf]
    simp [hall, prototypeLoop_buffer]

/-- C15 (as stated) fails in two ways. When the requested module is the root module `0`, a
definition is generated and written for procedure `2`, which lies in module `5` and not in
the requested module. When the module `5`, which is not the root module, is requested, the
prototypes are put in the line buffer but `generateCode(proc)` clears the buffer before
anything is printed: the writer receives the lines of the definition only, and the
prototype of the non-library procedure `2` is not emitted. -/
theorem generateCode_request_counterexample :
    EmitCall.generateCode 2 ∈ (generateCode sampleProgText twoModules (some 0) none {}).calls ∧
    (∀ m ∈ twoModules.moduleList, m.id = 0 → ∀ f ∈ m.functions, f.id ≠ 2) ∧
    (generateCode sampleProgText twoModules (some 0) none {}).written =
      [(0, ["void proc1();", "void proc2();", ""]), (0, ["body"]), (5, ["body"])] ∧
    (generateCode sampleProgText twoModules (some 5) none {}).calls =
      [.addPrototype 1, .addPrototype 2, .generateCode 2, .print 5] ∧
    (generateCode sampleProgText twoModules (some 5) none {}).written = [(5, ["body"])] := by
  decide

/-- C15 (amended): what `generateCode(prog, cluster, proc)` hands to the writer. When
`cluster` is null or the root module, first the globals (for a null `proc`, when there are
any), then one block for the root module with the prototype of every non-library function
of every module, in order, and an empty line, and after it one block for each definition;
the definitions are those of the non-library, decoded procedures of all modules that equal
`proc` when `proc` is given. When `cluster` is another module, no prototype is written:
the blocks are the definitions of the non-library, decoded procedures of the module
`cluster` that equal `proc` when `proc` is given. In both cases `addPrototype` is called
for every non-library function of every module, no `addPrototype` follows a call of
`generateCode(proc)`, and `generateCode(p)` is called exactly for the procedures whose
definitions are written. -/
theorem generateCode_prototypes_then_definitions (txt : ProgText) (prog : Prog)
    (cluster : Option Nat) (proc : Option UserProc) :
    ((generateCode txt prog cluster proc {}).written =
      (if cluster = none ∨ cluster = some prog.rootModule then
        (if proc = none ∧ prog.globals ≠ [] then
          [(prog.rootModule, prog.globals.map txt.globalLine)] else []) ++
        [(prog.rootModule,
          (prog.moduleList.flatMap fun m =>
            (m.functions.filter fun f => !f.isLib).map fun f => txt.prototypeLine f.id) ++
          [""])]
      else []) ++
      (prog.moduleList.filter fun m =>
          decide (cluster = none ∨ cluster = some prog.rootModule ∨
            cluster = some m.id)).flatMap fun m =>
        (m.functions.filter fun f =>
          !f.isLib && prog.isDecoded f.id && decide (proc = none ∨ proc = some f.id)).map
        fun f => (m.id, txt.procLines f.id)) ∧
    (∀ m ∈ prog.moduleList, ∀ f ∈ m.functions, f.isLib = false →
      EmitCall.addPrototype f.id ∈ (generateCode txt prog cluster proc {}).calls) ∧
    (∀ pre post p q,
      (generateCode txt prog cluster proc {}).calls = pre ++ EmitCall.generateCode p :: post →
      EmitCall.addPrototype q ∉ post) ∧
    (∀ p, EmitCall.generateCode p ∈ (generateCode txt prog cluster proc {}).calls ↔
      ∃ m ∈ prog.moduleList, ∃ f ∈ m.functions, f.id = p ∧ f.isLib = false ∧
        prog.isDecoded p = true ∧
        (cluster = none ∨ cluster = some prog.rootModule ∨ cluster = some m.id) ∧
        (proc = none ∨ proc = some p)) := by
  refine ⟨generateCode_written txt prog cluster proc, ?_⟩
  obtain ⟨pre, mid, hpm, hcalls⟩ := generateCode_calls txt prog cluster proc
  rw [hcalls]
  have hpre : ∀ c ∈ pre, ∀ p, c ≠ .addPrototype p ∧ c ≠ .generateCode p :=
    fun c hc => hpm c (List.mem_append.mpr (Or.inl hc))
  have hmid : ∀ c ∈ mid, ∀ p, c ≠ .addPrototype p ∧ c ≠ .generateCode p :=
    fun c hc => hpm c (List.mem_append.mpr (Or.inr hc))
  refine ⟨?_, ?_, ?_⟩
  · intro m hm f hf hl
    simp only [List.mem_append, List.mem_flatMap, List.mem_map, List.mem_filter]
    exact Or.inl (Or.inl (Or.inr ⟨m, hm, f, ⟨hf, by simp [hl]⟩, rfl⟩))
  · intro pre2 post p q h
    refine no_addPrototype_after_generateCode _ _ pre2 post p q ?_ ?_ h
    · intro r hr
      simp only [List.mem_append, List.mem_flatMap, List.mem_map] at hr
      rcases hr with (hr | ⟨m, _, f, _, hr⟩) | hr
      · exact (hpre _ hr r).2 rfl
      · cases hr
      · exact (hmid _ hr r).2 rfl
    · intro r hr
      simp only [List.mem_flatMap, List.mem_cons, List.mem_singleton, List.not_mem_nil,
        or_false] at hr
      obtain ⟨m, _, f, _, hr | hr⟩ := hr <;> cases hr
  · intro p
    simp only [List.mem_append, List.mem_flatMap, List.mem_map, List.mem_filter,
      List.mem_cons, List.mem_singleton, List.not_mem_nil, or_false]
    constructor
    · rintro (((h | ⟨m, _, f, _, h⟩) | h) | ⟨m, ⟨hm, hsel⟩, f, ⟨hf, hcond⟩, h | h⟩)
      · exact absurd rfl (hpre _ h p).2
      · cases h
      · exact absurd rfl (hmid _ h p).2
      · injection h with h
        simp only [Bool.and_eq_true, Bool.not_eq_true', decide_eq_true_eq] at hcond hsel
        exact ⟨m, hm, f, hf, h.symm, hcond.1.1, h ▸ hcond.1.2, hsel, h ▸ hcond.2⟩
      · cases h
    · rintro ⟨m, hm, f, hf, rfl, hl, hd, hsel, hp⟩
      refine Or.inr ⟨m, ⟨hm, by simpa using hsel⟩, f, ⟨hf, ?_⟩, Or.inl rfl⟩
      simp only [Bool.and_eq_true, Bool.not_eq_true', decide_eq_true_eq]
      exact ⟨⟨hl, hd⟩, hp⟩

/-! ### Declarations (`appendTypeIdent`) -/

/-- C18: `appendTypeIdent` writes a pointer to an array of `T` as the text of `T`
followed by ` *name`, and an array of a non-array, non-pointer, non-void type `T` as the
C type of `T`, a blank, the name, and `[N]` for `N` elements or `[]` for an unbounded
array. -/
theorem appendTypeIdent_pointer_and_array (env : EmitEnv) (str name : String)
    (T : SharedType) (length : Option Nat)
    (hname : name ≠ "") (harr : T.isArray = false) (hptr : T.isPointer = false)
    (hvoid : T.isVoid = false) :
    appendTypeIdent env str (some (.pointer (.array T length))) name =
      str ++ env.getCtype T ++ " *" ++ name ∧
    appendTypeIdent env str (some (.array T length)) name =
      str ++ env.getCtype T ++ " " ++ name ++ "[" ++
        (match length with
         | some N => number N 10
         | none => "") ++ "]" := by
  cases length <;> cases T <;>
    simp_all [appendTypeIdent, appendTypeIdentOf, appendType, SharedType.isArray,
      SharedType.isPointer, SharedType.isVoid]

/-- With the sample environment: a pointer to an array of integers is declared
`int *p`, an array of four integers `int a[4]`. -/
theorem appendTypeIdent_pointer_and_array_witness :
    appendTypeIdent sampleEmitEnv "" (some (.pointer (.array (.integer 32 true) (some 4))))
      "a" = "int *a" ∧
    appendTypeIdent sampleEmitEnv "" (some (.array (.integer 32 true) (some 4))) "a" =
      "int a[4]" :=
  appendTypeIdent_pointer_and_array sampleEmitEnv "" "a" (.integer 32 true) (some 4)
    (by decide) (by decide) (by decide) (by decide)

/-! ### Assignments: `++`, `--`, `+=`, `-=` -/

theorem Exp.ne_binary_self (op : OPER) (lhs b : Exp) : lhs ≠ .binary op lhs b := by
  intro h
  have h2 := congrArg sizeOf h
  simp at h2
  omega

theorem bitfieldParts_of_not_opAt (lhs : Exp) (h : lhs.getOper ≠ .opAt) :
    bitfieldParts lhs = none := by
  unfold bitfieldParts
  split
  · exact absurd rfl h
  · rfl

/-- C14: for an assignment `lhs := lhs + b` or `lhs := lhs - b` with a type, `lhs` not a
bitfield (and neither side mentioning `%pc`), `addAssignmentStatement` appends one line:
the text of the left side followed by `++;` respectively `--;` when `b` is the integer
constant 1, or when the type of the assignment is a pointer and `b` is an integer constant
with `8 * b` equal to the size of the pointer; in every other case the text of the left
side, ` += ` respectively ` -= `, the text of `b` and `;`. -/
theorem assignment_increment_or_short_form (env : EmitEnv) (g : CCodeGenerator)
    (t : SharedType) (lhs b : Exp) (op : OPER) (tl : String)
    (hop : op = .opPlus ∨ op = .opMinus)
    (hpc : lhs.getOper ≠ .opPC)
    (hsearch : Exp.search (.terminal .opPC) (.binary op lhs b) = false)
    (hat : lhs.getOper ≠ .opAt)
    (hl : assignmentLeftText env (indent "" g.m_indent) ⟨some t, lhs, .binary op lhs b⟩ =
      some tl)
    (hb : ∀ K c, b = .intConst K c → -268435456 ≤ K ∧ K < 268435456) :
    addAssignmentStatement env g ⟨some t, lhs, .binary op lhs b⟩ =
      if (match b with
          | .intConst K _ => decide (K = 1 ∨ (t.isPointer = true ∧ 8 * K = env.getSize t))
          | _ => false) = true then
        some (appendLine g (tl ++ (if op = .opPlus then "++;" else "--;")))
      else
        (appendExp env (tl ++ (if op = .opPlus then " += " else " -= ")) b env.prec.Assign
          false).map fun s => appendLine g (s ++ ";") := by
  unfold addAssignmentStatement
  simp only [hpc, hsearch, if_false, Bool.false_eq_true, Exp.ne_binary_self op lhs b,
    bitfieldParts_of_not_opAt lhs hat, hl, Option.some_bind]
  unfold assignmentTail
  simp only [hop, true_and, if_true]
  cases b with
  | intConst K c =>
    obtain ⟨h1, h2⟩ := hb K c rfl
    by_cases hK : K = 1
    · simp [useIncrement, hK]
    · cases hp : t.isPointer
      · simp [useIncrement, hK, hp]
      · have hm : mulInt32 K 8 = some (K * 8) := by
          unfold mulInt32
          rw [if_pos ⟨by omega, by omega⟩]
        by_cases hs : 8 * K = env.getSize t
        · have hs2 : env.getSize t = K * 8 := by omega
          simp [useIncrement, hK, hp, hm, hs, hs2]
        · have hs2 : ¬ env.getSize t = K * 8 := by omega
          simp [useIncrement, hK, hp, hm, hs, hs2]
  | _ => simp [useIncrement]

/-- With the sample environment: `p := p + 4` for a pointer `p` is written `p++;`. -/
theorem assignment_increment_or_short_form_witness :
    addAssignmentStatement sampleEmitEnv {}
      ⟨some (.pointer .char), .unary .opLocal (.strConst "p"),
        .binary .opPlus (.unary .opLocal (.strConst "p")) (.intConst 4 false)⟩ =
      some (appendLine {} "p++;") :=
  assignment_increment_or_short_form sampleEmitEnv {} (.pointer .char)
    (.unary .opLocal (.strConst "p")) (.intConst 4 false) .opPlus "p"
    (by decide) (by decide) (by decide) (by decide) (by decide)
    (by simp)

/-! ### Switch headers: case labels -/

theorem addCaseCondOption_constInt (env : EmitEnv) (g : CCodeGenerator) (v : Int) :
    addCaseCondOption env g (Exp.constInt v) =
      some { m_lines := g.m_lines ++
               [indent "" (g.m_indent - 1) ++ "case " ++ intConstText v false false ++ ":"],
             m_usedLabels := g.m_usedLabels,
             m_indent := g.m_indent } := by
  simp [addCaseCondOption, Exp.constInt, appendExp, appendIntConst, appendLine,
    String.append_assoc]

theorem wrapInt32_of_range (z : Int) (h1 : -2147483648 ≤ z) (h2 : z < 2147483648) :
    wrapInt32 z = z := by
  unfold wrapInt32
  omega

theorem caseArms_indent (psi : SwitchInfo) (succCode : Nat → CCodeGenerator → CCodeGenerator)
    (g : CCodeGenerator) (hind : ∀ i g0, (succCode i g0).m_indent = g0.m_indent) :
    ∀ n, (caseArms psi succCode n g).m_indent = g.m_indent
  | 0 => rfl
  | n + 1 => by
    unfold caseArms
    rw [hind]
    exact caseArms_indent psi succCode g hind n

theorem caseLoop_arms (env : EmitEnv) (psi : SwitchInfo)
    (succCode : Nat → CCodeGenerator → CCodeGenerator) (k : Nat) (g : CCodeGenerator)
    (hf : psi.isFortran = false)
    (hrange : -2147483648 ≤ psi.lowerBound ∧ psi.lowerBound + k ≤ 2147483648) :
    caseLoop env psi succCode k g = some (caseArms psi succCode k g) := by
  suffices h : ∀ n, n ≤ k →
      caseLoop env psi succCode n g = some (caseArms psi succCode n g) from h k (Nat.le_refl k)
  intro n
  induction n with
  | zero =>
    intro _
    simp [caseLoop, caseArms]
  | succ n ih =>
    intro hn
    have h1 := ih (by omega)
    have hval : caseVal psi n = Exp.constInt (psi.lowerBound + n) := by
      unfold caseVal
      rw [hf, wrapInt32_of_range _ (by omega) (by omega)]
      rfl
    unfold caseLoop at h1 ⊢
    rw [List.range_succ, List.foldlM_append, h1]
    simp only [Option.some_bind, List.foldlM_cons, List.foldlM_nil, hval,
      addCaseCondOption_constInt, Option.map_some', Option.bind_eq_bind]
    rfl

theorem caseArms_lines (psi : SwitchInfo)
    (succCode : Nat → CCodeGenerator → CCodeGenerator) (k : Nat) (g : CCodeGenerator)
    (lines : Nat → List String)
    (hind : ∀ i g0, (succCode i g0).m_indent = g0.m_indent)
    (hlines : ∀ i g0, g0.m_indent = g.m_indent →
      (succCode i g0).m_lines = g0.m_lines ++ lines i) :
    (caseArms psi succCode k g).m_lines = g.m_lines ++ (List.range k).flatMap fun i =>
      (indent "" (g.m_indent - 1) ++ "case " ++
        intConstText (psi.lowerBound + i) false false ++ ":") :: lines i := by
  suffices h : ∀ n, (caseArms psi succCode n g).m_lines =
      g.m_lines ++ (List.range n).flatMap fun i =>
        (indent "" (g.m_indent - 1) ++ "case " ++
          intConstText (psi.lowerBound + i) false false ++ ":") :: lines i from h k
  intro n
  induction n with
  | zero => simp [caseArms]
  | succ n ih =>
    have hi := caseArms_indent psi succCode g hind n
    unfold caseArms
    rw [hlines n _ (by simpa [appendLine] using hi)]
    simp only [appendLine]
    rw [ih, hi, List.range_succ, List.flatMap_append]
    simp [List.append_assoc]

/-- C16: for a switch header that is not Fortran-style with `k` out-edges, the loop of
`generateCode_Branch` over the out-edges returns, and what it writes is, for
`i = 0, ..., k-1` in this order, the line `case <lowerBound + i>:` followed by the code
for out-edge `i`, which is `succCode i` run on the generator right after that label: the
result is the generator `caseArms`. When the code for an out-edge leaves the indentation
as it was and appends the lines `lines i`, the text is the `k` labels in increasing order
of the index, each followed by the lines of its out-edge. -/
theorem caseLoop_emits_case_labels (env : EmitEnv) (psi : SwitchInfo)
    (succCode : Nat → CCodeGenerator → CCodeGenerator) (k : Nat) (g : CCodeGenerator)
    (hf : psi.isFortran = false)
    (hrange : -2147483648 ≤ psi.lowerBound ∧ psi.lowerBound + k ≤ 2147483648) :
    caseLoop env psi succCode k g = some (caseArms psi succCode k g) ∧
    (∀ i, caseArms psi succCode (i + 1) g =
      succCode i
        { m_lines := (caseArms psi succCode i g).m_lines ++
            [indent "" ((caseArms psi succCode i g).m_indent - 1) ++ "case " ++
              intConstText (psi.lowerBound + i) false false ++ ":"],
          m_usedLabels := (caseArms psi succCode i g).m_usedLabels,
          m_indent := (caseArms psi succCode i g).m_indent }) ∧
    (∀ lines : Nat → List String,
      (∀ i g0, (succCode i g0).m_indent = g0.m_indent) →
      (∀ i g0, g0.m_indent = g.m_indent → (succCode i g0).m_lines = g0.m_lines ++ lines i) →
      (caseArms psi succCode k g).m_lines = g.m_lines ++ (List.range k).flatMap fun i =>
        (indent "" (g.m_indent - 1) ++ "case " ++
          intConstText (psi.lowerBound + i) false false ++ ":") :: lines i) :=
  ⟨caseLoop_arms env psi succCode k g hf hrange, fun _ => rfl,
    fun lines hind hlines => caseArms_lines psi succCode k g lines hind hlines⟩

set_option maxRecDepth 100000 in
/-- With the sample environment: three out-edges give `case 0:`, `case 1:`, `case 2:`,
each followed by the goto of its out-edge. -/
theorem caseLoop_emits_case_labels_witness :
    caseLoop sampleEmitEnv sampleSwitch gotoSuccessors 3 { m_indent := 1 } =
      some (caseArms sampleSwitch gotoSuccessors 3 { m_indent := 1 }) ∧
    (caseArms sampleSwitch gotoSuccessors 3 { m_indent := 1 }).m_lines =
      ["case 0:", "    goto bb0x100;", "case 1:", "    goto bb0x110;", "case 2:",
        "    goto bb0x120;"] :=
  ⟨(caseLoop_emits_case_labels sampleEmitEnv sampleSwitch gotoSuccessors 3 { m_indent := 1 }
      rfl (by decide)).1, by decide⟩

/-- C17 (as stated) fails: for a switch on `v` with lower bound 0 whose table leads to the
blocks at `0x100`, `0x110`, `0x120` and whose default target is the block at `0x130`, the
case header has no line `default:`, neither when the out-edges are the three of the table
nor when the default target is the fourth out-edge; the fourth out-edge gets the label
`case 3:`. `addCaseCondElse`, which writes `default:`, is not called. -/
theorem case_header_without_default :
    (generateCode_Branch_case sampleEmitEnv sampleSwitch gotoSuccessors 3 {}).map
        (fun g => g.m_lines) =
      some ["switch(v) \x7b", "case 0:", "    goto bb0x100;", "case 1:", "    goto bb0x110;",
        "case 2:", "    goto bb0x120;", "\x7d"] ∧
    (generateCode_Branch_case sampleEmitEnv sampleSwitch gotoSuccessors 4 {}).map
        (fun g => g.m_lines) =
      some ["switch(v) \x7b", "case 0:", "    goto bb0x100;", "case 1:", "    goto bb0x110;",
        "case 2:", "    goto bb0x120;", "case 3:", "    goto bb0x130;", "\x7d"] ∧
    (addCaseCondElse { m_indent := 1 }).m_lines = ["default:"] := by
  decide

theorem indent_foldl_data (l : List Nat) (str : String) :
    (l.foldl (fun acc _ => acc ++ "    ") str).data =
      str.data ++ List.replicate (4 * l.length) ' ' := by
  induction l generalizing str with
  | nil => simp
  | cons a l ih =>
    rw [List.foldl_cons, ih, String.data_append, List.length_cons, Nat.mul_succ,
      List.append_assoc]
    congr 1

theorem indent_data (n : Int) : (indent "" n).data = List.replicate (4 * n.toNat) ' ' := by
  unfold indent
  rw [indent_foldl_data]
  simp

theorem dropWhile_blank_replicate (m : Nat) (c : Char) (cs : List Char) (hc : c ≠ ' ') :
    (List.replicate m ' ' ++ c :: cs).dropWhile (fun x => x == ' ') = c :: cs := by
  induction m with
  | zero => simp [List.dropWhile_cons, hc]
  | succ m ih => simpa [List.replicate_succ, List.dropWhile_cons] using ih

theorem isDefaultLine_of_first (n : Int) (c : Char) (cs : List Char) (s : String)
    (hs : s.data = (indent "" n).data ++ c :: cs) (hc : c ≠ ' ') (hd : c ≠ 'd') :
    isDefaultLine s = false := by
  unfold isDefaultLine
  rw [hs, indent_data, dropWhile_blank_replicate _ _ _ hc]
  have e : ("default:" : String).data = 'd' :: "efault:".data := rfl
  rw [e]
  simp [hd]

/-- C17 (amended): the case header that `generateCode_Branch` writes has no arm `default:`.
When the text of the switch expression is `cond` and the code for out-edge `i` leaves the
indentation as it was and appends the lines `lines i`, the lines written are the header
`switch(cond) \x7b`, then for every out-edge `i = 0, ..., k-1` the label
`case <lowerBound + i>:` and the lines of the out-edge, then the closing bracket; neither
the header nor a label nor the closing bracket is a line `default:`, so every out-edge,
also one that leads to the default target of the jump, is a numbered case. -/
theorem case_header_arms_are_numbered (env : EmitEnv) (psi : SwitchInfo)
    (succCode : Nat → CCodeGenerator → CCodeGenerator) (k : Nat) (g : CCodeGenerator)
    (cond : String) (lines : Nat → List String)
    (hf : psi.isFortran = false)
    (hrange : -2147483648 ≤ psi.lowerBound ∧ psi.lowerBound + k ≤ 2147483648)
    (hhead : appendExp env (indent "" g.m_indent ++ "switch(") psi.switchExp env.prec.None
      false = some (indent "" g.m_indent ++ "switch(" ++ cond))
    (hind : ∀ i g0, (succCode i g0).m_indent = g0.m_indent)
    (hlines : ∀ i g0, g0.m_indent = g.m_indent + 1 →
      (succCode i g0).m_lines = g0.m_lines ++ lines i) :
    (generateCode_Branch_case env psi succCode k g).map (fun gk => gk.m_lines) =
      some (g.m_lines ++ [indent "" g.m_indent ++ "switch(" ++ cond ++ ") \x7b"] ++
        ((List.range k).flatMap fun i =>
          (indent "" g.m_indent ++ "case " ++
            intConstText (psi.lowerBound + i) false false ++ ":") :: lines i) ++
        [indent "" g.m_indent ++ "\x7d"]) ∧
    isDefaultLine (indent "" g.m_indent ++ "switch(" ++ cond ++ ") \x7b") = false ∧
    (∀ i : Nat, isDefaultLine (indent "" g.m_indent ++ "case " ++
      intConstText (psi.lowerBound + i) false false ++ ":") = false) ∧
    isDefaultLine (indent "" g.m_indent ++ "\x7d") = false := by
  refine ⟨?_, ?_, ?_, ?_⟩
  · have hi : g.m_indent + 1 - 1 = g.m_indent := by omega
    obtain ⟨g1, hg1⟩ : ∃ g1 : CCodeGenerator, g1 =
        { m_lines := g.m_lines ++ [indent "" g.m_indent ++ "switch(" ++ cond ++ ") \x7b"],
          m_usedLabels := g.m_usedLabels,
          m_indent := g.m_indent + 1 } := ⟨_, rfl⟩
    have hh : addCaseCondHeader env g psi.switchExp = some g1 := by
      unfold addCaseCondHeader
      rw [hhead, hg1]
      rfl
    have h1i : g1.m_indent = g.m_indent + 1 := by rw [hg1]
    have hloop := caseLoop_arms env psi succCode k g1 hf hrange
    have hl := caseArms_lines psi succCode k g1 lines hind
      (fun i g0 h0 => hlines i g0 (by rw [h0, h1i]))
    have hki := caseArms_indent psi succCode g1 hind k
    unfold generateCode_Branch_case
    rw [hh]
    simp only [Option.some_bind, hloop, Option.map_some']
    congr 1
    simp only [addCaseCondEnd, appendLine]
    rw [hl, hki, h1i, hi, hg1]
  · exact isDefaultLine_of_first g.m_indent 's' ("witch(" ++ cond ++ ") \x7b").data _
      (by simp [String.data_append]) (by decide) (by decide)
  · intro i
    exact isDefaultLine_of_first g.m_indent 'c'
      ("ase " ++ intConstText (psi.lowerBound + i) false false ++ ":").data _
      (by simp [String.data_append]) (by decide) (by decide)
  · exact isDefaultLine_of_first g.m_indent '\x7d' [] _
      (by simp [String.data_append]) (by decide) (by decide)

set_option maxRecDepth 100000 in
/-- With the sample environment: the switch on `v` with four out-edges, the last of them to
the block at `0x130`, is written with the labels `case 0:` to `case 3:`. -/
theorem case_header_arms_are_numbered_witness :
    (generateCode_Branch_case sampleEmitEnv sampleSwitch gotoSuccessors 4 {}).map
        (fun gk => gk.m_lines) =
      some (({} : CCodeGenerator).m_lines ++
        [indent "" ({} : CCodeGenerator).m_indent ++ "switch(" ++ "v" ++ ") \x7b"] ++
        ((List.range 4).flatMap fun i =>
          (indent "" ({} : CCodeGenerator).m_indent ++ "case " ++
            intConstText (sampleSwitch.lowerBound + i) false false ++ ":") ::
            ["    goto bb0x" ++ number (256 + 16 * i) 16 ++ ";"]) ++
        [indent "" ({} : CCodeGenerator).m_indent ++ "\x7d"]) :=
  (case_header_arms_are_numbered sampleEmitEnv sampleSwitch gotoSuccessors 4 {} "v"
    (fun i => ["    goto bb0x" ++ number (256 + 16 * i) 16 ++ ";"])
    rfl (by decide) (by decide) (fun _ _ => rfl)
    (fun i g0 h0 => by
      have e : indent "" g0.m_indent = "    " := by
        rw [h0]
        decide
      simp [gotoSuccessors, addGoto, appendLine, e])).1

/-! ### The passes of `earlyDecompile` and `lateDecompile` -/

/-- C24: for a procedure whose status is below `EarlyDone`, `earlyDecompile` executes
exactly the passes `StatementInit`, `BBSimplify`, `Dominators`, `CallDefineUpdate`,
`GlobalConstReplace`, `PhiPlacement`, `BlockVarRename`, `StatementPropagation`, each once
and in this order (the trace grows by the entry of the function and these passes). -/
theorem earlyDecompile_passes (env : Environment) (s : DecompState) (proc : UserProc)
    (h : s.status proc < .PROC_EARLYDONE) :
    (earlyDecompile env s proc).trace =
      s.trace ++ [.call .earlyDecompile proc, .pass .StatementInit proc,
        .pass .BBSimplify proc, .pass .Dominators proc, .pass .CallDefineUpdate proc,
        .pass .GlobalConstReplace proc, .pass .PhiPlacement proc,
        .pass .BlockVarRename proc, .pass .StatementPropagation proc] := by
  have h2 : ¬ ProcStatus.PROC_EARLYDONE ≤ s.status proc := Nat.not_le.mpr h
  simp [earlyDecompile, DecompState.executePasses, DecompState.executePass, DecompState.log, h2]

/-- From the initial state, procedure `0` gets the eight passes. -/
theorem earlyDecompile_passes_witness :
    (earlyDecompile callChain DecompState.init 0).trace =
      DecompState.init.trace ++ [.call .earlyDecompile 0, .pass .StatementInit 0,
        .pass .BBSimplify 0, .pass .Dominators 0, .pass .CallDefineUpdate 0,
        .pass .GlobalConstReplace 0, .pass .PhiPlacement 0,
        .pass .BlockVarRename 0, .pass .StatementPropagation 0] :=
  earlyDecompile_passes callChain DecompState.init 0 (by decide)

/-- C25: for a procedure whose status is below `Final`, `lateDecompile` executes exactly
`LocalTypeAnalysis`, `PhiPlacement`, `BlockVarRename`, `StatementPropagation`,
`UnusedStatementRemoval`, `FinalParameterSearch`, then `ParameterSymbolMap` if and only if
the setting `nameParameters` is on, then `CallDefineUpdate`, `CallArgumentUpdate`,
`BranchAnalysis`, in this order. -/
theorem lateDecompile_passes (env : Environment) (s : DecompState) (proc : UserProc)
    (h : s.status proc < .PROC_FINAL) :
    (lateDecompile env s proc).trace =
      s.trace ++ [.call .lateDecompile proc, .pass .LocalTypeAnalysis proc,
        .pass .PhiPlacement proc, .pass .BlockVarRename proc,
        .pass .StatementPropagation proc, .pass .UnusedStatementRemoval proc,
        .pass .FinalParameterSearch proc] ++
      (if env.nameParameters = true then [.pass .ParameterSymbolMap proc] else []) ++
      [.pass .CallDefineUpdate proc, .pass .CallArgumentUpdate proc,
        .pass .BranchAnalysis proc] := by
  cases hn : env.nameParameters <;>
    simp [lateDecompile, DecompState.executePasses, DecompState.executePass,
      DecompState.log, h, hn]

/-- From the initial state with `nameParameters` off, procedure `0` gets the nine passes
without `ParameterSymbolMap`. -/
theorem lateDecompile_passes_witness :
    (lateDecompile callChain DecompState.init 0).trace =
      DecompState.init.trace ++ [.call .lateDecompile 0, .pass .LocalTypeAnalysis 0,
        .pass .PhiPlacement 0, .pass .BlockVarRename 0,
        .pass .StatementPropagation 0, .pass .UnusedStatementRemoval 0,
        .pass .FinalParameterSearch 0] ++
      (if callChain.nameParameters = true then [.pass .ParameterSymbolMap 0] else []) ++
      [.pass .CallDefineUpdate 0, .pass .CallArgumentUpdate 0, .pass .BranchAnalysis 0] :=
  lateDecompile_passes callChain DecompState.init 0 (by decide)

/-! ### Modules: `createFunction` and the address index -/

/-- C21: `createFunction(name, addr, lib)` returns the new function and appends it at the
end of the function list. For `addr` other than `Address::INVALID` and without entry in
the index, `getFunction(addr)` then gives the new function and the lookup of every other
address is unchanged; for `addr` equal to `Address::INVALID` the index is unchanged. -/
theorem createFunction_index (invalid : Address) (m : ModuleFunctions) (name : String)
    (addr : Address) (lib : Bool) (h : addr ≠ invalid → m.getFunction addr = none) :
    ∃ m2 : ModuleFunctions,
      m.createFunction invalid name addr lib = some (⟨lib, addr, name⟩, m2) ∧
      m2.m_functionList = m.m_functionList ++ [⟨lib, addr, name⟩] ∧
      (addr ≠ invalid →
        m2.getFunction addr = some ⟨lib, addr, name⟩ ∧
        ∀ a, a ≠ addr → m2.getFunction a = m.getFunction a) ∧
      (addr = invalid → ∀ a, m2.getFunction a = m.getFunction a) := by
  by_cases hi : addr = invalid
  · refine ⟨{ m with m_functionList := m.m_functionList ++ [⟨lib, addr, name⟩] }, ?_, rfl,
      fun hn => absurd hi hn, fun _ _ => rfl⟩
    simp [ModuleFunctions.createFunction, hi]
  · have hnone : m.m_labelsToProcs addr = none := h hi
    refine ⟨{ m_labelsToProcs := Function.update m.m_labelsToProcs addr (some ⟨lib, addr, name⟩),
              m_functionList := m.m_functionList ++ [⟨lib, addr, name⟩] }, ?_, rfl,
      fun _ => ⟨?_, ?_⟩, fun he => absurd he hi⟩
    · have hi2 : ¬ invalid = addr := fun e => hi e.symm
      simp [ModuleFunctions.createFunction, hi2, hnone]
    · simp [ModuleFunctions.getFunction]
    · intro a ha
      simp [ModuleFunctions.getFunction, Function.update_noteq ha]

/-- In a module without functions, with `Address::INVALID` taken as `2^32 - 1`, creating
`main` at `0x1000` puts it in the index and in the list. -/
theorem createFunction_index_witness :
    ∃ m2 : ModuleFunctions,
      emptyModule.createFunction 4294967295 "main" 4096 false =
        some (⟨false, 4096, "main"⟩, m2) ∧
      m2.m_functionList = emptyModule.m_functionList ++ [⟨false, 4096, "main"⟩] ∧
      ((4096 : Address) ≠ 4294967295 →
        m2.getFunction 4096 = some ⟨false, 4096, "main"⟩ ∧
        ∀ a, a ≠ 4096 → m2.getFunction a = emptyModule.getFunction a) ∧
      ((4096 : Address) = 4294967295 → ∀ a, m2.getFunction a = emptyModule.getFunction a) :=
  createFunction_index 4294967295 emptyModule "main" 4096 false (fun _ => rfl)

/-! ### Previously decoded indirect transfers -/

/-- C22 (as stated) fails: after `saveDecodedRTL(0x1000, 1)` and then
`saveDecodedRTL(0x1000, 2)` the entry stored for `0x1000` is the RTL `2`, not `1`. -/
theorem saveDecodedRTL_overwrites :
    ((emptyFrontEnd.saveDecodedRTL 4096 1).saveDecodedRTL 4096 2).m_previouslyDecoded 4096 =
      some 2 ∧
    ((emptyFrontEnd.saveDecodedRTL 4096 1).saveDecodedRTL 4096 2).m_previouslyDecoded 4096 ≠
      some 1 := by
  decide

/-- C22 (amended): the store holds at most one entry per address (it is a map), and saving
an RTL for an address that already has an entry replaces the entry: after
`saveDecodedRTL(a, r2)` following `saveDecodedRTL(a, r1)` the entry stored for `a` is
`r2`, and the entries of all other addresses are what they were. -/
theorem saveDecodedRTL_last_wins (fe : DefaultFrontEnd) (a : Address) (r1 r2 : Nat) :
    ((fe.saveDecodedRTL a r1).saveDecodedRTL a r2).m_previouslyDecoded a = some r2 ∧
    ∀ b, b ≠ a →
      ((fe.saveDecodedRTL a r1).saveDecodedRTL a r2).m_previouslyDecoded b =
        fe.m_previouslyDecoded b := by
  refine ⟨by simp [DefaultFrontEnd.saveDecodedRTL], fun b hb => ?_⟩
  simp [DefaultFrontEnd.saveDecodedRTL, Function.update_noteq hb]

/-! ### Address simplification -/

theorem addrSimplifyRoot_simplified (op : OPER) (e : Exp) (h : e.addrSimplified = true) :
    (addrSimplifyRoot (.unary op e)).addrSimplified = true := by
  unfold addrSimplifyRoot
  split
  · rename_i x heq
    injection heq with h1 h2
    subst h2
    unfold Exp.addrSimplified at h
    split at h <;> simp_all
  · rename_i x heq
    injection heq with h1 h2
    subst h2
    unfold Exp.addrSimplified at h
    split at h <;> simp_all
  · rename_i h1 h2
    unfold Exp.addrSimplified
    split
    · rename_i heq
      injection heq with h3 h4
      exact absurd (by rw [h3, h4]) (h1 _)
    · rename_i heq
      injection heq with h3 h4
      exact absurd (by rw [h3, h4]) (h2 _)
    · rename_i heq
      injection heq with h3 h4
      rw [← h4]
      exact h
    all_goals simp_all

theorem simplifyAddr_simplified (e : Exp) : (simplifyAddr e).addrSimplified = true := by
  induction e with
  | unary op e1 ih =>
    rw [simplifyAddr]
    exact addrSimplifyRoot_simplified op _ ih
  | binary op e1 e2 ih1 ih2 => simp [simplifyAddr, Exp.addrSimplified, ih1, ih2]
  | ternary op e1 e2 e3 ih1 ih2 ih3 => simp [simplifyAddr, Exp.addrSimplified, ih1, ih2, ih3]
  | typed t e1 ih => simp [simplifyAddr, Exp.addrSimplified, ih]
  | _ => simp [simplifyAddr, Exp.addrSimplified]

theorem addrSimplifyRoot_of_simplified (op : OPER) (x : Exp)
    (h : (Exp.unary op x).addrSimplified = true) :
    addrSimplifyRoot (.unary op x) = .unary op x := by
  unfold addrSimplifyRoot
  split
  · rename_i heq
    rw [heq] at h
    simp [Exp.addrSimplified] at h
  · rename_i heq
    rw [heq] at h
    simp [Exp.addrSimplified] at h
  · rfl

theorem addrSimplifyRoot_outer (op1 op2 : OPER) (y : Exp)
    (h : ¬ (op1 = .opAddrOf ∧ op2 = .opMemOf)) (h2 : ¬ (op1 = .opMemOf ∧ op2 = .opAddrOf)) :
    addrSimplifyRoot (.unary op1 (.unary op2 y)) = .unary op1 (.unary op2 y) := by
  unfold addrSimplifyRoot
  split
  · rename_i heq
    injection heq with h3 h4
    injection h4 with h5 _
    exact absurd ⟨h3, h5⟩ h
  · rename_i heq
    injection heq with h3 h4
    injection h4 with h5 _
    exact absurd ⟨h3, h5⟩ h2
  · rfl

theorem addrSimplifyRoot_not_unary (op : OPER) (x : Exp) (h : ∀ op2 y, x ≠ .unary op2 y) :
    addrSimplifyRoot (.unary op x) = .unary op x := by
  unfold addrSimplifyRoot
  split
  · rename_i heq
    injection heq with _ h4
    exact absurd h4 (h _ _)
  · rename_i heq
    injection heq with _ h4
    exact absurd h4 (h _ _)
  · rfl

theorem addrSimplifyRoot_cancel (opOuter opInner : OPER) (x : Exp)
    (hops : (opOuter = .opAddrOf ∧ opInner = .opMemOf) ∨
      (opOuter = .opMemOf ∧ opInner = .opAddrOf))
    (hx : x.addrSimplified = true) :
    addrSimplifyRoot (.unary opOuter (addrSimplifyRoot (.unary opInner x))) = x := by
  have step2 : addrSimplifyRoot (.unary opOuter (.unary opInner x)) = x := by
    rcases hops with ⟨h1, h2⟩ | ⟨h1, h2⟩ <;> subst h1 <;> subst h2 <;> rfl
  by_cases hu : ∃ op2 y, x = .unary op2 y
  · obtain ⟨op2, y, rfl⟩ := hu
    by_cases hred : (opInner = .opAddrOf ∧ op2 = .opMemOf) ∨
        (opInner = .opMemOf ∧ op2 = .opAddrOf)
    · -- the inner node is rewritten to `y`; the outer node is `x` again and stays
      have hinner : addrSimplifyRoot (.unary opInner (.unary op2 y)) = y := by
        rcases hred with ⟨h1, h2⟩ | ⟨h1, h2⟩ <;> subst h1 <;> subst h2 <;> rfl
      rw [hinner]
      have hops2 : opOuter = op2 := by
        rcases hops with ⟨h1, h2⟩ | ⟨h1, h2⟩ <;> rcases hred with ⟨h3, h4⟩ | ⟨h3, h4⟩ <;>
          simp_all
      rw [hops2]
      exact addrSimplifyRoot_of_simplified op2 y hx
    · rw [addrSimplifyRoot_outer opInner op2 y (fun h => hred (Or.inl h))
        (fun h => hred (Or.inr h))]
      exact step2
  · rw [addrSimplifyRoot_not_unary opInner x (fun op2 y h => hu ⟨op2, y, h⟩)]
    exact step2

theorem simplifyAddr_of_simplified (e : Exp) (h : e.addrSimplified = true) :
    simplifyAddr e = e := by
  induction e with
  | unary op e1 ih =>
    have h1 : e1.addrSimplified = true := by
      unfold Exp.addrSimplified at h
      split at h <;> simp_all [Exp.addrSimplified]
    rw [simplifyAddr, ih h1]
    exact addrSimplifyRoot_of_simplified op e1 h
  | binary op e1 e2 ih1 ih2 =>
    simp only [Exp.addrSimplified, Bool.and_eq_true] at h
    rw [simplifyAddr, ih1 h.1, ih2 h.2]
  | ternary op e1 e2 e3 ih1 ih2 ih3 =>
    simp only [Exp.addrSimplified, Bool.and_eq_true] at h
    rw [simplifyAddr, ih1 h.1.1, ih2 h.1.2, ih3 h.2]
  | typed t e1 ih =>
    simp only [Exp.addrSimplified] at h
    rw [simplifyAddr, ih h]
  | _ => rfl

/-- C23: the address simplifier rewrites `addrOf(memOf(e))` and `memOf(addrOf(e))` to what
it makes of `e`, which is `e` itself when `e` has nothing left to simplify. -/
theorem simplifyAddr_cancels (e : Exp) :
    simplifyAddr (.unary .opAddrOf (.unary .opMemOf e)) = simplifyAddr e ∧
    simplifyAddr (.unary .opMemOf (.unary .opAddrOf e)) = simplifyAddr e ∧
    (e.addrSimplified = true →
      simplifyAddr (.unary .opAddrOf (.unary .opMemOf e)) = e ∧
      simplifyAddr (.unary .opMemOf (.unary .opAddrOf e)) = e) := by
  have h1 : simplifyAddr (.unary .opAddrOf (.unary .opMemOf e)) = simplifyAddr e := by
    rw [simplifyAddr, simplifyAddr]
    exact addrSimplifyRoot_cancel _ _ _ (Or.inl ⟨rfl, rfl⟩) (simplifyAddr_simplified e)
  have h2 : simplifyAddr (.unary .opMemOf (.unary .opAddrOf e)) = simplifyAddr e := by
    rw [simplifyAddr, simplifyAddr]
    exact addrSimplifyRoot_cancel _ _ _ (Or.inr ⟨rfl, rfl⟩) (simplifyAddr_simplified e)
  refine ⟨h1, h2, fun hs => ?_⟩
  rw [h1, h2, simplifyAddr_of_simplified e hs]
  exact ⟨rfl, rfl⟩

/-! ### Recursion groups do not only grow -/

set_option maxRecDepth 100000 in
/-- C29: after the groups `{0, 1}` and `{2, 3}` have been created, procedure `0` has the
group `{0, 1}`. `addToRecursionGroup(0, group of 2)` gives it the group `{0, 2, 3}`, which
is not a superset of the group it had: `1` is no longer a member. -/
theorem addToRecursionGroup_drops_old_members :
    (createGroupOf (createGroupOf DecompState.init [0, 1]) [2, 3]).groupOf 0 = [0, 1] ∧
    (createGroupOf (createGroupOf DecompState.init [0, 1]) [2, 3]).groupOf 2 = [2, 3] ∧
    (createGroupOf (createGroupOf DecompState.init [0, 1]) [2, 3]).recursionGroup 2 = some 1 ∧
    (addToRecursionGroup (createGroupOf (createGroupOf DecompState.init [0, 1]) [2, 3])
      0 1).groupOf 0 = [0, 2, 3] ∧
    1 ∈ (createGroupOf (createGroupOf DecompState.init [0, 1]) [2, 3]).groupOf 0 ∧
    1 ∉ (addToRecursionGroup (createGroupOf (createGroupOf DecompState.init [0, 1]) [2, 3])
      0 1).groupOf 0 := by
  decide

/-! ### Pre-tested loops -/

set_option maxRecDepth 100000 in
/-- C30: the body of a pre-tested loop is the successor reached when the written condition
is true. The source does not keep this when the `BTHEN` successor is the loop follow and
the negation is not simplified away: it negates with `opNot`, which `appendExp` writes as
the complement `~`. For the header that branches on the local `c` to the follow `3`
(body `2`) the loop is written `while ( ~c)`; with `c = 1` the branch is taken, so control
goes to the follow, while the written condition has the value `-2` and holds. When the
`BTHEN` successor is not the follow the condition is written as it is, `while (c)`. In
general, whenever `simplify` keeps the value of the complement and the condition has a
value other than `0` and `-1`, the written condition holds although control leaves the
loop. -/
theorem pretested_negation_is_complement :
    (generateCode_Loop_pretested sampleEmitEnv ⟨1, .unary .opLocal (.strConst "c"), 3, 2⟩
        (some 3) (fun _ g => g) bodyLine (fun g => g) {}).map (fun g => g.m_lines) =
      some ["while ( ~c) \x7b", "    body2;", "\x7d"] ∧
    pretestedBody ⟨1, .unary .opLocal (.strConst "c"), 3, 2⟩ (some 3) = 2 ∧
    cValue (fun _ => 1) (.unary .opLocal (.strConst "c")) = some 1 ∧
    LoopHeader.successorFor ⟨1, .unary .opLocal (.strConst "c"), 3, 2⟩ true = 3 ∧
    cValue (fun _ => 1)
        (pretestedCond sampleEmitEnv ⟨1, .unary .opLocal (.strConst "c"), 3, 2⟩ (some 3)) =
      some (-2) ∧
    (generateCode_Loop_pretested sampleEmitEnv ⟨1, .unary .opLocal (.strConst "c"), 2, 3⟩
        (some 3) (fun _ g => g) bodyLine (fun g => g) {}).map (fun g => g.m_lines) =
      some ["while (c) \x7b", "    body2;", "\x7d"] ∧
    (∀ (env : EmitEnv) (σ : String → Int) (bb : LoopHeader) (follow : Nat) (v : Int),
      bb.succThen = follow → bb.succElse ≠ follow →
      cValue σ bb.cond = some v → v ≠ 0 → v ≠ -1 →
      cValue σ (env.simplify (.unary .opNot bb.cond)) = cValue σ (.unary .opNot bb.cond) →
      cValue σ (pretestedCond env bb (some follow)) = some (-v - 1) ∧ -v - 1 ≠ 0 ∧
      bb.successorFor (decide (v ≠ 0)) = follow ∧
      pretestedBody bb (some follow) ≠ follow) := by
  refine ⟨by decide, by decide, by decide, by decide, by decide, by decide, ?_⟩
  intro env σ bb follow v h1 h2 hv h0 hm hs
  refine ⟨?_, by omega, ?_, ?_⟩
  · simp only [pretestedCond, h1, if_true, hs, cValue, hv, Option.map_some']
  · simp [LoopHeader.successorFor, h0, h1]
  · simp [pretestedBody, h2]

/-! ### The fix-point loop of `middleDecompile` -/

theorem dropLast_cons_of_ne_nil {α : Type} (a : α) (l : List α) (h : l ≠ []) :
    (a :: l).dropLast = a :: l.dropLast := by
  cases l with
  | nil => exact absurd rfl h
  | cons b l => rfl

theorem getLast?_cons_of_ne_nil {α : Type} (a : α) (l : List α) (h : l ≠ []) :
    (a :: l).getLast? = l.getLast? := by
  cases l with
  | nil => exact absurd rfl h
  | cons b l => simp [List.getLast?_cons_cons]

theorem executePasses_eq (env : Environment) (p : UserProc) (ids : List PassID) :
    ∀ s : DecompState, s.executePasses env ids p =
      { s with trace := s.trace ++ ids.map fun id => Event.pass id p } := by
  induction ids with
  | nil => intro s; simp [DecompState.executePasses]
  | cons id rest ih =>
    intro s
    have h := ih (s.executePass env id p).1
    simp only [DecompState.executePasses, List.foldl_cons] at h ⊢
    rw [h]
    simp [DecompState.executePass, DecompState.log]

theorem count_call_pass_map (p q : UserProc) (fn : DriverFn) (ids : List PassID) :
    (ids.map fun id => Event.pass id p).count (.call fn q) = 0 := by
  apply List.count_eq_zero.mpr
  intro h
  obtain ⟨id, _, he⟩ := List.mem_map.mp h
  cases he

theorem lateDecompile_calls (env : Environment) (s : DecompState) (p : UserProc) :
    ∃ t, lateDecompile env s p = { s with trace := s.trace ++ t } ∧
      ∀ q, t.count (.call .lateDecompile q) = if q = p then 1 else 0 := by
  refine ⟨Event.call .lateDecompile p ::
    (((if s.status p < ProcStatus.PROC_FINAL then
        [PassID.LocalTypeAnalysis, .PhiPlacement, .BlockVarRename, .StatementPropagation]
      else []) ++ [PassID.UnusedStatementRemoval, .FinalParameterSearch] ++
      (if env.nameParameters = true then [PassID.ParameterSymbolMap] else []) ++
      [PassID.CallDefineUpdate, .CallArgumentUpdate, .BranchAnalysis]).map
      fun id => Event.pass id p), ?_, ?_⟩
  · unfold lateDecompile
    simp only [executePasses_eq, DecompState.log]
    by_cases hs : s.status p < ProcStatus.PROC_FINAL <;>
      cases hn : env.nameParameters <;> simp [hs, executePasses_eq]
  · intro q
    rw [List.count_cons, count_call_pass_map]
    by_cases hq : q = p
    · simp [hq]
    · have : ¬ p = q := fun e => hq e.symm
      simp [hq, this]

theorem lateFold_calls (env : Environment) (l : List UserProc) :
    ∀ s : DecompState, ∃ t,
      l.foldl (fun st proc => lateDecompile env st proc) s = { s with trace := s.trace ++ t } ∧
      ∀ q, t.count (.call .lateDecompile q) = l.count q := by
  induction l with
  | nil => intro s; exact ⟨[], by simp, fun q => by simp⟩
  | cons p rest ih =>
    intro s
    obtain ⟨t1, e1, c1⟩ := lateDecompile_calls env s p
    obtain ⟨t2, e2, c2⟩ := ih (lateDecompile env s p)
    refine ⟨t1 ++ t2, ?_, fun q => ?_⟩
    · rw [List.foldl_cons, e2, e1]
      simp
    · rw [List.count_append, c1, c2, List.count_cons]
      by_cases hq : q = p
      · have : (p == q) = true := by simp [hq]
        simp [hq]
        omega
      · have : ¬ p = q := fun e => hq e.symm
        simp [hq, this]

theorem groupAnalysisLoop_repeat (env : Environment)
    (tryRec : UserProc → DecompState → Except DriverError DecompState) (fuel : Nat)
    (entry : UserProc) :
    ∀ (k numRepeats : Nat) (s s2 : DecompState), numRepeats ≤ 2 → 3 - numRepeats ≤ k →
      groupAnalysisLoop env tryRec fuel entry k numRepeats s = .ok s2 →
      ∃ (n : Nat) (flags : List Bool), 1 ≤ n ∧ n ≤ 3 - numRepeats ∧ flags.length = n ∧
        repeatGroupPass env tryRec fuel entry n s = .ok (flags, s2) ∧
        (∀ c ∈ flags.dropLast, c = true) ∧
        (flags.getLast? = some false ∨ n = 3 - numRepeats) := by
  intro k
  induction k with
  | zero =>
    intro numRepeats s s2 h1 h2
    omega
  | succ k ih =>
    intro numRepeats s s2 h1 h2 h
    rw [groupAnalysisLoop] at h
    cases hd : decompileProcInRecursionGroup env tryRec fuel entry [] s with
    | error e =>
      rw [hd] at h
      cases h
    | ok r =>
      rw [hd] at h
      simp only [Except.bind] at h
      by_cases hc : (r.1 && decide (numRepeats < 2)) = true
      · rw [if_pos hc] at h
        simp only [Bool.and_eq_true, decide_eq_true_eq] at hc
        obtain ⟨n, flags, a1, a2, a0, a3, a4, a5⟩ :=
          ih (numRepeats + 1) r.2.2 s2 (by omega) (by omega) h
        have hne : flags ≠ [] := by
          intro e
          rw [e] at a0
          simp at a0
          omega
        refine ⟨n + 1, r.1 :: flags, by omega, by omega, by simp [a0], ?_, ?_, ?_⟩
        · simp only [repeatGroupPass, hd, Except.bind, a3, Except.map]
        · intro c hcm
          rw [dropLast_cons_of_ne_nil _ _ hne] at hcm
          rcases List.mem_cons.mp hcm with e | e
          · rw [e]
            exact hc.1
          · exact a4 c e
        · rw [getLast?_cons_of_ne_nil _ _ hne]
          rcases a5 with e | e
          · exact Or.inl e
          · exact Or.inr (by omega)
      · rw [if_neg hc] at h
        injection h with h
        subst h
        refine ⟨1, [r.1], Nat.le_refl 1, by omega, rfl, ?_, ?_, ?_⟩
        · simp only [repeatGroupPass, hd, Except.bind, Except.map]
        · intro c hcm
          simp at hcm
        · simp only [List.getLast?_singleton]
          simp only [Bool.and_eq_true, decide_eq_true_eq, not_and] at hc
          cases hb : r.1
          · exact Or.inl rfl
          · exact Or.inr (by have := hc hb; omega)

set_option maxRecDepth 100000 in
/-- C27 (as stated) fails: on two mutually recursive procedures whose passes always report
a change, the single recursion group analysis runs the depth-first pass from its entry `0`
three times. -/
theorem group_pass_runs_three_times :
    (traceAfter (decompileRecursive (mutualRecursion true) 10 0)).count
      (.call .recursionGroupAnalysis 0) = 1 ∧
    (traceAfter (decompileRecursive (mutualRecursion true) 10 0)).count
      (.call .decompileProcInRecursionGroup 0) = 3 := by
  decide

/-- C27 (amended): `recursionGroupAnalysis` on a group with first member `entry` runs the
depth-first pass from `entry` with a fresh visited set `n` times in a row, `1 ≤ n ≤ 3`:
every run but the last reports a change, and the last run is the first one that reports no
change unless it is the third. Then `lateDecompile` is entered twice for every member of
the group. -/
theorem recursionGroupAnalysis_runs (env : Environment)
    (tryRec : UserProc → DecompState → Except DriverError DecompState) (fuel : Nat)
    (s s2 : DecompState) (group : Nat) (entry : UserProc) (rest : List UserProc)
    (hg : s.getSet group = entry :: rest)
    (h : recursionGroupAnalysis env tryRec fuel s group = .ok s2) :
    ∃ (n : Nat) (flags : List Bool) (s1 : DecompState) (t : List Event),
      1 ≤ n ∧ n ≤ 3 ∧ flags.length = n ∧
      repeatGroupPass env tryRec fuel entry n (s.log (.call .recursionGroupAnalysis entry)) =
        .ok (flags, s1) ∧
      (∀ c ∈ flags.dropLast, c = true) ∧
      (flags.getLast? = some false ∨ n = 3) ∧
      s2 = { s1 with trace := s1.trace ++ t } ∧
      ∀ q, t.count (.call .lateDecompile q) = 2 * (s1.getSet group).count q := by
  unfold recursionGroupAnalysis at h
  rw [hg] at h
  simp only [] at h
  cases hl : groupAnalysisLoop env tryRec fuel entry 3 0
      (s.log (.call .recursionGroupAnalysis entry)) with
  | error e =>
    rw [hl] at h
    cases h
  | ok s1 =>
    rw [hl] at h
    simp only [Except.map] at h
    injection h with h
    obtain ⟨n, flags, a1, a2, a0, a3, a4, a5⟩ :=
      groupAnalysisLoop_repeat env tryRec fuel entry 3 0 _ s1 (by decide) (by decide) hl
    obtain ⟨t1, e1, c1⟩ := lateFold_calls env (s1.getSet group) s1
    have hset : DecompState.getSet { s1 with trace := s1.trace ++ t1 } group =
        s1.getSet group := rfl
    obtain ⟨t2, e2, c2⟩ := lateFold_calls env (s1.getSet group)
      { s1 with trace := s1.trace ++ t1 }
    refine ⟨n, flags, s1, t1 ++ t2, a1, a2, a0, a3, a4, a5, ?_, fun q => ?_⟩
    · rw [← h]
      simp only [List.range_succ, List.range_zero, List.nil_append, List.foldl_cons,
        List.foldl_nil, List.foldl_append]
      rw [e1, hset, e2]
      simp
    · rw [List.count_append, c1, c2]
      omega

set_option maxRecDepth 100000 in
/-- For the group `{0, 1}` of two mutually recursive procedures whose passes report no
change, the analysis ends normally. -/
theorem recursionGroupAnalysis_runs_witness :
    ∃ (n : Nat) (flags : List Bool) (s1 : DecompState) (t : List Event),
      1 ≤ n ∧ n ≤ 3 ∧ flags.length = n ∧
      repeatGroupPass (mutualRecursion false) (fun _ st => .ok st) 5 0 n
          ((createGroupOf DecompState.init [0, 1]).log (.call .recursionGroupAnalysis 0)) =
        .ok (flags, s1) ∧
      (∀ c ∈ flags.dropLast, c = true) ∧
      (flags.getLast? = some false ∨ n = 3) ∧
      stateAfter (recursionGroupAnalysis (mutualRecursion false) (fun _ st => .ok st) 5
          (createGroupOf DecompState.init [0, 1]) 0) =
        { s1 with trace := s1.trace ++ t } ∧
      ∀ q, t.count (.call .lateDecompile q) = 2 * (s1.getSet 0).count q :=
  recursionGroupAnalysis_runs (mutualRecursion false) (fun _ st => .ok st) 5
    (createGroupOf DecompState.init [0, 1])
    (stateAfter (recursionGroupAnalysis (mutualRecursion false) (fun _ st => .ok st) 5
      (createGroupOf DecompState.init [0, 1]) 0))
    0 0 [1] (by decide) (by rfl)

/-! ### The call stack is restored -/

theorem assignGroup_stack (st : DecompState) (ug : Nat) (site : Site) :
    (assignGroup st ug site).m_callStack = st.m_callStack :=
  (assignFold_spec ug site (st.getSet ug) st).2.1

theorem createGroupOf_stack (s : DecompState) (members : List UserProc) :
    (createGroupOf s members).m_callStack = s.m_callStack := by
  have hs1 := sameButHeap_insertAll members s.newProcSet.1 s.newProcSet.2
  have hv : s.newProcSet.2 < (s.newProcSet.1.insertAll s.newProcSet.2 members).procSets.length :=
    Nat.lt_of_lt_of_le (by simp) hs1.length
  obtain ⟨c1, _, _, _⟩ := createFold_spec (fun _ => True)
    (s.newProcSet.1.insertAll s.newProcSet.2 members) s.newProcSet.2 hv (fun _ _ _ => trivial)
    ((s.newProcSet.1.insertAll s.newProcSet.2 members).getSet s.newProcSet.2)
    (s.newProcSet.1.insertAll s.newProcSet.2 members, s.newProcSet.2)
    ⟨SameButHeap.refl _, hv, fun x hx => hx, fun _ _ _ => trivial⟩
  have hsame := ((sameButHeap_newProcSet s).trans hs1).trans c1
  unfold createGroupOf createRecursionGoup
  rw [assignGroup_stack, hsame.stack]

theorem addToRecursionGroup_stack (s : DecompState) (p : UserProc) (rg : Nat) :
    (addToRecursionGroup s p rg).m_callStack = s.m_callStack := by
  unfold addToRecursionGroup
  by_cases hreg : (s.m_recursionGroups p).isSome = true
  · simp only [hreg, if_true]
    rw [assignGroup_stack, DecompState.insertInto_callStack,
      (sameButHeap_unionInto (s.getSet rg) s.newProcSet.1 s.newProcSet.2).stack]
    rfl
  · simp only [hreg, Bool.false_eq_true, if_false]
    rw [assignGroup_stack]
    simp

theorem addFold_stack (rg : Nat) (above : List UserProc) :
    ∀ s : DecompState,
      (above.foldl (fun st p => addToRecursionGroup st p rg) s).m_callStack = s.m_callStack := by
  induction above with
  | nil => intro s; rfl
  | cons p rest ih =>
    intro s
    rw [List.foldl_cons, ih, addToRecursionGroup_stack]

theorem cycleCall_stack (s s2 : DecompState) (proc callee : UserProc)
    (h : cycleCall s proc callee = .ok s2) : s2.m_callStack = s.m_callStack := by
  unfold cycleCall at h
  simp only [] at h
  by_cases hc : callee ∈ s.m_callStack
  · rw [if_pos hc] at h
    simp only [Except.map] at h
    injection h with h
    rw [← h]
    simp [createGroupOf_stack]
  · rw [if_neg hc] at h
    cases hrg : s.recursionGroup callee with
    | none =>
      rw [hrg] at h
      simp only [Except.map] at h
      injection h with h
      rw [← h]
      simp
    | some g =>
      rw [hrg] at h
      simp only [] at h
      cases hdw : s.m_callStack.dropWhile (fun func => decide (func ∉ s.getSet g)) with
      | nil =>
        rw [hdw] at h
        simp [Except.map] at h
      | cons f above =>
        rw [hdw] at h
        simp only [Except.map] at h
        injection h with h
        rw [← h]
        simp [addFold_stack]

theorem middleDecompile_stack (env : Environment)
    (tryRec : UserProc → DecompState → Except DriverError DecompState)
    (htry : ∀ p s s2, tryRec p s = .ok s2 → s2.m_callStack = s.m_callStack)
    (s s2 : DecompState) (proc : UserProc) (h : middleDecompile env tryRec s proc = .ok s2) :
    s2.m_callStack = s.m_callStack := by
  obtain ⟨hl, sq, hq, hc⟩ := middleDecompile_cases env tryRec s s2 proc h
  rcases hc with rfl | rfl | ⟨sp, s8, hp, ht, rfl⟩
  · simp [hq.callStack]
  · exact hq.callStack
  · obtain ⟨_, rfl⟩ := pop_ok _ _ _ hp
    have h8 := htry _ _ _ ht
    simp only [DecompState.push_callStack, h8, DecompState.setStatus_callStack, hq.callStack]
    exact (stack_eq_dropLast_append hl).symm

theorem visitCallee_stack
    (dfs : UserProc → ProcSet → DecompState → Except DriverError (Bool × ProcSet × DecompState))
    (hdfs : ∀ p v s r, dfs p v s = .ok r → r.2.2.m_callStack = s.m_callStack)
    (proc : UserProc) (acc r : Bool × ProcSet × DecompState) (c : Function)
    (h : visitCallee dfs proc acc c = .ok r) : r.2.2.m_callStack = acc.2.2.m_callStack := by
  unfold visitCallee at h
  split at h
  · injection h with h
    subst h
    rfl
  · split at h
    · injection h with h
      subst h
      rfl
    · split at h
      · cases h
      · split at h
        · injection h with h
          subst h
          rfl
        · cases hd : dfs c.id acc.2.1 acc.2.2 with
          | error e =>
            rw [hd] at h
            simp [Except.map] at h
          | ok r1 =>
            rw [hd] at h
            simp only [Except.map] at h
            injection h with h
            subst h
            exact hdfs _ _ _ r1 hd

theorem visitFold_stack
    (dfs : UserProc → ProcSet → DecompState → Except DriverError (Bool × ProcSet × DecompState))
    (hdfs : ∀ p v s r, dfs p v s = .ok r → r.2.2.m_callStack = s.m_callStack)
    (proc : UserProc) (callees : List Function) :
    ∀ (acc r : Bool × ProcSet × DecompState),
      callees.foldlM (visitCallee dfs proc) acc = .ok r →
      r.2.2.m_callStack = acc.2.2.m_callStack := by
  induction callees with
  | nil =>
    intro acc r h
    simp only [List.foldlM_nil, pure, Except.pure] at h
    injection h with h
    subst h
    rfl
  | cons c rest ih =>
    intro acc r h
    simp only [List.foldlM_cons, bind, Except.bind] at h
    cases hv : visitCallee dfs proc acc c with
    | error e =>
      rw [hv] at h
      cases h
    | ok r1 =>
      rw [hv] at h
      exact (ih r1 r h).trans (visitCallee_stack dfs hdfs proc acc r1 c hv)

theorem dropLast_append_singleton (l : List UserProc) (p : UserProc) :
    (l ++ [p]).dropLast = l := by
  simp

theorem decompileProcInRecursionGroup_stack (env : Environment)
    (tryRec : UserProc → DecompState → Except DriverError DecompState)
    (htry : ∀ p s s2, tryRec p s = .ok s2 → s2.m_callStack = s.m_callStack) :
    ∀ (fuel : Nat) (proc : UserProc) (visited : ProcSet) (s : DecompState)
      (r : Bool × ProcSet × DecompState),
      decompileProcInRecursionGroup env tryRec fuel proc visited s = .ok r →
      r.2.2.m_callStack = s.m_callStack := by
  intro fuel
  induction fuel with
  | zero =>
    intro proc visited s r h
    simp [decompileProcInRecursionGroup] at h
  | succ fuel ih =>
    intro proc visited s r h
    unfold decompileProcInRecursionGroup at h
    simp only [] at h
    cases hf : (env.getCallees proc
        ((s.log (.call .decompileProcInRecursionGroup proc)).push proc).trace.length).foldlM
        (visitCallee (decompileProcInRecursionGroup env tryRec fuel) proc)
        (false, procSetInsert visited proc,
          (s.log (.call .decompileProcInRecursionGroup proc)).push proc) with
    | error e =>
      rw [hf] at h
      cases h
    | ok r1 =>
      rw [hf] at h
      simp only [Except.bind] at h
      have e1 := visitFold_stack _ ih proc _ _ _ hf
      cases hm : middleDecompile env tryRec
          (earlyDecompile env (r1.2.2.setStatus proc .PROC_INCYCLE .groupEnter) proc) proc with
      | error e =>
        rw [hm] at h
        cases h
      | ok s2 =>
        rw [hm] at h
        simp only [] at h
        have e2 := middleDecompile_stack env tryRec htry _ _ _ hm
        have e3 := (quiet_earlyDecompile env
          (r1.2.2.setStatus proc .PROC_INCYCLE .groupEnter) proc).callStack
        cases hp : DecompState.pop
            ((((((s2.setStatus proc .PROC_PRESERVEDS .preserveds).executePass env
              .LocalAndParamMap proc).1.executePass env .CallArgumentUpdate proc).1.executePass
              env .Dominators proc).1.executePass env .StatementPropagation proc).1) proc with
        | error e =>
          rw [hp] at h
          simp [Except.map] at h
        | ok s5 =>
          rw [hp] at h
          simp only [Except.map] at h
          injection h with h
          subst h
          obtain ⟨_, rfl⟩ := pop_ok _ _ _ hp
          have e5 : (((((s2.setStatus proc .PROC_PRESERVEDS .preserveds).executePass env
              .LocalAndParamMap proc).1.executePass env .CallArgumentUpdate proc).1.executePass
              env .Dominators proc).1.executePass env .StatementPropagation proc).1.m_callStack =
              s2.m_callStack := by
            simp [DecompState.executePass]
          simp only [e5, e2, e3, DecompState.setStatus_callStack, e1,
            DecompState.push_callStack, DecompState.log_callStack]
          exact dropLast_append_singleton _ _

theorem groupAnalysisLoop_stack (env : Environment)
    (tryRec : UserProc → DecompState → Except DriverError DecompState)
    (htry : ∀ p s s2, tryRec p s = .ok s2 → s2.m_callStack = s.m_callStack)
    (fuel : Nat) (entry : UserProc) :
    ∀ (k numRepeats : Nat) (s s2 : DecompState),
      groupAnalysisLoop env tryRec fuel entry k numRepeats s = .ok s2 →
      s2.m_callStack = s.m_callStack := by
  intro k
  induction k with
  | zero =>
    intro n s s2 h
    simp only [groupAnalysisLoop] at h
    injection h with h
    subst h
    rfl
  | succ k ih =>
    intro n s s2 h
    unfold groupAnalysisLoop at h
    cases hd : decompileProcInRecursionGroup env tryRec fuel entry [] s with
    | error e =>
      rw [hd] at h
      cases h
    | ok r =>
      rw [hd] at h
      simp only [Except.bind] at h
      have e1 := decompileProcInRecursionGroup_stack env tryRec htry fuel entry [] s r hd
      split at h
      · exact (ih _ _ _ h).trans e1
      · injection h with h
        subst h
        exact e1

theorem recursionGroupAnalysis_stack (env : Environment)
    (tryRec : UserProc → DecompState → Except DriverError DecompState)
    (htry : ∀ p s s2, tryRec p s = .ok s2 → s2.m_callStack = s.m_callStack)
    (fuel : Nat) (s s2 : DecompState) (group : Nat)
    (h : recursionGroupAnalysis env tryRec fuel s group = .ok s2) :
    s2.m_callStack = s.m_callStack := by
  unfold recursionGroupAnalysis at h
  split at h
  · injection h with h
    subst h
    rfl
  · rename_i entry rest hg
    cases hl : groupAnalysisLoop env tryRec fuel entry 3 0
        (s.log (.call .recursionGroupAnalysis entry)) with
    | error e =>
      rw [hl] at h
      cases h
    | ok s1 =>
      rw [hl] at h
      simp only [Except.map] at h
      injection h with h
      have e1 := groupAnalysisLoop_stack env tryRec htry fuel entry 3 0 _ s1 hl
      have hq : Quiet s1 ((List.range 2).foldl (fun st _ =>
          (st.getSet group).foldl (fun st2 proc => lateDecompile env st2 proc) st) s1) :=
        quiet_foldl _ (fun st _ => quiet_foldl _ (fun st2 p => quiet_lateDecompile env st2 p) _ st)
          _ s1
      rw [← h, hq.callStack, e1]
      rfl

theorem groupCheck_stack (env : Environment)
    (tryRec : UserProc → DecompState → Except DriverError DecompState)
    (htry : ∀ p s s2, tryRec p s = .ok s2 → s2.m_callStack = s.m_callStack)
    (fuel : Nat) (s s2 : DecompState) (proc : UserProc)
    (h : groupCheck env tryRec fuel s proc = .ok s2) : s2.m_callStack = s.m_callStack := by
  unfold groupCheck at h
  split at h
  · cases h
  · split at h
    · cases h
    · split at h
      · cases hr : recursionGroupAnalysis env tryRec fuel s _ with
        | error e =>
          rw [hr] at h
          simp [Except.map] at h
        | ok s1 =>
          rw [hr] at h
          simp only [Except.map] at h
          injection h with h
          rw [← h]
          simp [recursionGroupAnalysis_stack env tryRec htry fuel s s1 _ hr]
      · injection h with h
        subst h
        rfl

theorem processCallBB_stack
    (tryRec : UserProc → DecompState → Except DriverError DecompState)
    (htry : ∀ p s s2, tryRec p s = .ok s2 → s2.m_callStack = s.m_callStack)
    (proc : UserProc) (s s2 : DecompState) (bb : BasicBlock)
    (h : processCallBB tryRec proc s bb = .ok s2) : s2.m_callStack = s.m_callStack := by
  unfold processCallBB at h
  split at h
  · injection h with h
    subst h
    rfl
  · split at h
    · injection h with h
      subst h
      rfl
    · split at h
      · injection h with h
        subst h
        rfl
      · rename_i f hf
        split at h
        · injection h with h
          subst h
          rfl
        · split at h
          · injection h with h
            subst h
            rfl
          · split at h
            · exact cycleCall_stack _ _ _ _ h
            · cases ht : tryRec f.id s with
              | error e =>
                rw [ht] at h
                simp [Except.map] at h
              | ok s1 =>
                rw [ht] at h
                simp only [Except.map] at h
                injection h with h
                rw [← h]
                split
                · simp [htry _ _ _ ht]
                · exact htry _ _ _ ht

theorem callLoop_stack
    (tryRec : UserProc → DecompState → Except DriverError DecompState)
    (htry : ∀ p s s2, tryRec p s = .ok s2 → s2.m_callStack = s.m_callStack)
    (proc : UserProc) (bbs : List BasicBlock) :
    ∀ (s s2 : DecompState), bbs.foldlM (processCallBB tryRec proc) s = .ok s2 →
      s2.m_callStack = s.m_callStack := by
  induction bbs with
  | nil =>
    intro s s2 h
    simp only [List.foldlM_nil, pure, Except.pure] at h
    injection h with h
    subst h
    rfl
  | cons bb rest ih =>
    intro s s2 h
    simp only [List.foldlM_cons, bind, Except.bind] at h
    cases hv : processCallBB tryRec proc s bb with
    | error e =>
      rw [hv] at h
      cases h
    | ok s1 =>
      rw [hv] at h
      exact (ih s1 s2 h).trans (processCallBB_stack tryRec htry proc s s1 bb hv)

theorem earlyAndMiddle_stack (env : Environment)
    (tryRec : UserProc → DecompState → Except DriverError DecompState)
    (htry : ∀ p s s2, tryRec p s = .ok s2 → s2.m_callStack = s.m_callStack)
    (s s2 : DecompState) (proc : UserProc) (h : earlyAndMiddle env tryRec s proc = .ok s2) :
    s2.m_callStack = s.m_callStack := by
  unfold earlyAndMiddle at h
  split at h
  · exact (middleDecompile_stack env tryRec htry _ _ _ h).trans
      (quiet_earlyDecompile env s proc).callStack
  · injection h with h
    subst h
    rfl

theorem finishProc_stack (env : Environment)
    (tryRec : UserProc → DecompState → Except DriverError DecompState)
    (htry : ∀ p s s2, tryRec p s = .ok s2 → s2.m_callStack = s.m_callStack)
    (fuel : Nat) (s s2 : DecompState) (proc : UserProc)
    (h : finishProc env tryRec fuel s proc = .ok s2) :
    s2.m_callStack = s.m_callStack.dropLast := by
  unfold finishProc at h
  cases h6 : (if s.status proc ≠ .PROC_INCYCLE then
      Except.ok ((lateDecompile env s proc).setStatus proc .PROC_FINAL .final)
    else if (s.m_recursionGroups proc).isSome then groupCheck env tryRec fuel s proc
    else .ok s) with
  | error e =>
    rw [h6] at h
    cases h
  | ok s6 =>
    rw [h6] at h
    simp only [Except.bind] at h
    obtain ⟨_, rfl⟩ := pop_ok _ _ _ h
    have e6 : s6.m_callStack = s.m_callStack := by
      split at h6
      · injection h6 with h6
        rw [← h6]
        simp [(quiet_lateDecompile env s proc).callStack]
      · split at h6
        · exact groupCheck_stack env tryRec htry fuel s s6 proc h6
        · injection h6 with h6
          rw [← h6]
    simp [e6]

theorem tryDecompileRecursive_stack (env : Environment) :
    ∀ (fuel : Nat) (proc : UserProc) (s s2 : DecompState),
      tryDecompileRecursive env fuel proc s = .ok s2 → s2.m_callStack = s.m_callStack := by
  intro fuel
  induction fuel with
  | zero =>
    intro proc s s2 h
    simp [tryDecompileRecursive] at h
  | succ fuel ih =>
    intro proc s s2 h
    unfold tryDecompileRecursive at h
    split at h
    · injection h with h
      subst h
      rfl
    · split at h
      · injection h with h
        subst h
        rfl
      · simp only [] at h
        generalize hs3 : DecompState.push _ proc = s3 at h
        have e3 : s3.m_callStack = s.m_callStack ++ [proc] := by
          rw [← hs3]
          simp only [DecompState.push_callStack]
          split <;> split <;> simp
        cases hloop : (if env.decodeChildren = true then
            (env.cfg proc s3.trace.length).foldlM
              (processCallBB (tryDecompileRecursive env fuel) proc) s3
            else Except.ok s3) with
        | error e =>
          rw [hloop] at h
          cases h
        | ok s4 =>
          rw [hloop] at h
          simp only [Except.bind] at h
          have e4 : s4.m_callStack = s3.m_callStack := by
            split at hloop
            · exact callLoop_stack _ ih proc _ s3 s4 hloop
            · injection hloop with hloop
              rw [← hloop]
          cases hmid : earlyAndMiddle env (tryDecompileRecursive env fuel) s4 proc with
          | error e =>
            rw [hmid] at h
            cases h
          | ok s5 =>
            rw [hmid] at h
            simp only [] at h
            have e5 := earlyAndMiddle_stack env _ ih s4 s5 proc hmid
            have e6 := finishProc_stack env _ ih fuel s5 s2 proc h
            rw [e6, e5, e4, e3]
            simp

/-- C28: every call of `tryDecompileRecursive` that returns leaves `m_callStack` as it was
at entry, and so does every call of `middleDecompile`. When `middleDecompile(p)` has
decoded an indirect jump or call and the re-decoding succeeds, `p` is the top of the call
stack; `p` is set to `Visited` and removed from the call stack, `tryDecompileRecursive(p)`
runs on that state, and `p` is pushed back on the state it returns. -/
theorem callStack_restored (env : Environment) (fuel : Nat) (proc : UserProc)
    (s s2 : DecompState) (h : tryDecompileRecursive env fuel proc s = .ok s2) :
    s2.m_callStack = s.m_callStack ∧
    ∀ p st st2, middleDecompile env (tryDecompileRecursive env fuel) st p = .ok st2 →
      st2.m_callStack = st.m_callStack ∧
      (env.decodeIndirectJmp p (middlePasses env st p).trace.length = true →
        env.reDecode p ((middlePasses env st p).log (.indirect p true)).trace.length = true →
        ∃ sa sb, sa.status p = .PROC_VISITED ∧
          sa.m_callStack = st.m_callStack.dropLast ∧
          st.m_callStack = st.m_callStack.dropLast ++ [p] ∧
          tryDecompileRecursive env fuel p sa = .ok sb ∧ st2 = sb.push p) := by
  refine ⟨tryDecompileRecursive_stack env fuel proc s s2 h, fun p st st2 hm => ⟨?_, ?_⟩⟩
  · exact middleDecompile_stack env _ (tryDecompileRecursive_stack env fuel) st st2 p hm
  · intro hc hr
    obtain ⟨hl, _⟩ := middleDecompile_cases env _ st st2 p hm
    unfold middleDecompile at hm
    rw [if_neg (not_not.mpr hl), if_pos hc, if_pos hr] at hm
    cases hp : ((((middlePasses env st p).log (.indirect p true)).log
        (.reDecode p true)).setStatus p .PROC_VISITED .restart).pop p with
    | error e =>
      rw [hp] at hm
      simp [Except.map, bind, Except.bind] at hm
    | ok sp =>
      rw [hp] at hm
      cases ht : tryDecompileRecursive env fuel p sp with
      | error e =>
        simp [Except.map, bind, Except.bind, ht] at hm
      | ok s8 =>
        simp only [Except.map, bind, Except.bind, ht] at hm
        injection hm with hm
        obtain ⟨_, hsp⟩ := pop_ok _ _ _ hp
        refine ⟨sp, s8, ?_, ?_, stack_eq_dropLast_append hl, ht, hm.symm⟩
        · rw [hsp]
          simp
        · rw [hsp]
          simp [(quiet_middlePasses env st p).callStack]

set_option maxRecDepth 100000 in
/-- The run on `restartOnce` restarts procedure `0` once (the status write of the restart
is in the trace) and ends with the empty call stack it started with. -/
theorem callStack_restored_witness :
    Event.status 0 .PROC_VISITED .PROC_VISITED .restart ∈
      traceAfter (tryDecompileRecursive restartOnce 10 0 DecompState.init) ∧
    ((stateAfter (tryDecompileRecursive restartOnce 10 0 DecompState.init)).m_callStack =
        DecompState.init.m_callStack ∧
      ∀ p st st2,
        middleDecompile restartOnce (tryDecompileRecursive restartOnce 10) st p = .ok st2 →
        st2.m_callStack = st.m_callStack ∧
        (restartOnce.decodeIndirectJmp p (middlePasses restartOnce st p).trace.length = true →
          restartOnce.reDecode p
            ((middlePasses restartOnce st p).log (.indirect p true)).trace.length = true →
          ∃ sa sb, sa.status p = .PROC_VISITED ∧
            sa.m_callStack = st.m_callStack.dropLast ∧
            st.m_callStack = st.m_callStack.dropLast ++ [p] ∧
            tryDecompileRecursive restartOnce 10 p sa = .ok sb ∧ st2 = sb.push p)) :=
  ⟨by decide,
    callStack_restored restartOnce 10 0 DecompState.init
      (stateAfter (tryDecompileRecursive restartOnce 10 0 DecompState.init)) (by rfl)⟩

/-! ### Gotos, `continue` and `break` -/

/-- C31: `emitGotoAndLabel(bb, dest)` writes `continue;` when `dest` is the head of the
loop of `bb`, `break;` when it is the follow of that loop, otherwise the code of `dest`
itself when `dest` is a return block, and only otherwise the goto to the address of
`dest`. The address of `dest` is put in the set of used labels in the last case; in the
other cases the set stays as it is (writing a block does not touch the set). -/
theorem emitGotoAndLabel_cases (loopHead loopFollow : Option Nat)
    (writeBB : EmitBlock → CCodeGenerator → CCodeGenerator) (dest : EmitBlock)
    (g : CCodeGenerator)
    (hw : ∀ b g0, (writeBB b g0).m_usedLabels = g0.m_usedLabels) :
    (loopHead = some dest.id →
      emitGotoAndLabel loopHead loopFollow writeBB dest g =
        appendLine g (indent "" g.m_indent ++ "continue;")) ∧
    (loopHead.isSome = true → loopHead ≠ some dest.id → loopFollow = some dest.id →
      emitGotoAndLabel loopHead loopFollow writeBB dest g =
        appendLine g (indent "" g.m_indent ++ "break;")) ∧
    (¬ (loopHead.isSome = true ∧ (loopHead = some dest.id ∨ loopFollow = some dest.id)) →
      dest.isRet = true →
      emitGotoAndLabel loopHead loopFollow writeBB dest g = writeBB dest g) ∧
    (¬ (loopHead.isSome = true ∧ (loopHead = some dest.id ∨ loopFollow = some dest.id)) →
      dest.isRet = false →
      emitGotoAndLabel loopHead loopFollow writeBB dest g = addGoto g dest.lowAddr ∧
      (emitGotoAndLabel loopHead loopFollow writeBB dest g).m_lines =
        g.m_lines ++ [indent "" g.m_indent ++ "goto bb0x" ++ number dest.lowAddr 16 ++ ";"] ∧
      dest.lowAddr ∈ (emitGotoAndLabel loopHead loopFollow writeBB dest g).m_usedLabels) ∧
    ((loopHead.isSome = true ∧ (loopHead = some dest.id ∨ loopFollow = some dest.id)) ∨
        dest.isRet = true →
      (emitGotoAndLabel loopHead loopFollow writeBB dest g).m_usedLabels = g.m_usedLabels) := by
  refine ⟨?_, ?_, ?_, ?_, ?_⟩
  · intro h
    simp [emitGotoAndLabel, h, addContinue]
  · intro h1 h2 h3
    simp [emitGotoAndLabel, h1, h2, h3, addBreak]
  · intro h1 h2
    unfold emitGotoAndLabel
    rw [if_neg h1, if_pos h2]
  · intro h1 h2
    have e : emitGotoAndLabel loopHead loopFollow writeBB dest g = addGoto g dest.lowAddr := by
      unfold emitGotoAndLabel
      rw [if_neg h1]
      simp [h2]
    refine ⟨e, ?_, ?_⟩
    · rw [e]
      simp [addGoto, appendLine]
    · rw [e]
      unfold addGoto
      simp only []
      split
      · assumption
      · exact List.mem_cons_self _ _
  · intro h
    unfold emitGotoAndLabel
    by_cases h1 : loopHead.isSome = true ∧ (loopHead = some dest.id ∨ loopFollow = some dest.id)
    · rw [if_pos h1]
      split <;> rfl
    · rw [if_neg h1]
      rcases h with h | h
      · exact absurd h h1
      · rw [if_pos h]
        exact hw dest g

/-- Without an enclosing loop, a goto to the block at `0x100` records the address `0x100`
and a goto to a return block writes that block instead. -/
theorem emitGotoAndLabel_cases_witness :
    (emitGotoAndLabel none none (fun b g0 => addLabel g0 b.lowAddr) ⟨7, 256, false⟩ {}).m_lines =
      ["goto bb0x100;"] ∧
    (emitGotoAndLabel none none (fun b g0 => addLabel g0 b.lowAddr) ⟨7, 256, false⟩
      {}).m_usedLabels = [256] ∧
    (emitGotoAndLabel none none (fun b g0 => addLabel g0 b.lowAddr) ⟨8, 512, true⟩
      {}).m_usedLabels = [] :=
  ⟨by
      have h := (emitGotoAndLabel_cases none none (fun b g0 => addLabel g0 b.lowAddr)
        ⟨7, 256, false⟩ {} (fun _ _ => rfl)).2.2.2.1 (by decide) rfl
      rw [h.1]
      decide,
    by decide,
    (emitGotoAndLabel_cases none none (fun b g0 => addLabel g0 b.lowAddr) ⟨8, 512, true⟩ {}
      (fun _ _ => rfl)).2.2.2.2 (Or.inr rfl)⟩

/-! ### Unsigned integer constants -/

/-- C32: for an integer constant `K < 0` emitted with the unsigned flag set, `appendExp`
writes `K + 2^32` in decimal followed by `U` when `(K + 2^32) mod 100` is 0 or 99 or when
`K > -128`, and otherwise `0x` followed by the hexadecimal digits of `K + 2^32`; for
`K >= 0` the text is the one written without the flag. -/
theorem unsigned_intConst_text (str : String) (K : Int) (isChar : Bool)
    (hlo : -2147483648 ≤ K) :
    (K < 0 → appendIntConst str K isChar true =
      str ++ (if (K + 4294967296) % 100 = 0 ∨ (K + 4294967296) % 100 = 99 ∨ K > -128 then
        number (K + 4294967296).toNat 10 ++ "U"
      else "0x" ++ number (K + 4294967296).toNat 16)) ∧
    (0 ≤ K → appendIntConst str K isChar true = appendIntConst str K isChar false) := by
  constructor
  · intro hneg
    have hu : toUnsigned32 K = (K + 4294967296).toNat := by
      unfold toUnsigned32
      omega
    have hrem : ∀ r : Nat, (toUnsigned32 K % 100 = r ↔ (K + 4294967296) % 100 = (r : Int)) := by
      intro r
      rw [hu]
      omega
    unfold appendIntConst intConstText
    have hc : (true && decide (K < 0)) = true := by simp [hneg]
    rw [if_pos hc]
    simp only []
    congr 1
    have h0 := hrem 0
    have h99 := hrem 99
    by_cases hcond : (K + 4294967296) % 100 = 0 ∨ (K + 4294967296) % 100 = 99 ∨ K > -128
    · rw [if_pos hcond, if_pos (by
        rcases hcond with h | h | h
        · exact Or.inl (h0.mpr (by simpa using h))
        · exact Or.inr (Or.inl (h99.mpr (by simpa using h)))
        · exact Or.inr (Or.inr h)), hu]
    · rw [if_neg hcond, if_neg (by
        intro h
        apply hcond
        rcases h with h | h | h
        · exact Or.inl (by simpa using h0.mp h)
        · exact Or.inr (Or.inl (by simpa using h99.mp h))
        · exact Or.inr (Or.inr h)), hu]
  · intro hpos
    unfold appendIntConst intConstText
    have hc : ¬ K < 0 := by omega
    simp [hc]

/-- The constant `-5` with the flag is written `4294967291U`, the constant `-1000`
`0xfffffc18`. -/
theorem unsigned_intConst_text_witness :
    appendIntConst "" (-5) false true = "4294967291U" ∧
    appendIntConst "" (-1000) false true = "0xfffffc18" :=
  ⟨(unsigned_intConst_text "" (-5) false (by decide)).1 (by decide),
    (unsigned_intConst_text "" (-1000) false (by decide)).1 (by decide)⟩

/-! ### Parentheses of `opFsize` -/

set_option maxRecDepth 100000 in
/-- C33: the text that `appendExp` writes has as many `(` as `)`. The source does not keep
this for `opFsize` with a size operand other than 32, 64 and 80 over a `memOf`: for
`fsize(16, 32, m[x])` it writes `*x)`, with one `)` and no `(`, where the size 32 gives a
balanced text. -/
theorem fsize_unbalanced_parentheses :
    appendExp sampleEmitEnv ""
        (.ternary .opFsize (.intConst 16 false) (.intConst 32 false)
          (.unary .opMemOf (.unary .opLocal (.strConst "x"))))
        sampleEmitEnv.prec.None false = some "*x)" ∧
    (appendExp sampleEmitEnv ""
        (.ternary .opFsize (.intConst 16 false) (.intConst 32 false)
          (.unary .opMemOf (.unary .opLocal (.strConst "x"))))
        sampleEmitEnv.prec.None false).map parenBalance = some (-1) ∧
    (appendExp sampleEmitEnv ""
        (.ternary .opFsize (.intConst 32 false) (.intConst 64 false)
          (.unary .opMemOf (.unary .opLocal (.strConst "x"))))
        sampleEmitEnv.prec.None false).map parenBalance = some 0 := by
  refine ⟨by decide, by decide, by decide⟩

/-! ### Arguments of a call -/

/-- C34: `addCallStatement` writes every argument. The source does not: for an argument of
type pointer to function whose value is not a constant (here any unary expression, such as
a local) the cast to `Const` gives a null pointer on which `isIntConst` is called, and no
statement is written, whatever the further arguments are. -/
theorem addCallStatement_fails_on_function_pointer (env : EmitEnv)
    (getFunctionByAddr : Int → Option String) (g : CCodeGenerator) (name : String)
    (left : Exp) (op : OPER) (e1 : Exp) (rest : List Assign) :
    callArgText env getFunctionByAddr (indent "" g.m_indent ++ name ++ "(")
        ⟨some (.pointer .func), left, .unary op e1⟩ = none ∧
    addCallStatement env getFunctionByAddr g name
        (⟨some (.pointer .func), left, .unary op e1⟩ :: rest) [] = none := by
  have h : ∀ s, callArgText env getFunctionByAddr s
      ⟨some (.pointer .func), left, .unary op e1⟩ = none := by
    intro s
    simp [callArgText, Exp.isConst, SharedType.isFunc]
  refine ⟨h _, ?_⟩
  simp [addCallStatement, callArgsText, h]

/-! ### Declarators of nested arrays -/

/-- C35: for an array of `N` arrays of `M` elements the declarator has to be
`T name[N][M]`. The source writes the length of the inner array first, `T name[M][N]`:
for two arrays of four `int`s it writes `int a[4][2]`. -/
theorem appendTypeIdent_nested_array_order (N M : Nat) :
    appendTypeIdent sampleEmitEnv ""
        (some (.array (.array (.integer 32 true) (some M)) (some N))) "a" =
      "int a[" ++ number M 10 ++ "][" ++ number N 10 ++ "]" ∧
    appendTypeIdent sampleEmitEnv ""
        (some (.array (.array (.integer 32 true) (some 4)) (some 2))) "a" = "int a[4][2]" ∧
    appendTypeIdent sampleEmitEnv ""
        (some (.array (.array (.integer 32 true) (some 4)) (some 2))) "a" ≠ "int a[2][4]" := by
  refine ⟨?_, by decide, by decide⟩
  simp [appendTypeIdent, appendTypeIdentOf, appendType, sampleEmitEnv, String.append_assoc]

/-! ### 64-bit constants -/

/-- C36: a 64-bit constant is written in decimal when its signed value is between -1000
and 1000. The source compares the unsigned value with 1000, so it writes decimal exactly
for the values `0 .. 1000`; the value `-5` (the bits `2^64 - 5`) is written
`0xfffffffffffffffbLL`. -/
theorem longConst_negative_is_hex (env : EmitEnv) (str : String) (curPrec : OpPrec)
    (uns : Bool) (v : Nat) :
    appendExp env str (.longConst v) curPrec uns = some (str ++ longConstText v) ∧
    (longConstText v = if v ≤ 1000 then number v 10 ++ "LL" else "0x" ++ number v 16 ++ "LL") ∧
    appendExp env str (.longConst 18446744073709551611) curPrec uns =
      some (str ++ "0xfffffffffffffffbLL") := by
  have h1 : ∀ w, appendExp env str (.longConst w) curPrec uns = some (str ++ longConstText w) := by
    intro w
    simp [appendExp]
  refine ⟨h1 v, ?_, ?_⟩
  · unfold longConstText
    by_cases h : v ≤ 1000
    · rw [if_pos h, if_neg]
      have : v < 9223372036854775808 := by omega
      rw [if_pos this]
      omega
    · rw [if_neg h, if_pos]
      right
      omega
  · rw [h1]
    have : longConstText 18446744073709551611 = "0xfffffffffffffffbLL" := by decide
    rw [this]

/-! ### Moving a module to another parent -/

set_option maxRecDepth 100000 in
/-- C39: `addChild` keeps the parent links and the lists of children consistent. The source
does not when the module is the last child of its former parent: the loop of `removeChild`
erases the element and goes on from the iterator, which is then past the end of the
container. In the tree where the module `0` has the children `1` and `2`, moving `2` to the
module `3` fails; moving `1`, which is not the last child, gives the expected tree. -/
theorem addChild_fails_on_last_child :
    sampleTree.m_parent 2 = some 0 ∧ sampleTree.m_children 0 = [1, 2] ∧
    removeChildLoop 2 3 [1, 2] 0 = none ∧
    (sampleTree.addChild 3 2).isNone = true ∧
    (sampleTree.addChild 3 1).map (fun t => (t.m_parent 1, t.m_children 0, t.m_children 3)) =
      some (some 3, [2], [1]) := by
  refine ⟨by decide, by decide, by decide, by decide, by decide⟩

/-! ### The constant mask of `opBitAnd` -/

theorem readMaskLiteral_plain (n : Nat) :
    readMaskLiteral ("0x" ++ number n 16) = some n := by
  have h : ("0x" ++ number n 16).data = '0' :: 'x' :: Nat.toDigits 16 n := rfl
  unfold readMaskLiteral
  rw [h]
  exact readDigits_toDigits 16 (by decide) (by decide) n

theorem readMaskLiteral_negated (n : Nat) :
    readMaskLiteral ("~0x" ++ number n 16) = some (4294967295 - n) := by
  have h : ("~0x" ++ number n 16).data = '~' :: '0' :: 'x' :: Nat.toDigits 16 n := rfl
  unfold readMaskLiteral
  rw [h]
  simp only []
  rw [readDigits_toDigits 16 (by decide) (by decide) n]
  rfl

theorem toUnsigned32_lt (c : Int) : toUnsigned32 c < 4294967296 := by
  unfold toUnsigned32
  omega

set_option maxHeartbeats 4000000 in
/-- C37: when the right operand of `opBitAnd` is the integer constant `c`, `appendExp`
writes after the left operand and ` & ` either `0x` and the hexadecimal digits of `c` (as
a 32-bit value) or `~0x` and the hexadecimal digits of the 32-bit complement of `c`; the
form with `~` is taken exactly when it is strictly shorter, and the text written reads
back as the 32-bit value of `c`. -/
theorem bitAnd_const_text (env : EmitEnv) (str : String) (e1 : Exp) (c : Int)
    (isChar : Bool) (curPrec : OpPrec) (uns : Bool) (s1 : String)
    (h1 : appendExp env (openParen str curPrec env.prec.BitAnd) e1 env.prec.BitAnd false =
      some s1) :
    appendExp env str (.binary .opBitAnd e1 (.intConst c isChar)) curPrec uns =
      some (closeParen (s1 ++ " & " ++ bitAndConstText c) curPrec env.prec.BitAnd) ∧
    (bitAndConstText c = "~0x" ++ number (4294967295 - toUnsigned32 c) 16 ↔
      ("~0x" ++ number (4294967295 - toUnsigned32 c) 16).length <
        ("0x" ++ number (toUnsigned32 c) 16).length) ∧
    (bitAndConstText c = "0x" ++ number (toUnsigned32 c) 16 ↔
      ¬ ("~0x" ++ number (4294967295 - toUnsigned32 c) 16).length <
        ("0x" ++ number (toUnsigned32 c) 16).length) ∧
    readMaskLiteral (bitAndConstText c) = some (toUnsigned32 c) := by
  have hne : "0x" ++ number (toUnsigned32 c) 16 ≠
      "~0x" ++ number (4294967295 - toUnsigned32 c) 16 := by
    intro h
    have hd := congrArg String.data h
    have e1 : ("0x" ++ number (toUnsigned32 c) 16).data =
        '0' :: 'x' :: Nat.toDigits 16 (toUnsigned32 c) := rfl
    have e2 : ("~0x" ++ number (4294967295 - toUnsigned32 c) 16).data =
        '~' :: '0' :: 'x' :: Nat.toDigits 16 (4294967295 - toUnsigned32 c) := rfl
    rw [e1, e2] at hd
    have := (List.cons.inj hd).1
    exact absurd this (by decide)
  have hlt := toUnsigned32_lt c
  refine ⟨?_, ?_, ?_, ?_⟩
  · rw [appendExp, h1]
    rfl
  · unfold bitAndConstText
    constructor
    · intro h
      by_contra hn
      rw [if_neg hn] at h
      exact hne h
    · intro h
      rw [if_pos h]
  · unfold bitAndConstText
    constructor
    · intro h hn
      rw [if_pos hn] at h
      exact hne h.symm
    · intro h
      rw [if_neg h]
  · unfold bitAndConstText
    split
    · rw [readMaskLiteral_negated]
      congr 1
      omega
    · exact readMaskLiteral_plain _

/-- With the local `x` on the left, the mask `-256` is written `~0xff` and the mask `255`
is written `0xff`. -/
theorem bitAnd_const_text_witness :
    appendExp sampleEmitEnv "" (.binary .opBitAnd (.unary .opLocal (.strConst "x"))
        (.intConst (-256) false)) sampleEmitEnv.prec.None false = some "x & ~0xff" ∧
    readMaskLiteral (bitAndConstText (-256)) = some 4294967040 ∧
    bitAndConstText 255 = "0xff" :=
  ⟨by
      have h := (bitAnd_const_text sampleEmitEnv "" (.unary .opLocal (.strConst "x")) (-256)
        false sampleEmitEnv.prec.None false "x" (by decide)).1
      rw [h]
      decide,
    (bitAnd_const_text sampleEmitEnv "" (.unary .opLocal (.strConst "x")) (-256)
        false sampleEmitEnv.prec.None false "x" (by decide)).2.2.2,
    by decide⟩

/-! ### The initializer of a data section -/

theorem listElements_dataSectionList (readNative1 : Nat → Int) (section_start size : Nat) :
    ∀ i, i ≤ size →
      Exp.listElements (dataSectionList readNative1 section_start size i) =
        some (((List.range i).map fun k => size - i + k).map
          fun a => Exp.constInt (readNative1 (section_start + a) % 256))
  | 0, _ => rfl
  | i + 1, h => by
    unfold dataSectionList
    unfold Exp.listElements
    rw [listElements_dataSectionList readNative1 section_start size i (by omega)]
    simp only [Option.map_some']
    congr 1
    rw [List.range_succ_eq_map]
    simp only [List.map_cons, List.map_map]
    congr 1
    · have e : section_start + size - 1 - i = section_start + (size - (i + 1) + 0) := by omega
      rw [e]
    · apply List.map_congr_left
      intro k _
      simp only [Function.comp]
      have e : size - i + k = size - (i + 1) + (k + 1) := by omega
      rw [e]

/-- C38: for a section of `size` bytes at `section_start`, `generateDataSectionCode` builds
a list spine ended by `Nil` with exactly `size` elements, the element `k` being the integer
constant of the byte at `section_start + k`, a value in `0 .. 255`; the global
`<name>_size` gets the value `size`, or `0xFFFFFFFF` when `size` is 0. -/
theorem generateDataSectionCode_initializer (readNative1 : Nat → Int)
    (section_name : String) (section_start size : Nat) :
    Exp.listElements (generateDataSectionCode readNative1 section_name section_start
        size).dataInit =
      some ((List.range size).map
        fun k => Exp.constInt (readNative1 (section_start + k) % 256)) ∧
    ((List.range size).map
        fun k => Exp.constInt (readNative1 (section_start + k) % 256)).length = size ∧
    (∀ k, 0 ≤ readNative1 (section_start + k) % 256 ∧
      readNative1 (section_start + k) % 256 ≤ 255) ∧
    (generateDataSectionCode readNative1 section_name section_start size).sizeName =
      section_name ++ "_size" ∧
    (generateDataSectionCode readNative1 section_name section_start size).sizeInit =
      (if size = 0 then 4294967295 else size) := by
  refine ⟨?_, by simp, fun k => by omega, rfl, ?_⟩
  · have h := listElements_dataSectionList readNative1 section_start size size (le_refl _)
    simp only [generateDataSectionCode]
    rw [h]
    congr 1
    rw [List.map_map]
    apply List.map_congr_left
    intro k _
    simp
  · simp only [generateDataSectionCode]
    by_cases h : size = 0 <;> simp [h]

end Boomerang
